import Mathlib

/-!
# todo_app: task store, undo log, sorting, dates and persistence

A shallow embedding of `src/include/todo.h`, `src/src/task.c` and `src/src/main.c`.

Conventions of the embedding.

* A C string is the list of its characters before the terminating NUL (`CString`).
* The global array `tasks[0 .. task_count)` is a `List Task`; `task_count` is its length.
  `ensure_capacity` only reallocates, so it does not appear.  An access to `tasks[i]` with `i`
  outside the live slots is an access outside the modelled array and is reported as `none`.
* The global array `action_stack[0 .. action_count)` is a `List Action` in array order:
  the last element is the top of the stack.
* `int` values are `Int`; the result of the two priority comparators, which subtract two
  values read from the backing file, is reduced to 32 bits (`wrap_int`), and so is a number
  that `fscanf` stores (`store_int`).
* The time zone of the process is a parameter (`Zone`) of everything that reaches `mktime`
  or `localtime`.  `parse_date` leaves `tm_isdst = 0` in the `struct tm`, so `mktime` reads
  a due date as the zone's `tm_isdst = 0` time, whatever time is in force on that date.
* Terminal output (`mvprintw`, `clear`, `refresh`), the log file, the mutex operations and the
  `getch()` calls whose result is discarded have no effect on the task data and are left out
  of the data model; the status line is kept only where a theorem speaks about it.  What the
  foreground thread does to `task_mutex` is modelled apart, as the sequence of lock, unlock
  and blocking-input events of one turn of the loop (`turn_events`).
* Interactive input is explicit: the lines typed at the `getnstr` prompts are a list, and a
  prompt that finds the list empty yields `none`.
* libc functions (`strcmp`, `strstr`, `atoi`, `strptime`, `mktime`, `strftime`, `qsort`,
  `fprintf`, `fscanf`) are modelled from their documented behaviour; each model says so.
-/

namespace TodoApp

/-! ## todo.h -/

abbrev CString := List Char

def MAX_TITLE_LEN : Nat := 256
def MAX_CATEGORY_LEN : Nat := 50
def MAX_DATE_LEN : Nat := 12
def MAX_RECURRENCE_LEN : Nat := 10
def NO_DUE_DATE : CString := ['N', '/', 'A']
def MAX_ACTIONS : Nat := 100
def ACTIONS_BEFORE_AUTOSAVE : Int := 5

inductive ActionType where
  | ACTION_ADD
  | ACTION_DELETE
  | ACTION_EDIT
  | ACTION_COMPLETE
  deriving DecidableEq, Repr

def RECURRENCE_NONE : Int := 0
def RECURRENCE_DAILY : Int := 1
def RECURRENCE_WEEKLY : Int := 2
def RECURRENCE_BIWEEKLY : Int := 3
def RECURRENCE_MONTHLY : Int := 4
def RECURRENCE_YEARLY : Int := 5

/-- The struct `Task`.  `recurrence` holds the enum value (`parse_recurrence` can also
produce `-1`), `completed` is the C `int` flag. -/
structure Task where
  id : Int
  title : CString
  category : CString
  due_date : CString
  recurrence : Int
  priority : Int
  completed : Int
  deriving DecidableEq, Repr

/-- The struct `Action`. -/
structure Action where
  type : ActionType
  task : Task
  index : Int
  deriving DecidableEq, Repr

/-- The globals of `main.c`: `tasks`/`task_count`, `selected_task`, the two sort flags,
`action_stack`/`action_count` and the autosave counter. -/
structure State where
  tasks : List Task
  selected_task : Int
  priority_ascending : Bool
  date_ascending : Bool
  action_stack : List Action
  action_counter : Int
  deriving DecidableEq, Repr

/-- The value of `task_count`. -/
def State.task_count (s : State) : Int := s.tasks.length

/-- The value of `action_count`. -/
def State.action_count (s : State) : Nat := s.action_stack.length

/-- The state at program start with an empty backing file. -/
def initial_state : State :=
  { tasks := [], selected_task := 0, priority_ascending := true, date_ascending := true,
    action_stack := [], action_counter := 0 }

/-! ## libc string functions -/

/-- Model of libc `isspace` in the C locale. -/
def isspace (c : Char) : Bool :=
  c = ' ' || c = '\t' || c = '\n' || c = '\x0b' || c = '\x0c' || c = '\r'

/-- Model of libc `isdigit`. -/
def isdigit (c : Char) : Bool := decide ('0' ≤ c) && decide (c ≤ '9')

/-- Model of libc `strcmp`: negative, zero or positive as the first string is less than,
equal to or greater than the second, characters being compared by code. -/
def strcmp : CString → CString → Int
  | [], [] => 0
  | [], _ :: _ => -1
  | _ :: _, [] => 1
  | a :: as, b :: bs => if a = b then strcmp as bs else if a < b then -1 else 1

/-- Whether `needle` is an initial segment of `hay`. -/
def starts_with : CString → CString → Bool
  | _, [] => true
  | [], _ :: _ => false
  | h :: hs, n :: ns => h = n && starts_with hs ns

/-- Model of libc `strstr`: the offset of the first occurrence of `needle` in `hay`,
`none` for the NULL result. -/
def strstr : CString → CString → Option Nat
  | [], needle => if needle = [] then some 0 else none
  | h :: hs, needle =>
    if starts_with (h :: hs) needle then some 0 else (strstr hs needle).map (· + 1)

/-! ## task.c: ids, removal, the action stack -/

/-- The loop of `update_task_ids` from slot `i` on: `tasks[i].id = i + 1`. -/
def update_task_ids_from : Nat → List Task → List Task
  | _, [] => []
  | i, t :: ts => { t with id := (i : Int) + 1 } :: update_task_ids_from (i + 1) ts

/-- `update_task_ids(tasks, count)`. -/
def update_task_ids (tasks : List Task) : List Task := update_task_ids_from 0 tasks

/-- `remove_task(&tasks, &count, index)`: nothing when the index is out of bounds, else the
later tasks are shifted down by one slot and the count is decremented. -/
def remove_task (tasks : List Task) (index : Int) : List Task :=
  if index < 0 ∨ index ≥ (tasks.length : Int) then tasks
  else tasks.eraseIdx index.toNat

/-- The guarded push that `add_task`, `edit_task`, `toggle_task_completion` and
`delete_task_interactive` each perform: `if (action_count < MAX_ACTIONS) ...`. -/
def push_action (stack : List Action) (a : Action) : List Action :=
  if stack.length < MAX_ACTIONS then stack ++ [a] else stack

/-- `undo_last_action(&tasks, &count, &capacity)`, returning the status line and the new
globals.  `none` only when the popped action names a slot outside the array. -/
def undo_last_action (s : State) : Option (String × State) :=
  match s.action_stack.getLast? with
  | none => some ("Nothing to undo. Press any key...", s)
  | some last_action =>
    let count : Int := s.tasks.length
    let restored : Option (List Task) :=
      match last_action.type with
      | ActionType.ACTION_ADD => some (remove_task s.tasks last_action.index)
      | ActionType.ACTION_DELETE =>
        if 0 ≤ last_action.index ∧ last_action.index ≤ count then
          some (s.tasks.insertIdx last_action.index.toNat last_action.task)
        else none
      | ActionType.ACTION_EDIT =>
        if 0 ≤ last_action.index ∧ last_action.index < count then
          some (s.tasks.set last_action.index.toNat last_action.task)
        else none
      | ActionType.ACTION_COMPLETE =>
        if 0 ≤ last_action.index ∧ last_action.index < count then
          some (s.tasks.set last_action.index.toNat last_action.task)
        else none
    restored.map fun ts =>
      ("Last action undone. Press any key...",
        { s with tasks := ts, action_stack := s.action_stack.dropLast })

/-! ## main.c: deletion -/

/-- The autosave bookkeeping after a mutation: `action_counter++`, reset at the threshold
(the save itself runs on another thread and does not touch the globals). -/
def bump_action_counter (c : Int) : Int :=
  if c + 1 ≥ ACTIONS_BEFORE_AUTOSAVE then 0 else c + 1

/-- `delete_task_interactive()`; `ch` is the key read by its `getch()`. -/
def delete_task_interactive (ch : Char) (s : State) : State :=
  if ch = 'y' ∨ ch = 'Y' then
    if s.selected_task < 0 ∨ s.selected_task ≥ s.task_count then s
    else
      match s.tasks.get? s.selected_task.toNat with
      | none => s
      | some victim =>
        let stack := push_action s.action_stack
          { type := ActionType.ACTION_DELETE, task := victim, index := s.selected_task }
        let tasks := update_task_ids (remove_task s.tasks s.selected_task)
        let count : Int := tasks.length
        let selected :=
          if s.selected_task ≥ count ∧ count > 0 then count - 1 else s.selected_task
        { s with tasks := tasks, action_stack := stack, selected_task := selected,
                 action_counter := bump_action_counter s.action_counter }
  else s

/-! ## Dates: libc models and task.c -/

/-- The date fields of `struct tm`.  `parse_date` zeroes the struct first and the format
`%Y-%m-%d` sets only these three, so the time of day is always 00:00:00. -/
structure Tm where
  tm_year : Int
  tm_mon : Int
  tm_mday : Int
  deriving DecidableEq, Repr

/-- The value of a decimal digit character. -/
def digit_value (c : Char) : Int := (c.toNat : Int) - 48

/-- Skipping of leading white space, as `strptime`, `atoi` and `fscanf` do. -/
def skip_spaces : CString → CString
  | [] => []
  | c :: cs => if isspace c then skip_spaces cs else c :: cs

/-- The digit loop of glibc's `get_number` after the first digit: at most `n` further
digits, read while `val * 10 <= hi`. -/
def get_number_loop (hi : Int) : Nat → Int → CString → Int × CString
  | 0, val, rp => (val, rp)
  | _ + 1, val, [] => (val, [])
  | n + 1, val, c :: rp =>
    if val * 10 ≤ hi ∧ isdigit c = true then get_number_loop hi n (val * 10 + digit_value c) rp
    else (val, c :: rp)

/-- Model of glibc `strptime`'s `get_number(lo, hi, n)`: white space is skipped, at least
one and at most `n` digits are read, and the value must lie in `lo..hi`. -/
def get_number (lo hi : Int) (n : Nat) (rp : CString) : Option (Int × CString) :=
  match skip_spaces rp with
  | [] => none
  | c :: rest =>
    if isdigit c = true then
      let r := get_number_loop hi (n - 1) (digit_value c) rest
      if r.1 < lo ∨ r.1 > hi then none else some r
    else none

/-- A literal character of a `strptime` format. -/
def match_char (c : Char) : CString → Option CString
  | [] => none
  | x :: rp => if x = c then some rp else none

/-- Model of libc `strptime(s, "%Y-%m-%d", &tm)`: the filled fields and the unparsed rest
of the input (the returned pointer), `none` for NULL. -/
def strptime (s : CString) : Option (Tm × CString) :=
  (get_number 0 9999 4 s).bind fun y =>
  (match_char '-' y.2).bind fun rp1 =>
  (get_number 1 12 2 rp1).bind fun m =>
  (match_char '-' m.2).bind fun rp2 =>
  (get_number 1 31 2 rp2).bind fun d =>
  some ({ tm_year := y.1 - 1900, tm_mon := m.1 - 1, tm_mday := d.1 }, d.2)

/-- `parse_date(date_str, &date)`: `some date` when it returns 1, `none` when it returns 0. -/
def parse_date (date_str : CString) : Option Tm :=
  (strptime date_str).map (·.1)

def is_leap_year (y : Int) : Bool :=
  (y % 4 = 0 && y % 100 != 0) || y % 400 = 0

/-- Days of month `m` (1..12) of year `y` in the Gregorian calendar. -/
def days_in_month (y m : Int) : Int :=
  if m = 2 then (if is_leap_year y then 29 else 28)
  else if m = 4 ∨ m = 6 ∨ m = 9 ∨ m = 11 then 30
  else 31

/-- A calendar date: year, month 1..12, day 1..31. -/
structure Date where
  year : Int
  month : Int
  day : Int
  deriving DecidableEq, Repr

/-- The date is a day of the Gregorian calendar. -/
def Date.valid (x : Date) : Prop :=
  1 ≤ x.month ∧ x.month ≤ 12 ∧ 1 ≤ x.day ∧ x.day ≤ days_in_month x.year x.month

instance (x : Date) : Decidable x.valid := by
  unfold Date.valid; infer_instance

/-- The calendar day after `x`. -/
def next_day (x : Date) : Date :=
  if x.day < days_in_month x.year x.month then { x with day := x.day + 1 }
  else if x.month < 12 then { year := x.year, month := x.month + 1, day := 1 }
  else { year := x.year + 1, month := 1, day := 1 }

/-- The calendar day before `x`. -/
def prev_day (x : Date) : Date :=
  if 1 < x.day then { x with day := x.day - 1 }
  else if 1 < x.month then
    { year := x.year, month := x.month - 1, day := days_in_month x.year (x.month - 1) }
  else { year := x.year - 1, month := 12, day := 31 }

/-- The date a `struct tm` denotes once `mktime` has normalised it: the month is brought
into 0..11 carrying into the year, and day `tm_mday` of that month is day 1 moved by
`tm_mday - 1` days. -/
def normalize_date (tm : Tm) : Date :=
  let y := tm.tm_year + 1900 + tm.tm_mon / 12
  let m := tm.tm_mon % 12 + 1
  let first : Date := { year := y, month := m, day := 1 }
  if 1 ≤ tm.tm_mday then next_day^[(tm.tm_mday - 1).toNat] first
  else prev_day^[(1 - tm.tm_mday).toNat] first

/-- Number of days from 1970-01-01 to day `d` of month `m` (1..12) of year `y`; linear
in `d`, so a day past the end of the month counts into the following months. -/
def days_from_civil (y m d : Int) : Int :=
  let y1 := if m ≤ 2 then y - 1 else y
  let era := y1 / 400
  let yoe := y1 - era * 400
  let mp := if m > 2 then m - 3 else m + 9
  let doy := (153 * mp + 2) / 5 + d - 1
  let doe := yoe * 365 + yoe / 4 - yoe / 100 + doy
  era * 146097 + doe - 719468

/-- The day number (days since 1970-01-01) of the date a `struct tm` denotes. -/
def due_day_number (tm : Tm) : Int :=
  days_from_civil (tm.tm_year + 1900 + tm.tm_mon / 12) (tm.tm_mon % 12 + 1) tm.tm_mday

/-- The rules of the time zone the process runs in (the `TZ` setting), as far as `mktime`
and `localtime` use them. -/
structure Zone where
  /-- Seconds east of UTC of the zone's time with `tm_isdst = 0` on the day with number `d`
  (days since 1970-01-01): the offset `mktime` applies to a `struct tm` of that day that
  says `tm_isdst = 0`. -/
  std_offset : Int → Int
  /-- Seconds east of UTC of the local time in force at the instant `t` (seconds since the
  epoch): the offset `localtime` applies.  It differs from `std_offset` while daylight
  saving time is in force. -/
  utc_offset : Int → Int

/-- Model of the value libc `mktime(&tm)` returns for a `struct tm` whose time of day is
00:00:00 and whose `tm_isdst` is 0, which is how `parse_date` leaves it (`memset` to zero,
then `strptime` with `%Y-%m-%d`): the instant at which the zone's `tm_isdst = 0` time reads
00:00:00 of that date.  While daylight saving time is in force this is not local midnight. -/
def mktime_value (zone : Zone) (tm : Tm) : Int :=
  due_day_number tm * 86400 - zone.std_offset (due_day_number tm)

/-- Whole days between the date a `struct tm` of `parse_date` denotes and the local date
at the instant `mktime` returns for it: 0 when local time is then the `tm_isdst = 0` time
or ahead of it by less than a day, -1 when local time is behind it, as in a zone whose
winter time is its daylight saving time (Europe/Dublin). -/
def mktime_day_shift (zone : Zone) (tm : Tm) : Int :=
  (zone.utc_offset (mktime_value zone tm) - zone.std_offset (due_day_number tm)) / 86400

/-- The date `k` days after `x`, before it for negative `k`. -/
def add_days (k : Int) (x : Date) : Date :=
  if 0 ≤ k then next_day^[k.toNat] x else prev_day^[(-k).toNat] x

/-- Model of the effect of libc `mktime(&tm)` on the date fields of a `struct tm` of
`parse_date` (time of day 00:00:00, `tm_isdst = 0`).  `mktime` reads the fields as the
zone's `tm_isdst = 0` time and rewrites the struct with the local time in force at that
instant, so the date is the normalised date moved by `mktime_day_shift` days. -/
def mktime (zone : Zone) (tm : Tm) : Tm :=
  let x := add_days (mktime_day_shift zone tm) (normalize_date tm)
  { tm_year := x.year - 1900, tm_mon := x.month - 1, tm_mday := x.day }

/-- An `int` printed with `%d`. -/
def print_int (n : Int) : CString :=
  if n < 0 then '-' :: Nat.toDigits 10 n.natAbs else Nat.toDigits 10 n.toNat

/-- A number 0..99 printed with two digits, as `%m` and `%d` of `strftime` do. -/
def two_digits (n : Int) : CString :=
  [Nat.digitChar (n.toNat / 10 % 10), Nat.digitChar (n.toNat % 10)]

/-- `format_date(buffer, size, &date)`, that is `strftime(buffer, size, "%Y-%m-%d", date)`;
the year is printed as a decimal number. -/
def format_date (date : Tm) : CString :=
  print_int (date.tm_year + 1900) ++ ['-'] ++ two_digits (date.tm_mon + 1) ++ ['-'] ++
    two_digits date.tm_mday

/-- The table `recurrence_strings`. -/
def recurrence_strings : List CString :=
  ["none".toList, "daily".toList, "weekly".toList, "biweekly".toList, "monthly".toList,
   "yearly".toList]

/-- The loop of `parse_recurrence` from table entry `i` on. -/
def parse_recurrence_from (str : CString) : Nat → List CString → Int
  | _, [] => -1
  | i, r :: rs => if strcmp str r = 0 then (i : Int) else parse_recurrence_from str (i + 1) rs

/-- `parse_recurrence(str)`. -/
def parse_recurrence (str : CString) : Int :=
  parse_recurrence_from str 0 recurrence_strings

/-- `update_task_recurrence(task)` in the time zone `zone`. -/
def update_task_recurrence (zone : Zone) (task : Task) : Task :=
  if task.recurrence = RECURRENCE_NONE then task
  else
    match parse_date task.due_date with
    | none => task
    | some due_date =>
      let adjusted : Tm :=
        if task.recurrence = RECURRENCE_DAILY then
          { due_date with tm_mday := due_date.tm_mday + 1 }
        else if task.recurrence = RECURRENCE_WEEKLY then
          { due_date with tm_mday := due_date.tm_mday + 7 }
        else if task.recurrence = RECURRENCE_BIWEEKLY then
          { due_date with tm_mday := due_date.tm_mday + 14 }
        else if task.recurrence = RECURRENCE_MONTHLY then
          { due_date with tm_mon := due_date.tm_mon + 1 }
        else if task.recurrence = RECURRENCE_YEARLY then
          { due_date with tm_year := due_date.tm_year + 1 }
        else due_date
      { task with due_date := format_date (mktime zone adjusted) }

/-- `toggle_task_completion(task)` on the task and the action stack, in the time zone
`zone`. -/
def toggle_task_completion (zone : Zone) (task : Task) (stack : List Action) :
    Task × List Action :=
  let stack1 := push_action stack
    { type := ActionType.ACTION_COMPLETE, task := task, index := task.id - 1 }
  let flipped : Task := { task with completed := if task.completed = 0 then 1 else 0 }
  let rolled :=
    if flipped.completed ≠ 0 ∧ flipped.recurrence ≠ RECURRENCE_NONE then
      update_task_recurrence zone flipped
    else flipped
  (rolled, stack1)

/-- `is_task_overdue(task)` when `time(NULL)` returns `now`, in the time zone `zone`.
`mktime(&current_time)` gives back `now`, `current_time` being `*localtime(&t)` with its
time of day and its `tm_isdst`; `due_date` comes from `parse_date`. -/
def is_task_overdue (zone : Zone) (now : Int) (task : Task) : Int :=
  if strcmp task.due_date NO_DUE_DATE = 0 then 0
  else
    match parse_date task.due_date with
    | none => 0
    | some due_date => if now > mktime_value zone due_date then 1 else 0

/-! ## Sorting: comparators, the libc `qsort` model, `sort_tasks` -/

/-- Reduction of a mathematical integer to the value a 32-bit `int` holds. -/
def wrap_int (x : Int) : Int := (x + 2147483648) % 4294967296 - 2147483648

/-- `compare_priority_desc`: `taskB->priority - taskA->priority`. -/
def compare_priority_desc (a b : Task) : Int := wrap_int (b.priority - a.priority)

/-- `compare_priority_asc`: `taskA->priority - taskB->priority`. -/
def compare_priority_asc (a b : Task) : Int := wrap_int (a.priority - b.priority)

/-- `compare_due_date_desc` (the comparator `sort_tasks` uses when `ascending` is true). -/
def compare_due_date_desc (a b : Task) : Int :=
  if strcmp a.due_date NO_DUE_DATE = 0 then 1
  else if strcmp b.due_date NO_DUE_DATE = 0 then -1
  else strcmp a.due_date b.due_date

/-- `compare_due_date_asc` (the comparator `sort_tasks` uses when `ascending` is false). -/
def compare_due_date_asc (a b : Task) : Int :=
  if strcmp a.due_date NO_DUE_DATE = 0 then 1
  else if strcmp b.due_date NO_DUE_DATE = 0 then -1
  else strcmp b.due_date a.due_date

/-- The merge loop of glibc's `msort_with_tmp`: while both runs are non-empty the head of
the first run is taken when `cmp(b1, b2) <= 0`, else the head of the second; what is left
of either run is copied after.  The first argument bounds the number of iterations. -/
def merge_runs (cmp : Task → Task → Int) : Nat → List Task → List Task → List Task
  | _, [], l2 => l2
  | _, l1, [] => l1
  | 0, l1, l2 => l1 ++ l2
  | n + 1, a :: l1, b :: l2 =>
    if cmp a b ≤ 0 then a :: merge_runs cmp n l1 (b :: l2)
    else b :: merge_runs cmp n (a :: l1) l2

/-- The recursion of glibc's `msort_with_tmp`: an array of at most one element is left as
it is; otherwise the first `n / 2` elements and the remaining ones are sorted separately and
merged.  The first argument bounds the recursion depth. -/
def msort_with_tmp (cmp : Task → Task → Int) : Nat → List Task → List Task
  | 0, l => l
  | fuel + 1, l =>
    if l.length ≤ 1 then l
    else
      let n1 := l.length / 2
      let b1 := msort_with_tmp cmp fuel (l.take n1)
      let b2 := msort_with_tmp cmp fuel (l.drop n1)
      merge_runs cmp (b1.length + b2.length) b1 b2

/-- Model of libc `qsort(base, n, size, cmp)`, which is not part of the repository: the
merge sort glibc runs, driven only by the sign of `cmp`.  The recursion halves the array,
so a depth of `n` is never exhausted. -/
def qsort (cmp : Task → Task → Int) (l : List Task) : List Task :=
  msort_with_tmp cmp l.length l

/-- `sort_tasks(tasks, count, sort_type, ascending)`. -/
def sort_tasks (tasks : List Task) (sort_type : Char) (ascending : Bool) : List Task :=
  let sorted :=
    if sort_type = 'p' then
      (if ascending then qsort compare_priority_asc tasks
       else qsort compare_priority_desc tasks)
    else if sort_type = 'd' then
      (if ascending then qsort compare_due_date_desc tasks
       else qsort compare_due_date_asc tasks)
    else tasks
  update_task_ids sorted

/-! ## Interactive input, `add_task`, `edit_task`, `search_task` -/

/-- The digits loop of `atoi`. -/
def atoi_digits : Int → CString → Int
  | acc, [] => acc
  | acc, c :: cs => if isdigit c = true then atoi_digits (acc * 10 + digit_value c) cs else acc

/-- Model of libc `atoi` on a short buffer: leading white space, an optional sign, digits. -/
def atoi (s : CString) : Int :=
  match skip_spaces s with
  | '-' :: cs => - atoi_digits 0 cs
  | '+' :: cs => atoi_digits 0 cs
  | cs => atoi_digits 0 cs

/-- The retry loop of `add_task` for a field that cannot be empty, over the lines typed at
`get_input_and_clear(buffer, size, ...)`. -/
def read_nonempty (size : Nat) : List CString → Option (CString × List CString)
  | [] => none
  | line :: rest =>
    let buffer := line.take (size - 1)
    if buffer.length > 0 then some (buffer, rest) else read_nonempty size rest

/-- The due-date loop of `add_task`: an empty line gives `N/A`, a line `parse_date` accepts
is kept as typed, any other line is asked again. -/
def read_due_date : List CString → Option (CString × List CString)
  | [] => none
  | line :: rest =>
    let buffer := line.take (MAX_DATE_LEN - 1)
    if buffer.length = 0 then some (NO_DUE_DATE, rest)
    else if (parse_date buffer).isSome then some (buffer, rest)
    else read_due_date rest

/-- The recurrence loop of `add_task`. -/
def read_recurrence : List CString → Option (Int × List CString)
  | [] => none
  | line :: rest =>
    let rec_value := parse_recurrence (line.take (MAX_RECURRENCE_LEN - 1))
    if rec_value ≠ -1 then some (rec_value, rest) else read_recurrence rest

/-- The priority loop of `add_task`: `getnstr(priority_input, 2)` and `atoi`. -/
def read_priority : List CString → Option (Int × List CString)
  | [] => none
  | line :: rest =>
    let temp_priority := atoi (line.take 2)
    if temp_priority ≥ 1 ∧ temp_priority ≤ 5 then some (temp_priority, rest)
    else read_priority rest

/-- `add_task(&tasks, &count, &capacity, "", "", "", RECURRENCE_NONE, 0)` on the task array
and the action stack, reading the typed lines; the unread lines are returned. -/
def add_task (lines : List CString) (tasks : List Task) (stack : List Action) :
    Option (List Task × List Action × List CString) :=
  (read_nonempty MAX_TITLE_LEN lines).bind fun title =>
  (read_nonempty MAX_CATEGORY_LEN title.2).bind fun category =>
  (read_due_date category.2).bind fun due =>
  (read_recurrence due.2).bind fun recurrence =>
  (read_priority recurrence.2).bind fun priority =>
    let count : Int := tasks.length
    let created : Task :=
      { id := count + 1, title := title.1, category := category.1, due_date := due.1,
        recurrence := recurrence.1, priority := priority.1, completed := 0 }
    some (tasks ++ [created],
          push_action stack { type := ActionType.ACTION_ADD, task := created, index := count },
          priority.2)

/-- The due-date loop of `edit_task`: an empty line keeps the current value. -/
def edit_due_date (current : CString) : List CString → Option (CString × List CString)
  | [] => none
  | line :: rest =>
    let buffer := line.take (MAX_DATE_LEN - 1)
    if buffer.length = 0 then some (current, rest)
    else if (parse_date buffer).isSome then some (buffer, rest)
    else edit_due_date current rest

/-- The recurrence loop of `edit_task`: an empty line keeps the current value. -/
def edit_recurrence (current : Int) : List CString → Option (Int × List CString)
  | [] => none
  | line :: rest =>
    let buffer := line.take (MAX_RECURRENCE_LEN - 1)
    if buffer.length = 0 then some (current, rest)
    else if parse_recurrence buffer ≠ -1 then some (parse_recurrence buffer, rest)
    else edit_recurrence current rest

/-- `edit_task(task)` on the task and the action stack, reading the typed lines. -/
def edit_task (lines : List CString) (task : Task) (stack : List Action) :
    Option (Task × List Action × List CString) :=
  let stack1 := push_action stack
    { type := ActionType.ACTION_EDIT, task := task, index := task.id - 1 }
  match lines with
  | [] => none
  | title_line :: lines1 =>
    let title := title_line.take (MAX_TITLE_LEN - 1)
    let t1 : Task := if title.length > 0 then { task with title := title } else task
    match lines1 with
    | [] => none
    | category_line :: lines2 =>
      let category := category_line.take (MAX_CATEGORY_LEN - 1)
      let t2 : Task := if category.length > 0 then { t1 with category := category } else t1
      (edit_due_date t2.due_date lines2).bind fun due =>
      (edit_recurrence t2.recurrence due.2).bind fun recurrence =>
        match recurrence.2 with
        | [] => none
        | priority_line :: lines5 =>
          let priority_input := priority_line.take 2
          let priority := atoi priority_input
          let t4 : Task := { t2 with due_date := due.1, recurrence := recurrence.1 }
          let t5 : Task :=
            if priority_input.length > 0 ∧ priority ≥ 1 ∧ priority ≤ 5 then
              { t4 with priority := priority }
            else t4
          some (t5, stack1, lines5)

/-- The search loop of `search_task` from slot `i` on: the first slot whose title contains
the query, if any. -/
def search_from (search_query : CString) : Nat → List Task → Option Nat
  | _, [] => none
  | i, t :: ts =>
    if (strstr t.title search_query).isSome then some i
    else search_from search_query (i + 1) ts

/-- `search_task(tasks, count, &selected_task)` once the query has been read: the new value
of `selected_task`. -/
def search_task (tasks : List Task) (search_query : CString) (selected_task : Int) : Int :=
  match search_from search_query 0 tasks with
  | some i => (i : Int)
  | none => selected_task

/-! ## main.c: one turn of the command loop -/

/-- The clamping of `selected_task` at the end of each turn of the loop. -/
def clamp_selection (s : State) : State :=
  let sel1 := if s.selected_task < 0 then 0 else s.selected_task
  let sel2 := if sel1 ≥ s.task_count ∧ s.task_count > 0 then s.task_count - 1 else sel1
  { s with selected_task := sel2 }

/-- The `switch (ch)` of `main`.  `confirm` is the key typed at the delete prompt, `lines`
are the lines typed at the prompts of this command and `zone` is the time zone of the
process, which the `c` command reaches through `mktime`. -/
def dispatch (zone : Zone) (ch : Char) (confirm : Char) (lines : List CString) (s : State) :
    Option State :=
  if ch = 'j' then
    some (if s.selected_task < s.task_count - 1
          then { s with selected_task := s.selected_task + 1 } else s)
  else if ch = 'k' then
    some (if s.selected_task > 0 then { s with selected_task := s.selected_task - 1 } else s)
  else if ch = 'a' then
    (add_task lines s.tasks s.action_stack).map fun r =>
      { s with tasks := update_task_ids r.1, action_stack := r.2.1,
               action_counter := bump_action_counter s.action_counter }
  else if ch = 'd' then
    some (if s.task_count > 0 then delete_task_interactive confirm s else s)
  else if ch = 'c' then
    if s.selected_task ≥ 0 ∧ s.selected_task < s.task_count then
      (s.tasks.get? s.selected_task.toNat).map fun task =>
        let r := toggle_task_completion zone task s.action_stack
        { s with tasks := s.tasks.set s.selected_task.toNat r.1, action_stack := r.2,
                 action_counter := bump_action_counter s.action_counter }
    else some s
  else if ch = 'e' then
    if s.selected_task ≥ 0 ∧ s.selected_task < s.task_count then
      (s.tasks.get? s.selected_task.toNat).bind fun task =>
        (edit_task lines task s.action_stack).map fun r =>
          { s with tasks := s.tasks.set s.selected_task.toNat r.1, action_stack := r.2.1,
                   action_counter := bump_action_counter s.action_counter }
    else some s
  else if ch = 's' then
    match lines with
    | [] => none
    | line :: _ =>
      let found := search_task s.tasks (line.take (MAX_TITLE_LEN - 1)) s.selected_task
      some { s with selected_task := found }
  else if ch = 'P' then
    some { s with tasks := update_task_ids (sort_tasks s.tasks 'p' s.priority_ascending),
                  priority_ascending := !s.priority_ascending, selected_task := 0 }
  else if ch = 'S' then
    some { s with tasks := update_task_ids (sort_tasks s.tasks 'd' s.date_ascending),
                  date_ascending := !s.date_ascending, selected_task := 0 }
  else if ch = 'u' then
    (undo_last_action s).map fun r => { r.2 with tasks := update_task_ids r.2.tasks }
  else some s

/-- One turn of the `while ((ch = getch()) != 'q')` loop of `main`: the switch, then the
clamping of the selection. -/
def main_step (zone : Zone) (ch : Char) (confirm : Char) (lines : List CString) (s : State) :
    Option State :=
  (dispatch zone ch confirm lines s).map clamp_selection

/-- The loop of `main` over a sequence of `a` commands, each with its typed lines. -/
def run_adds (zone : Zone) : List (List CString) → State → Option State
  | [], s => some s
  | lines :: more, s => (main_step zone 'a' 'n' lines s).bind (run_adds zone more)

/-! ## Persistence: `save_tasks` and `load_tasks` on the content of the backing file -/

/-- One record as `fprintf(file, "%d\t%s\t%s\t%d\t%d\t%s\t%s\n", ...)` writes it, given the
name `recurrence_strings[task.recurrence]`. -/
def print_task (task : Task) (recurrence_name : CString) : CString :=
  print_int task.id ++ ['\t'] ++ task.title ++ ['\t'] ++ task.category ++ ['\t'] ++
    print_int task.priority ++ ['\t'] ++ print_int task.completed ++ ['\t'] ++
    task.due_date ++ ['\t'] ++ recurrence_name ++ ['\n']

/-- `save_tasks(tasks, count)` when the file can be opened: the content written.  `none`
when `recurrence_strings[...]` is read outside the table. -/
def save_tasks : List Task → Option CString
  | [] => some []
  | task :: rest =>
    if 0 ≤ task.recurrence then
      (recurrence_strings.get? task.recurrence.toNat).bind fun name =>
        (save_tasks rest).map fun tail => print_task task name ++ tail
    else none

/-- The digits a `%d` conversion of `fscanf` reads. -/
def scan_digits : Int → CString → Int × CString
  | acc, [] => (acc, [])
  | acc, c :: cs =>
    if isdigit c = true then scan_digits (acc * 10 + digit_value c) cs else (acc, c :: cs)

/-- The value a `%d` conversion stores in its `int` for the number read: glibc converts the
digits as `strtol` does, to a `long` that saturates at its bounds, and stores the low 32
bits of it. -/
def store_int (v : Int) : Int :=
  wrap_int (max (-9223372036854775808) (min 9223372036854775807 v))

/-- Model of a `%d` conversion of `fscanf`: white space is skipped, then an optional sign
and at least one digit are read.  The second component is the input left unread. -/
def scan_int (input : CString) : Option Int × CString :=
  match skip_spaces input with
  | [] => (none, [])
  | '-' :: cs =>
    (match cs with
     | [] => (none, [])
     | c :: _ => if isdigit c = true then
         (some (store_int (- (scan_digits 0 cs).1)), (scan_digits 0 cs).2) else (none, cs))
  | '+' :: cs =>
    (match cs with
     | [] => (none, [])
     | c :: _ => if isdigit c = true then
         (some (store_int (scan_digits 0 cs).1), (scan_digits 0 cs).2) else (none, cs))
  | c :: cs =>
    if isdigit c = true then
      (some (store_int (scan_digits 0 (c :: cs)).1), (scan_digits 0 (c :: cs)).2)
    else (none, c :: cs)

/-- The longest initial run of characters other than `stop`, and what follows it. -/
def span_not (stop : Char) : CString → CString × CString
  | [] => ([], [])
  | c :: cs => if c = stop then ([], c :: cs) else (c :: (span_not stop cs).1, (span_not stop cs).2)

/-- The longest initial run of characters that are not white space, and what follows. -/
def span_word : CString → CString × CString
  | [] => ([], [])
  | c :: cs => if isspace c = true then ([], c :: cs) else (c :: (span_word cs).1, (span_word cs).2)

/-- Model of a `%[^\t]` conversion: a non-empty run of characters other than tab, no white
space being skipped before it. -/
def scan_field (input : CString) : Option CString × CString :=
  if (span_not '\t' input).1 = [] then (none, input)
  else (some (span_not '\t' input).1, (span_not '\t' input).2)

/-- Model of a `%s` conversion: white space is skipped, then a non-empty run of characters
that are not white space is read. -/
def scan_word (input : CString) : Option CString × CString :=
  if (span_word (skip_spaces input)).1 = [] then (none, skip_spaces input)
  else (some (span_word (skip_spaces input)).1, (span_word (skip_spaces input)).2)

/-- Model of `fscanf(file, "%d\t%[^\t]\t%[^\t]\t%d\t%d\t%s\t%s\n", ...)`: the task filled
and the recurrence token when all seven conversions succeed (the call returns 7), and the
input left unread.  A white-space character of the format skips any run of white space.
The conversions carry no field width, so the code writes a field longer than its buffer
(`title[256]`, `category[50]`, `due_date[12]`, `recurrence_str[10]`) past the end of the
buffer; the model keeps such a field whole and describes the code only for records whose
fields fit their buffers. -/
def fscanf_task (input : CString) : Option (Task × CString) × CString :=
  match scan_int input with
  | (none, r) => (none, r)
  | (some id, r1) =>
    match scan_field (skip_spaces r1) with
    | (none, r) => (none, r)
    | (some title, r2) =>
      match scan_field (skip_spaces r2) with
      | (none, r) => (none, r)
      | (some category, r3) =>
        match scan_int (skip_spaces r3) with
        | (none, r) => (none, r)
        | (some priority, r4) =>
          match scan_int (skip_spaces r4) with
          | (none, r) => (none, r)
          | (some completed, r5) =>
            match scan_word (skip_spaces r5) with
            | (none, r) => (none, r)
            | (some due_date, r6) =>
              match scan_word (skip_spaces r6) with
              | (none, r) => (none, r)
              | (some recurrence_str, r7) =>
                (some ({ id := id, title := title, category := category,
                         due_date := due_date, recurrence := 0, priority := priority,
                         completed := completed }, recurrence_str),
                 skip_spaces r7)

/-- Model of `fscanf(file, "%*[^\n]\n")`: a non-empty run of characters other than newline
is dropped, then white space; nothing is read when the input starts with a newline. -/
def skip_line (input : CString) : CString :=
  if (span_not '\n' input).1 = [] then input else skip_spaces (span_not '\n' input).2

/-- The `while (!feof(file))` loop of `load_tasks`.  The end-of-file flag is set exactly
when the unread input is empty after a read; the first argument bounds the number of turns
(each turn reads at least one character). -/
def load_loop : Nat → CString → List Task → List Task
  | 0, _, tasks => tasks
  | fuel + 1, input, tasks =>
    if input = [] then tasks
    else
      match fscanf_task input with
      | (some r, rest) =>
        load_loop fuel rest (tasks ++ [{ r.1 with recurrence := parse_recurrence r.2 }])
      | (none, rest) => load_loop fuel (skip_line rest) tasks

/-- `load_tasks(&tasks, &count, &capacity)` at program start (`task_count` is 0), given the
content of the backing file, `none` when it cannot be opened. -/
def load_tasks (file : Option CString) : List Task :=
  match file with
  | none => []
  | some content => load_loop (content.length + 1) content []

/-- The task with its id field blanked: what is compared when a statement is about all
fields except the re-derived id. -/
def erase_id (t : Task) : Task := { t with id := 0 }

/-- A number 0..9999 written with four digits. -/
def four_digits (n : Int) : CString :=
  [Nat.digitChar (n.toNat / 1000 % 10), Nat.digitChar (n.toNat / 100 % 10),
   Nat.digitChar (n.toNat / 10 % 10), Nat.digitChar (n.toNat % 10)]

/-- The strict `YYYY-MM-DD` form of a date whose year is in 0..9999. -/
def ymd_string (x : Date) : CString :=
  four_digits x.year ++ ['-'] ++ two_digits x.month ++ ['-'] ++ two_digits x.day

/-- The date as `format_date` prints it. -/
def date_string (x : Date) : CString :=
  format_date { tm_year := x.year - 1900, tm_mon := x.month - 1, tm_mday := x.day }

/-- The number of the local calendar day (days since 1970-01-01) at the instant `now`, as
`localtime` reports it in the zone. -/
def local_day_number (zone : Zone) (now : Int) : Int := (now + zone.utc_offset now) / 86400

/-- Seconds elapsed since local midnight at the instant `now`. -/
def local_seconds_of_day (zone : Zone) (now : Int) : Int := (now + zone.utc_offset now) % 86400

/-- A zone that keeps UTC all year. -/
def utc_zone : Zone := { std_offset := fun _ => 0, utc_offset := fun _ => 0 }

/-- Europe/Dublin from autumn 2023 to spring 2025.  Its `tm_isdst = 0` time is Irish
Standard Time, one hour east of UTC, and its winter time is UTC, in force from 2023-10-29
01:00 UTC to 2024-03-31 01:00 UTC and from 2024-10-27 01:00 UTC to 2025-03-30 01:00 UTC. -/
def dublin_zone : Zone :=
  { std_offset := fun _ => 3600,
    utc_offset := fun t =>
      if (1698541200 ≤ t ∧ t < 1711846800) ∨ (1729990800 ≤ t ∧ t < 1743296400) then 0
      else 3600 }

/-- Europe/Berlin from autumn 2023 to spring 2025: one hour east of UTC, two hours during
summer time, in force from 2024-03-31 01:00 UTC to 2024-10-27 01:00 UTC. -/
def berlin_zone : Zone :=
  { std_offset := fun _ => 3600,
    utc_offset := fun t => if 1711846800 ≤ t ∧ t < 1729990800 then 7200 else 3600 }

/-- Every task's id is its position plus one. -/
def ids_dense (tasks : List Task) : Prop :=
  ∀ (i : Nat) (h : i < tasks.length), (tasks.get ⟨i, h⟩).id = (i : Int) + 1

instance (tasks : List Task) : Decidable (ids_dense tasks) := by
  unfold ids_dense; infer_instance

/-! ## Orders induced by the due-date comparators -/

/-- The order `compare_due_date_desc` induces: tasks without a date last, dated tasks by
non-decreasing date string. -/
def due_order_up (a b : Task) : Prop :=
  b.due_date = NO_DUE_DATE ∨ (a.due_date ≠ NO_DUE_DATE ∧ a.due_date ≤ b.due_date)

/-- The order `compare_due_date_asc` induces: tasks without a date last, dated tasks by
non-increasing date string. -/
def due_order_down (a b : Task) : Prop :=
  b.due_date = NO_DUE_DATE ∨ (a.due_date ≠ NO_DUE_DATE ∧ b.due_date ≤ a.due_date)

instance priority_gt_antisymm :
    IsAntisymm Task (fun a b => a.priority > b.priority) :=
  ⟨fun _ _ h1 h2 => absurd h1 (not_lt_of_gt h2)⟩

/-! ## Example data -/

/-- A task with the given id, title, due date, recurrence and priority, not completed. -/
def sample_task (id : Int) (title due : String) (recurrence priority : Int) : Task :=
  { id := id, title := title.toList, category := "work".toList, due_date := due.toList,
    recurrence := recurrence, priority := priority, completed := 0 }

/-- Two tasks, the second selected, with an action stack filled to `MAX_ACTIONS` by
completions of the first task. -/
def full_log_state : State :=
  { tasks := [sample_task 1 "Buy milk" "N/A" 0 1, sample_task 2 "Report Q1" "N/A" 0 2],
    selected_task := 1, priority_ascending := true, date_ascending := true,
    action_stack := List.replicate 100
      { type := ActionType.ACTION_COMPLETE, task := sample_task 1 "Buy milk" "N/A" 0 1,
        index := 0 },
    action_counter := 0 }

/-- Two tasks, the second selected, with an empty action stack. -/
def two_task_state : State :=
  { tasks := [sample_task 1 "Buy milk" "N/A" 0 1, sample_task 2 "Report Q1" "N/A" 0 2],
    selected_task := 1, priority_ascending := true, date_ascending := true,
    action_stack := [], action_counter := 0 }

/-- The lines typed for one `a` command: title, category, due date, recurrence, priority. -/
def typed_lines (title due recurrence priority : String) : List CString :=
  [title.toList, "work".toList, due.toList, recurrence.toList, priority.toList]

/-- The three tasks of the search example. -/
def report_tasks : List Task :=
  [sample_task 1 "Buy milk" "N/A" 0 1, sample_task 2 "Report Q1" "N/A" 0 2,
   sample_task 3 "Report Q2" "N/A" 0 3]

/-- Four tasks, two of them without a due date. -/
def dated_tasks : List Task :=
  [sample_task 1 "a" "N/A" 0 1, sample_task 2 "b" "2024-03-01" 0 2,
   sample_task 3 "c" "N/A" 0 3, sample_task 4 "d" "2024-01-15" 0 4]

/-- Two tasks whose priorities are `INT_MIN` and 0. -/
def extreme_priority_tasks : List Task :=
  [sample_task 1 "a" "N/A" 0 (-2147483648), sample_task 2 "b" "N/A" 0 0]

/-- Three tasks with priorities 3, 1, 2. -/
def three_priority_tasks : List Task :=
  [sample_task 1 "a" "N/A" 0 3, sample_task 2 "b" "N/A" 0 1, sample_task 3 "c" "N/A" 0 2]

/-- A valid task whose title starts with a space. -/
def spaced_title_task : Task :=
  { id := 1, title := " x".toList, category := "work".toList, due_date := "N/A".toList,
    recurrence := 0, priority := 1, completed := 0 }

/-- A backing file of three lines, the second of which is not a record. -/
def file_with_broken_line : CString :=
  "1\tBuy milk\twork\t1\t0\tN/A\tnone\nbroken line\n3\tReport Q1\twork\t2\t0\tN/A\tdaily\n".toList

/-- A backing file of one record whose id field is 7. -/
def file_with_id_seven : CString :=
  "7\tBuy milk\twork\t1\t0\tN/A\tnone\n".toList

/-- A backing file of one record whose recurrence token is not in `recurrence_strings`. -/
def file_with_unknown_recurrence : CString :=
  "1\tBuy milk\twork\t1\t0\tN/A\toften\n".toList

/-- Two tasks in the order priority 2, priority 1, the first selected, nothing recorded. -/
def unsorted_state : State :=
  { tasks := [sample_task 1 "Report Q1" "N/A" 0 2, sample_task 2 "Buy milk" "N/A" 0 1],
    selected_task := 0, priority_ascending := true, date_ascending := true,
    action_stack := [], action_counter := 0 }

/-- The turns `c`, `P`, `u` of the command loop in sequence. -/
def toggle_sort_undo (zone : Zone) (s : State) : Option State :=
  (main_step zone 'c' 'n' [] s).bind fun s1 =>
  (main_step zone 'P' 'n' [] s1).bind fun s2 =>
  main_step zone 'u' 'n' [] s2

/-! ## The foreground thread and `task_mutex` -/

/-- What the foreground thread does to `task_mutex` or waits for. -/
inductive LockEvent where
  /-- The call `pthread_mutex_lock(&task_mutex)`. -/
  | lock
  /-- The call `pthread_mutex_unlock(&task_mutex)`. -/
  | unlock
  /-- A blocking read of the terminal: `getch()` or `getnstr(...)`. -/
  | input
  deriving DecidableEq, Repr

/-- One step of the foreground thread over the flag "this thread holds `task_mutex`".
`task_mutex` is a default (non-recursive) mutex, so locking it while holding it never
returns: `none`. -/
def lock_step (held : Bool) : LockEvent → Option Bool
  | LockEvent.lock => if held then none else some true
  | LockEvent.unlock => some false
  | LockEvent.input => some held

/-- The foreground thread running a sequence of events from the flag `held`: the final flag,
or `none` when it blocks for ever on its own mutex. -/
def run_events : Bool → List LockEvent → Option Bool
  | held, [] => some held
  | held, e :: es => (lock_step held e).bind fun h => run_events h es

/-- Whether the thread reaches a blocking read of the terminal while holding the mutex. -/
def input_while_held : Bool → List LockEvent → Bool
  | _, [] => false
  | held, e :: es =>
    (e = LockEvent.input && held) ||
      (match lock_step held e with
       | none => false
       | some h => input_while_held h es)

/-- Whether the thread calls lock while holding the mutex. -/
def lock_while_held : Bool → List LockEvent → Bool
  | _, [] => false
  | held, e :: es =>
    (e = LockEvent.lock && held) ||
      (match lock_step held e with
       | none => false
       | some h => lock_while_held h es)

/-- The events of `delete_task_interactive()`: the confirmation `getch()`, then, when the
key is `y`, the lock, and the unlock either before the "Invalid task" `getch()` or after the
removal. -/
def delete_task_interactive_events (ch : Char) (s : State) : List LockEvent :=
  [LockEvent.input] ++
    (if ch = 'y' ∨ ch = 'Y' then
      (if s.selected_task < 0 ∨ s.selected_task ≥ s.task_count then
        [LockEvent.lock, LockEvent.unlock, LockEvent.input]
       else [LockEvent.lock, LockEvent.unlock])
     else [])

/-- The events of `add_task` when no field is asked twice: five `getnstr` prompts and the
final `getch()` (every retry adds further reads). -/
def add_task_events : List LockEvent := List.replicate 6 LockEvent.input

/-- The events of `edit_task` when no field is asked twice: five prompts and the final
`getch()`. -/
def edit_task_events : List LockEvent := List.replicate 6 LockEvent.input

/-- The events of `search_task`: the prompt, and the `getch()` after "Event not found". -/
def search_task_events (tasks : List Task) (search_query : CString) : List LockEvent :=
  match search_from search_query 0 tasks with
  | some _ => [LockEvent.input]
  | none => [LockEvent.input, LockEvent.input]

/-- The events of `undo_last_action`: the `getch()` after either status line. -/
def undo_last_action_events : List LockEvent := [LockEvent.input]

/-- The events of one turn of the loop of `main`: the `getch()` of the loop condition, the
lock, the events of the `switch` branch, the unlock. -/
def turn_events (ch confirm : Char) (lines : List CString) (s : State) : List LockEvent :=
  let branch : List LockEvent :=
    if ch = 'a' then add_task_events
    else if ch = 'd' then
      (if s.task_count > 0 then delete_task_interactive_events confirm s
       else [LockEvent.input])
    else if ch = 'e' then
      (if s.selected_task ≥ 0 ∧ s.selected_task < s.task_count then edit_task_events else [])
    else if ch = 's' then search_task_events s.tasks (lines.headD [])
    else if ch = 'u' then undo_last_action_events
    else if ch = 'h' then [LockEvent.input]
    else []
  [LockEvent.input, LockEvent.lock] ++ branch ++ [LockEvent.unlock]

/-! ## Sequences of mutations and undos -/

/-- A mutating command of the shell together with the index it is applied at (the value
`selected_task` has when the key is pressed) and the lines typed at its prompts. -/
inductive Mutation where
  | add (lines : List CString)
  | delete (index : Nat)
  | edit (index : Nat) (lines : List CString)
  | toggle (index : Nat)
  deriving Repr

/-- One mutating turn of the command loop: `a`; or `d` confirmed with `y`, `e`, `c` with a
valid index selected.  `none` when the index is not valid or the typed lines run out. -/
def apply_mutation (zone : Zone) (m : Mutation) (s : State) : Option State :=
  match m with
  | Mutation.add lines => main_step zone 'a' 'n' lines s
  | Mutation.delete index =>
    if index < s.tasks.length then
      main_step zone 'd' 'y' [] { s with selected_task := (index : Int) }
    else none
  | Mutation.edit index lines =>
    if index < s.tasks.length then
      main_step zone 'e' 'n' lines { s with selected_task := (index : Int) }
    else none
  | Mutation.toggle index =>
    if index < s.tasks.length then
      main_step zone 'c' 'n' [] { s with selected_task := (index : Int) }
    else none

/-- A sequence of mutating turns. -/
def run_mutations (zone : Zone) : List Mutation → State → Option State
  | [], s => some s
  | m :: more, s => (apply_mutation zone m s).bind (run_mutations zone more)

/-- The key `u` pressed `n` times. -/
def undo_times (zone : Zone) : Nat → State → Option State
  | 0, s => some s
  | n + 1, s => (undo_times zone n s).bind (main_step zone 'u' 'n' [])

/-- Four mutating turns: add a task, complete the task at index 2, delete the task at
index 0, retitle the task at index 0. -/
def sample_mutations : List Mutation :=
  [Mutation.add (typed_lines "Call Ana" "2024-05-01" "weekly" "3"),
   Mutation.toggle 2,
   Mutation.delete 0,
   Mutation.edit 0 ["Report Q2".toList, [], [], [], []]]

/-- Two tasks without a due date. -/
def undated_tasks : List Task :=
  [sample_task 1 "a" "N/A" 0 1, sample_task 2 "b" "N/A" 0 2]

/-- Six tasks in non-decreasing order of priority, the third and fourth with the same
priority, and the first so far below them that the `int` difference does not fit. -/
def far_priority_tasks : List Task :=
  [sample_task 1 "z" "N/A" 0 (-1500000000), sample_task 2 "w" "N/A" 0 0,
   sample_task 3 "x" "N/A" 0 1500000000, sample_task 4 "y" "N/A" 0 1500000000,
   sample_task 5 "u" "N/A" 0 1600000000, sample_task 6 "v" "N/A" 0 1700000000]

/-- Five tasks with the priorities 2, 1, 2, 1, 2 and the due dates
2024-02-01, 2024-01-01, 2024-02-01, N/A, 2024-01-01. -/
def tied_tasks : List Task :=
  [sample_task 1 "a" "2024-02-01" 0 2, sample_task 2 "b" "2024-01-01" 0 1,
   sample_task 3 "c" "2024-02-01" 0 2, sample_task 4 "d" "N/A" 0 1,
   sample_task 5 "e" "2024-01-01" 0 2]

/-! ## Advancing a date, as the specification words it -/

/-- The date `a` is strictly before the date `b`. -/
def Date.earlier (a b : Date) : Prop :=
  a.year < b.year ∨ (a.year = b.year ∧
    (a.month < b.month ∨ (a.month = b.month ∧ a.day < b.day)))

instance (a b : Date) : Decidable (a.earlier b) := by
  unfold Date.earlier; infer_instance

/-- The first day of the calendar month after the month of `x`, December carrying into the
next year. -/
def first_of_next_month (x : Date) : Date :=
  if x.month = 12 then { year := x.year + 1, month := 1, day := 1 }
  else { year := x.year, month := x.month + 1, day := 1 }

/-- The specification's `advance(date, recurrence)`: daily one day, weekly seven days,
biweekly fourteen days later; monthly the same day number counted from the first day of the
next calendar month, yearly the same day number counted from the first day of the same
month of the next year (so a day number past the end of that month runs into the month
after it, which is the normalisation by calendar arithmetic). -/
def advance_date (x : Date) (recurrence : Int) : Date :=
  if recurrence = RECURRENCE_DAILY then next_day^[1] x
  else if recurrence = RECURRENCE_WEEKLY then next_day^[7] x
  else if recurrence = RECURRENCE_BIWEEKLY then next_day^[14] x
  else if recurrence = RECURRENCE_MONTHLY then
    next_day^[(x.day - 1).toNat] (first_of_next_month x)
  else if recurrence = RECURRENCE_YEARLY then
    next_day^[(x.day - 1).toNat] { year := x.year + 1, month := x.month, day := 1 }
  else x

/-- A task due on the given date with the given recurrence. -/
def recurring_task (due : String) (recurrence : Int) : Task :=
  sample_task 1 "Report Q1" due recurrence 2

/-- The globals after `main` has called `load_tasks` on the given file content. -/
def loaded_state (content : CString) : State :=
  { initial_state with tasks := load_tasks (some content) }

/-- The `struct tm` that `update_task_recurrence` hands to `mktime` for a task due on the
date `x`: the fields `parse_date` stores for `x`, with the day, the month or the year
advanced as the recurrence says. -/
def adjusted_tm (x : Date) (recurrence : Int) : Tm :=
  if recurrence = RECURRENCE_DAILY then
    { tm_year := x.year - 1900, tm_mon := x.month - 1, tm_mday := x.day + 1 }
  else if recurrence = RECURRENCE_WEEKLY then
    { tm_year := x.year - 1900, tm_mon := x.month - 1, tm_mday := x.day + 7 }
  else if recurrence = RECURRENCE_BIWEEKLY then
    { tm_year := x.year - 1900, tm_mon := x.month - 1, tm_mday := x.day + 14 }
  else if recurrence = RECURRENCE_MONTHLY then
    { tm_year := x.year - 1900, tm_mon := x.month - 1 + 1, tm_mday := x.day }
  else if recurrence = RECURRENCE_YEARLY then
    { tm_year := x.year - 1900 + 1, tm_mon := x.month - 1, tm_mday := x.day }
  else { tm_year := x.year - 1900, tm_mon := x.month - 1, tm_mday := x.day }

/-- A backing file of two records whose priority fields are `INT_MIN` and 0. -/
def file_with_extreme_priorities : CString :=
  "1\ta\twork\t-2147483648\t0\tN/A\tnone\n2\tb\twork\t0\t0\tN/A\tnone\n".toList

/-! ## Lemmas on ids -/

theorem length_update_task_ids_from (k : Nat) (l : List Task) :
    (update_task_ids_from k l).length = l.length := by
  induction l generalizing k with
  | nil => rfl
  | cons t ts ih => simp [update_task_ids_from, ih]

theorem length_update_task_ids (l : List Task) : (update_task_ids l).length = l.length :=
  length_update_task_ids_from 0 l

theorem map_erase_id_update_from (k : Nat) (l : List Task) :
    (update_task_ids_from k l).map erase_id = l.map erase_id := by
  induction l generalizing k with
  | nil => rfl
  | cons t ts ih => simp [update_task_ids_from, ih, erase_id]

theorem map_erase_id_update (l : List Task) :
    (update_task_ids l).map erase_id = l.map erase_id :=
  map_erase_id_update_from 0 l

theorem update_from_congr (k : Nat) (l l' : List Task)
    (h : l.map erase_id = l'.map erase_id) :
    update_task_ids_from k l = update_task_ids_from k l' := by
  induction l generalizing k l' with
  | nil =>
    cases l' with
    | nil => rfl
    | cons a as => simp at h
  | cons t ts ih =>
    cases l' with
    | nil => simp at h
    | cons a as =>
      simp only [List.map_cons, List.cons.injEq] at h
      simp only [update_task_ids_from, List.cons.injEq]
      refine ⟨?_, ih (k + 1) as h.2⟩
      have h1 := h.1
      simp only [erase_id, Task.mk.injEq] at h1
      cases t; cases a
      simp_all

theorem update_task_ids_congr (l l' : List Task) (h : l.map erase_id = l'.map erase_id) :
    update_task_ids l = update_task_ids l' :=
  update_from_congr 0 l l' h

theorem update_from_fixed_iff (k : Nat) (l : List Task) :
    update_task_ids_from k l = l ↔
      ∀ (i : Nat) (h : i < l.length), (l.get ⟨i, h⟩).id = ((k + i : Nat) : Int) + 1 := by
  induction l generalizing k with
  | nil => simp [update_task_ids_from]
  | cons t ts ih =>
    simp only [update_task_ids_from, List.cons.injEq, ih (k + 1)]
    constructor
    · rintro ⟨h1, h2⟩ i hi
      cases i with
      | zero => simp only [List.get_eq_getElem, List.getElem_cons_zero]; rw [← h1]; simp
      | succ j =>
        have := h2 j (by simpa using hi)
        simp only [List.get_eq_getElem, List.getElem_cons_succ] at this ⊢
        rw [this]; push_cast; ring
    · intro h
      refine ⟨?_, ?_⟩
      · have := h 0 (by simp)
        simp only [List.get_eq_getElem, List.getElem_cons_zero] at this
        cases t; simp_all
      · intro i hi
        have := h (i + 1) (by simpa using hi)
        simp only [List.get_eq_getElem, List.getElem_cons_succ] at this ⊢
        rw [this]; push_cast; ring

theorem ids_dense_iff (l : List Task) : ids_dense l ↔ update_task_ids l = l := by
  unfold ids_dense update_task_ids
  rw [update_from_fixed_iff]
  simp

theorem update_task_ids_idem (l : List Task) :
    update_task_ids (update_task_ids l) = update_task_ids l :=
  update_task_ids_congr _ _ (map_erase_id_update l)

theorem ids_dense_update (l : List Task) : ids_dense (update_task_ids l) :=
  (ids_dense_iff _).2 (update_task_ids_idem l)

theorem map_insertIdx_task (f : Task → Task) (i : Nat) (v : Task) (l : List Task) :
    (l.insertIdx i v).map f = (l.map f).insertIdx i (f v) := by
  induction l generalizing i with
  | nil => cases i <;> simp [List.insertIdx]
  | cons a as ih =>
    cases i with
    | zero => simp [List.insertIdx]
    | succ j => simp [List.insertIdx_succ_cons, ih]

theorem insertIdx_get_eraseIdx (l : List Task) (i : Nat) (h : i < l.length) :
    (l.eraseIdx i).insertIdx i (l.get ⟨i, h⟩) = l := by
  induction l generalizing i with
  | nil => simp at h
  | cons a as ih =>
    cases i with
    | zero => simp [List.insertIdx]
    | succ j =>
      simp only [List.eraseIdx_cons_succ, List.insertIdx_succ_cons, List.cons.injEq, true_and]
      exact ih j (by simpa using h)

/-- Removing slot `i`, renumbering, re-inserting the removed task at `i` and renumbering
gives back a densely numbered array. -/
theorem reinsert_removed (tasks : List Task) (i : Nat) (h : i < tasks.length)
    (hids : ids_dense tasks) :
    update_task_ids ((update_task_ids (tasks.eraseIdx i)).insertIdx i (tasks.get ⟨i, h⟩))
      = tasks := by
  have h1 : ((update_task_ids (tasks.eraseIdx i)).insertIdx i (tasks.get ⟨i, h⟩)).map erase_id
      = tasks.map erase_id := by
    rw [map_insertIdx_task, map_erase_id_update, ← map_insertIdx_task,
      insertIdx_get_eraseIdx]
  rw [update_task_ids_congr _ _ h1]
  exact (ids_dense_iff _).1 hids

/-! ## C1, C6: undo -/

/-- C1 (as stated, refuted): with the action stack full (`action_count = MAX_ACTIONS`) the
deletion is not recorded, so the undo that follows reverts an older action and the deleted
task stays deleted. -/
theorem delete_undo_full_log_differs :
    ids_dense full_log_state.tasks ∧
    (0 ≤ full_log_state.selected_task ∧
      full_log_state.selected_task < full_log_state.task_count) ∧
    (undo_last_action (delete_task_interactive 'y' full_log_state)).map
        (fun r => update_task_ids r.2.tasks)
      = some [sample_task 1 "Buy milk" "N/A" 0 1] ∧
    (undo_last_action (delete_task_interactive 'y' full_log_state)).map
        (fun r => update_task_ids r.2.tasks)
      ≠ some full_log_state.tasks := by
  decide

/-- What `delete_task_interactive` does to the task array and the action stack when the
deletion is confirmed and the selection is a valid index. -/
theorem delete_effect (s : State) (i : Nat) (hsel : s.selected_task = (i : Int))
    (hi : i < s.tasks.length) :
    (delete_task_interactive 'y' s).tasks = update_task_ids (s.tasks.eraseIdx i) ∧
    (delete_task_interactive 'y' s).action_stack = push_action s.action_stack
      { type := ActionType.ACTION_DELETE, task := s.tasks.get ⟨i, hi⟩, index := (i : Int) } := by
  have hget : s.tasks[i]? = some s.tasks[i] := List.getElem?_eq_getElem hi
  have hnot : ¬ ((i : Int) < 0 ∨ s.tasks.length ≤ i) := by omega
  simp [delete_task_interactive, State.task_count, hsel, hnot, hget, remove_task]

/-- Undoing a recorded deletion re-inserts the snapshot at its index. -/
theorem undo_delete_top (s : State) (st : List Action) (v : Task) (i : Nat)
    (hst : s.action_stack = st ++ [⟨ActionType.ACTION_DELETE, v, (i : Int)⟩])
    (hi : i ≤ s.tasks.length) :
    undo_last_action s = some ("Last action undone. Press any key...",
      { s with tasks := s.tasks.insertIdx i v, action_stack := st }) := by
  have hle : (0 : Int) ≤ (i : Int) ∧ (i : Int) ≤ (s.tasks.length : Int) := by omega
  simp [undo_last_action, hst, hle]

/-- C1 (amended): when ids equal position+1, the selected index is valid and the action
stack is not full, `delete_task_interactive` followed by `undo_last_action` and
`update_task_ids` gives back the task array as it was, and the action stack as it was. -/
theorem delete_then_undo_restores (s : State) (hids : ids_dense s.tasks)
    (hsel : 0 ≤ s.selected_task ∧ s.selected_task < s.task_count)
    (hlog : s.action_count < MAX_ACTIONS) :
    ∃ msg s1, undo_last_action (delete_task_interactive 'y' s) = some (msg, s1) ∧
      update_task_ids s1.tasks = s.tasks ∧ s1.action_stack = s.action_stack := by
  obtain ⟨i, hi0⟩ := Int.eq_ofNat_of_zero_le hsel.1
  have hi : i < s.tasks.length := by
    have := hsel.2
    simp only [State.task_count, hi0] at this
    exact_mod_cast this
  obtain ⟨htasks, hstack⟩ := delete_effect s i hi0 hi
  rw [push_action, if_pos (by simpa [State.action_count] using hlog)] at hstack
  have hle : i ≤ (delete_task_interactive 'y' s).tasks.length := by
    rw [htasks, length_update_task_ids, List.length_eraseIdx]
    simp only [hi, if_true]
    omega
  refine ⟨_, _, undo_delete_top _ _ _ i hstack hle, ?_, rfl⟩
  simp only [htasks]
  exact reinsert_removed s.tasks i hi hids

/-- C1 (amended), at a concrete state: deleting the second of two tasks and undoing. -/
theorem delete_then_undo_restores_witness :
    ∃ msg s1, undo_last_action (delete_task_interactive 'y' two_task_state) = some (msg, s1) ∧
      update_task_ids s1.tasks = two_task_state.tasks ∧
      s1.action_stack = two_task_state.action_stack :=
  delete_then_undo_restores two_task_state (by decide) (by decide) (by decide)

/-- C6: with an empty action stack `undo_last_action` reports "Nothing to undo" and returns
the globals (tasks, count, action stack) unchanged. -/
theorem undo_empty_log (s : State) (h : s.action_count = 0) :
    undo_last_action s = some ("Nothing to undo. Press any key...", s) := by
  have h0 : s.action_stack = [] := List.length_eq_zero.mp h
  simp [undo_last_action, h0]

/-- C6 at the initial state. -/
theorem undo_empty_log_witness :
    undo_last_action initial_state = some ("Nothing to undo. Press any key...", initial_state) :=
  undo_empty_log initial_state (by decide)

/-! ## C3: ids equal position+1 across the command loop -/

theorem update_task_recurrence_id {zone : Zone} (t : Task) :
    (update_task_recurrence zone t).id = t.id := by
  unfold update_task_recurrence
  by_cases h : t.recurrence = RECURRENCE_NONE
  · simp [h]
  · simp only [if_neg h]
    cases parse_date t.due_date <;> rfl

theorem toggle_task_completion_id {zone : Zone} (t : Task) (st : List Action) :
    (toggle_task_completion zone t st).1.id = t.id := by
  unfold toggle_task_completion
  simp only
  split_ifs <;> simp [update_task_recurrence_id]

theorem edit_task_id (lines : List CString) (t : Task) (st : List Action)
    (r : Task × List Action × List CString) (h : edit_task lines t st = some r) :
    r.1.id = t.id := by
  unfold edit_task at h
  simp only at h
  split at h
  · simp at h
  · split at h
    · simp at h
    · simp only [Option.bind_eq_some] at h
      obtain ⟨due, -, rec, -, h⟩ := h
      split at h
      · simp at h
      · simp only [Option.some.injEq] at h
        subst h
        simp only
        split_ifs <;> rfl

theorem ids_dense_set (l : List Task) (i : Nat) (t u : Task) (h : ids_dense l)
    (hget : l.get? i = some u) (hid : t.id = u.id) : ids_dense (l.set i t) := by
  intro j hj
  have hj' : j < l.length := by simpa using hj
  simp only [List.get_eq_getElem, List.getElem_set]
  split_ifs with hij
  · subst hij
    have h1 := h i hj'
    simp only [List.get_eq_getElem] at h1
    rw [List.get?_eq_get hj'] at hget
    simp only [List.get_eq_getElem, Option.some.injEq] at hget
    rw [hid, ← hget, h1]
  · have h1 := h j hj'
    simpa using h1

theorem delete_task_interactive_ids (ch : Char) (s : State) (h : ids_dense s.tasks) :
    ids_dense (delete_task_interactive ch s).tasks := by
  unfold delete_task_interactive
  split_ifs
  · exact h
  · split
    · exact h
    · exact ids_dense_update _
  · exact h

theorem dispatch_ids {zone : Zone} (ch confirm : Char) (lines : List CString) (s s1 : State)
    (h : ids_dense s.tasks) (hs : dispatch zone ch confirm lines s = some s1) :
    ids_dense s1.tasks := by
  unfold dispatch at hs
  by_cases hj : ch = 'j'
  · rw [if_pos hj] at hs
    simp only [Option.some.injEq] at hs
    subst hs
    split_ifs <;> exact h
  rw [if_neg hj] at hs
  by_cases hk : ch = 'k'
  · rw [if_pos hk] at hs
    simp only [Option.some.injEq] at hs
    subst hs
    split_ifs <;> exact h
  rw [if_neg hk] at hs
  by_cases ha : ch = 'a'
  · rw [if_pos ha] at hs
    simp only [Option.map_eq_some'] at hs
    obtain ⟨r, -, rfl⟩ := hs
    exact ids_dense_update _
  rw [if_neg ha] at hs
  by_cases hd : ch = 'd'
  · rw [if_pos hd] at hs
    simp only [Option.some.injEq] at hs
    subst hs
    split_ifs
    · exact delete_task_interactive_ids _ _ h
    · exact h
  rw [if_neg hd] at hs
  by_cases hc : ch = 'c'
  · rw [if_pos hc] at hs
    split_ifs at hs
    · simp only [Option.map_eq_some'] at hs
      obtain ⟨t, ht, rfl⟩ := hs
      exact ids_dense_set _ _ _ t h ht (toggle_task_completion_id _ _)
    · simp only [Option.some.injEq] at hs
      subst hs
      exact h
  rw [if_neg hc] at hs
  by_cases he : ch = 'e'
  · rw [if_pos he] at hs
    split_ifs at hs
    · simp only [Option.bind_eq_some, Option.map_eq_some'] at hs
      obtain ⟨t, ht, r, hr, rfl⟩ := hs
      exact ids_dense_set _ _ _ t h ht (edit_task_id _ _ _ _ hr)
    · simp only [Option.some.injEq] at hs
      subst hs
      exact h
  rw [if_neg he] at hs
  by_cases hsr : ch = 's'
  · rw [if_pos hsr] at hs
    split at hs
    · simp at hs
    · simp only [Option.some.injEq] at hs
      subst hs
      exact h
  rw [if_neg hsr] at hs
  by_cases hP : ch = 'P'
  · rw [if_pos hP] at hs
    simp only [Option.some.injEq] at hs
    subst hs
    exact ids_dense_update _
  rw [if_neg hP] at hs
  by_cases hS : ch = 'S'
  · rw [if_pos hS] at hs
    simp only [Option.some.injEq] at hs
    subst hs
    exact ids_dense_update _
  rw [if_neg hS] at hs
  by_cases hu : ch = 'u'
  · rw [if_pos hu] at hs
    simp only [Option.map_eq_some'] at hs
    obtain ⟨r, -, rfl⟩ := hs
    exact ids_dense_update _
  rw [if_neg hu] at hs
  simp only [Option.some.injEq] at hs
  subst hs
  exact h

theorem main_step_ids {zone : Zone} (ch confirm : Char) (lines : List CString) (s s1 : State)
    (h : ids_dense s.tasks) (hs : main_step zone ch confirm lines s = some s1) :
    ids_dense s1.tasks := by
  unfold main_step at hs
  simp only [Option.map_eq_some'] at hs
  obtain ⟨s0, h0, rfl⟩ := hs
  exact dispatch_ids ch confirm lines s s0 h h0

theorem add_task_length (lines : List CString) (tasks : List Task) (st : List Action)
    (r : List Task × List Action × List CString) (h : add_task lines tasks st = some r) :
    r.1.length = tasks.length + 1 := by
  unfold add_task at h
  simp only [Option.bind_eq_some, Option.some.injEq] at h
  obtain ⟨_, -, _, -, _, -, _, -, _, -, rfl⟩ := h
  simp

theorem main_step_add_length {zone : Zone} (lines : List CString) (s s1 : State)
    (hs : main_step zone 'a' 'n' lines s = some s1) : s1.tasks.length = s.tasks.length + 1 := by
  have hd : dispatch zone 'a' 'n' lines s = (add_task lines s.tasks s.action_stack).map fun r =>
      { s with tasks := update_task_ids r.1, action_stack := r.2.1,
               action_counter := bump_action_counter s.action_counter } := rfl
  unfold main_step at hs
  rw [hd] at hs
  simp only [Option.map_eq_some'] at hs
  obtain ⟨s0, ⟨r, hr, rfl⟩, rfl⟩ := hs
  simp only [clamp_selection, length_update_task_ids]
  exact add_task_length _ _ _ _ hr

theorem run_adds_spec {zone : Zone} (inputs : List (List CString)) (s final : State)
    (h : ids_dense s.tasks) (hr : run_adds zone inputs s = some final) :
    ids_dense final.tasks ∧ final.tasks.length = s.tasks.length + inputs.length := by
  induction inputs generalizing s with
  | nil =>
    simp only [run_adds, Option.some.injEq] at hr
    subst hr
    exact ⟨h, rfl⟩
  | cons lines more ih =>
    simp only [run_adds, Option.bind_eq_some] at hr
    obtain ⟨s1, h1, h2⟩ := hr
    obtain ⟨hd, hl⟩ := ih s1 (main_step_ids _ _ _ _ _ h h1) h2
    refine ⟨hd, ?_⟩
    rw [hl, main_step_add_length _ _ _ h1, List.length_cons]
    omega

theorem ids_of_dense (l : List Task) (h : ids_dense l) :
    l.map (·.id) = (List.range l.length).map (fun (i : Nat) => (i : Int) + 1) := by
  apply List.ext_getElem
  · simp only [List.length_map, List.length_range]
  · intro i h1 h2
    have := h i (by simpa using h1)
    simp only [List.get_eq_getElem] at this
    simp only [List.getElem_map, List.getElem_range, this]

/-- C3: every turn of the command loop (`main_step`, for any key, in particular add,
delete, edit, toggle, sort and undo) that starts from a task array whose ids equal
position+1 ends with such an array; and after N successful `a` commands from an empty array
the ids are 1, 2, ..., N in order. -/
theorem ids_invariant (zone : Zone) :
    (∀ (ch confirm : Char) (lines : List CString) (s s1 : State),
      ids_dense s.tasks → main_step zone ch confirm lines s = some s1 → ids_dense s1.tasks) ∧
    (∀ (inputs : List (List CString)) (s final : State),
      s.tasks = [] → run_adds zone inputs s = some final →
      final.tasks.map (·.id) =
        (List.range inputs.length).map (fun (i : Nat) => (i : Int) + 1)) := by
  refine ⟨main_step_ids, ?_⟩
  intro inputs s final h0 hr
  have hd : ids_dense s.tasks := by rw [h0]; intro i hi; simp at hi
  obtain ⟨h1, h2⟩ := run_adds_spec inputs s final hd hr
  rw [ids_of_dense _ h1, h2, h0]
  simp

/-- C3 at concrete inputs: two tasks are added from the initial state, and the second of
two tasks is toggled. -/
theorem ids_invariant_witness :
    (∃ s1, main_step utc_zone 'c' 'n' [] two_task_state = some s1 ∧ ids_dense s1.tasks) ∧
    (∃ final, run_adds utc_zone [typed_lines "Buy milk" "" "none" "1",
        typed_lines "Report Q1" "2024-01-01" "weekly" "2"] initial_state = some final ∧
      final.tasks.map (·.id) = [1, 2]) := by
  refine ⟨?_, ?_⟩
  · have h : (main_step utc_zone 'c' 'n' [] two_task_state).isSome = true := by decide
    obtain ⟨s1, hs1⟩ := Option.isSome_iff_exists.mp h
    exact ⟨s1, hs1, (ids_invariant utc_zone).1 _ _ _ _ _ (by decide) hs1⟩
  · have h : (run_adds utc_zone [typed_lines "Buy milk" "" "none" "1",
        typed_lines "Report Q1" "2024-01-01" "weekly" "2"] initial_state).isSome = true := by
      decide
    obtain ⟨final, hf⟩ := Option.isSome_iff_exists.mp h
    exact ⟨final, hf, (ids_invariant utc_zone).2 _ _ _ rfl hf⟩

/-! ## C7: search -/

theorem starts_with_iff (hay needle : CString) :
    starts_with hay needle = true ↔ needle <+: hay := by
  induction hay generalizing needle with
  | nil =>
    cases needle with
    | nil => simp [starts_with]
    | cons n ns => simp [starts_with]
  | cons h hs ih =>
    cases needle with
    | nil => simp [starts_with]
    | cons n ns =>
      simp only [starts_with, Bool.and_eq_true, decide_eq_true_eq, ih, List.cons_prefix_cons]
      constructor
      · rintro ⟨rfl, h2⟩; exact ⟨rfl, h2⟩
      · rintro ⟨rfl, h2⟩; exact ⟨rfl, h2⟩

theorem strstr_isSome_iff (hay needle : CString) :
    (strstr hay needle).isSome = true ↔ needle <:+: hay := by
  induction hay with
  | nil =>
    unfold strstr
    by_cases hn : needle = []
    · simp [hn]
    · simp [hn]
  | cons h hs ih =>
    unfold strstr
    rw [List.infix_cons_iff, ← ih, ← starts_with_iff]
    by_cases hp : starts_with (h :: hs) needle = true
    · simp [hp]
    · simp [hp]

theorem search_from_none (q : CString) (k : Nat) (l : List Task)
    (h : ∀ t ∈ l, ¬ q <:+: t.title) : search_from q k l = none := by
  induction l generalizing k with
  | nil => rfl
  | cons t ts ih =>
    unfold search_from
    have h1 : ¬ (strstr t.title q).isSome = true := by
      rw [strstr_isSome_iff]; exact h t (by simp)
    rw [if_neg h1]
    exact ih (k + 1) (fun u hu => h u (by simp [hu]))

theorem search_from_first (q : CString) (k : Nat) (l : List Task) (i : Nat)
    (hi : i < l.length) (hm : q <:+: (l.get ⟨i, hi⟩).title)
    (hmin : ∀ (j : Nat) (hj : j < l.length), j < i → ¬ q <:+: (l.get ⟨j, hj⟩).title) :
    search_from q k l = some (k + i) := by
  induction l generalizing k i with
  | nil => simp at hi
  | cons t ts ih =>
    unfold search_from
    cases i with
    | zero =>
      have h1 : (strstr t.title q).isSome = true := by
        rw [strstr_isSome_iff]; simpa using hm
      rw [if_pos h1]; rfl
    | succ j =>
      have h1 : ¬ (strstr t.title q).isSome = true := by
        rw [strstr_isSome_iff]
        have := hmin 0 (by simp) (by omega)
        simpa using this
      rw [if_neg h1]
      have hj : j < ts.length := by simpa using hi
      have := ih (k + 1) j hj (by simpa using hm)
        (fun a ha haj => by
          have := hmin (a + 1) (by simpa using ha) (by omega)
          simpa using this)
      rw [this]
      congr 1
      omega

/-- C7: `search_task` sets the selection to the least index whose title contains the query
as a contiguous, case-sensitive substring, and leaves it unchanged when no title does. -/
theorem search_task_first_match (tasks : List Task) (query : CString) (selected : Int) :
    (∀ (i : Nat) (hi : i < tasks.length), query <:+: (tasks.get ⟨i, hi⟩).title →
      (∀ (j : Nat) (hj : j < tasks.length), j < i → ¬ query <:+: (tasks.get ⟨j, hj⟩).title) →
      search_task tasks query selected = (i : Int)) ∧
    ((∀ t ∈ tasks, ¬ query <:+: t.title) → search_task tasks query selected = selected) := by
  constructor
  · intro i hi hm hmin
    unfold search_task
    rw [search_from_first query 0 tasks i hi hm hmin]
    simp
  · intro h
    unfold search_task
    rw [search_from_none query 0 tasks h]

/-- C7 at the example of the specification: the query "Report" over the titles
"Buy milk", "Report Q1", "Report Q2" selects index 1; the query "report" selects nothing. -/
theorem search_task_first_match_witness :
    search_task report_tasks "Report".toList 0 = 1 ∧
    search_task report_tasks "report".toList 7 = 7 :=
  ⟨(search_task_first_match report_tasks "Report".toList 0).1 1 (by decide) (by decide)
      (by decide),
   (search_task_first_match report_tasks "report".toList 7).2 (by decide)⟩

/-! ## The `strcmp` model and the lexicographic order -/

theorem strcmp_swap (a b : CString) : strcmp b a = - strcmp a b := by
  induction a generalizing b with
  | nil => cases b <;> simp [strcmp]
  | cons x xs ih =>
    cases b with
    | nil => simp [strcmp]
    | cons y ys =>
      simp only [strcmp]
      by_cases hxy : x = y
      · subst hxy
        simp [ih]
      · have hyx : ¬ y = x := fun h => hxy h.symm
        rw [if_neg hxy, if_neg hyx]
        rcases lt_or_gt_of_ne hxy with h | h
        · rw [if_pos h, if_neg (not_lt_of_gt h)]; rfl
        · rw [if_neg (not_lt_of_gt h), if_pos h]

theorem strcmp_eq_zero_iff (a b : CString) : strcmp a b = 0 ↔ a = b := by
  induction a generalizing b with
  | nil => cases b <;> simp [strcmp]
  | cons x xs ih =>
    cases b with
    | nil => simp [strcmp]
    | cons y ys =>
      simp only [strcmp, List.cons.injEq]
      by_cases hxy : x = y
      · simp [hxy, ih]
      · have h1 : (if x < y then (-1 : Int) else 1) ≠ 0 := by split_ifs <;> decide
        rw [if_neg hxy]
        simp [hxy, h1]

theorem strcmp_neg_iff (a b : CString) : strcmp a b < 0 ↔ List.Lex (· < ·) a b := by
  induction a generalizing b with
  | nil =>
    cases b with
    | nil => simp [strcmp, List.Lex.not_nil_right]
    | cons y ys => simp [strcmp, List.Lex.nil]
  | cons x xs ih =>
    cases b with
    | nil => simp [strcmp, List.Lex.not_nil_right]
    | cons y ys =>
      simp only [strcmp]
      by_cases hxy : x = y
      · subst hxy
        rw [if_pos rfl, ih, List.Lex.cons_iff]
      · rw [if_neg hxy]
        constructor
        · intro h
          by_cases hlt : x < y
          · exact List.Lex.rel hlt
          · rw [if_neg hlt] at h; omega
        · intro h
          cases h with
          | cons h' => exact absurd rfl hxy
          | rel h' => rw [if_pos h']; omega

theorem strcmp_nonpos_iff (a b : CString) : strcmp a b ≤ 0 ↔ a ≤ b := by
  have h1 : (b < a) ↔ strcmp b a < 0 := (strcmp_neg_iff b a).symm
  have h2 : a ≤ b ↔ ¬ b < a := not_lt.symm
  rw [h2, h1, strcmp_swap a b]
  omega

/-! ## The `qsort` model: permutation and order -/

theorem merge_runs_perm (cmp : Task → Task → Int) (n : Nat) (l1 l2 : List Task) :
    (merge_runs cmp n l1 l2).Perm (l1 ++ l2) := by
  induction n generalizing l1 l2 with
  | zero =>
    cases l1 with
    | nil => simp [merge_runs]
    | cons a as =>
      cases l2 with
      | nil => simp [merge_runs]
      | cons b bs => simp [merge_runs]
  | succ n ih =>
    cases l1 with
    | nil => simp [merge_runs]
    | cons a as =>
      cases l2 with
      | nil => simp [merge_runs]
      | cons b bs =>
        simp only [merge_runs]
        split_ifs
        · exact (ih as (b :: bs)).cons a
        · have h1 := (ih (a :: as) bs).cons b
          exact h1.trans (List.perm_middle.symm)

theorem msort_with_tmp_perm (cmp : Task → Task → Int) (fuel : Nat) (l : List Task) :
    (msort_with_tmp cmp fuel l).Perm l := by
  induction fuel generalizing l with
  | zero => simp [msort_with_tmp]
  | succ fuel ih =>
    unfold msort_with_tmp
    split_ifs
    · exact List.Perm.refl l
    · simp only
      refine (merge_runs_perm cmp _ _ _).trans ?_
      have h1 := (ih (l.take (l.length / 2))).append (ih (l.drop (l.length / 2)))
      rw [List.take_append_drop] at h1
      exact h1

theorem qsort_perm (cmp : Task → Task → Int) (l : List Task) : (qsort cmp l).Perm l :=
  msort_with_tmp_perm cmp l.length l

/-- The merge loop keeps two runs ordered by `R` ordered, for any transitive `R` that
follows the sign of `cmp` on the elements satisfying `P`. -/
theorem merge_runs_sorted (cmp : Task → Task → Int) (R : Task → Task → Prop)
    (P : Task → Prop) (htr : ∀ a b c, R a b → R b c → R a c)
    (h1 : ∀ a b, P a → P b → cmp a b ≤ 0 → R a b)
    (h2 : ∀ a b, P a → P b → ¬ cmp a b ≤ 0 → R b a) :
    ∀ (n : Nat) (l1 l2 : List Task), l1.length + l2.length ≤ n →
      (∀ x ∈ l1, P x) → (∀ x ∈ l2, P x) → l1.Pairwise R → l2.Pairwise R →
      (merge_runs cmp n l1 l2).Pairwise R := by
  intro n
  induction n with
  | zero =>
    intro l1 l2 hn _ _ s1 s2
    cases l1 with
    | nil => simpa [merge_runs] using s2
    | cons a as => simp at hn
  | succ n ih =>
    intro l1 l2 hn p1 p2 s1 s2
    cases l1 with
    | nil => simpa [merge_runs] using s2
    | cons a as =>
      cases l2 with
      | nil => simpa [merge_runs] using s1
      | cons b bs =>
        simp only [merge_runs]
        have pa : P a := p1 a (by simp)
        have pb : P b := p2 b (by simp)
        rw [List.pairwise_cons] at s1 s2
        simp only [List.length_cons] at hn
        split_ifs with hc
        · rw [List.pairwise_cons]
          constructor
          · intro x hx
            have hx' := (merge_runs_perm cmp n as (b :: bs)).subset hx
            rcases List.mem_append.mp hx' with hx1 | hx2
            · exact s1.1 x hx1
            · rcases List.mem_cons.mp hx2 with rfl | hx3
              · exact h1 a x pa pb hc
              · exact htr a b x (h1 a b pa pb hc) (s2.1 x hx3)
          · exact ih as (b :: bs) (by simp only [List.length_cons]; omega)
              (fun x hx => p1 x (by simp [hx])) p2 s1.2 (List.pairwise_cons.mpr s2)
        · rw [List.pairwise_cons]
          constructor
          · intro x hx
            have hx' := (merge_runs_perm cmp n (a :: as) bs).subset hx
            rcases List.mem_append.mp hx' with hx1 | hx2
            · rcases List.mem_cons.mp hx1 with rfl | hx3
              · exact h2 x b pa pb hc
              · exact htr b a x (h2 a b pa pb hc) (s1.1 x hx3)
            · exact s2.1 x hx2
          · exact ih (a :: as) bs (by simp only [List.length_cons]; omega) p1
              (fun x hx => p2 x (by simp [hx])) (List.pairwise_cons.mpr s1) s2.2

theorem msort_with_tmp_sorted (cmp : Task → Task → Int) (R : Task → Task → Prop)
    (P : Task → Prop) (htr : ∀ a b c, R a b → R b c → R a c)
    (h1 : ∀ a b, P a → P b → cmp a b ≤ 0 → R a b)
    (h2 : ∀ a b, P a → P b → ¬ cmp a b ≤ 0 → R b a) :
    ∀ (fuel : Nat) (l : List Task), l.length ≤ fuel → (∀ x ∈ l, P x) →
      (msort_with_tmp cmp fuel l).Pairwise R := by
  intro fuel
  induction fuel with
  | zero =>
    intro l hl _
    have : l = [] := List.length_eq_zero.mp (Nat.le_zero.mp hl)
    subst this
    simp [msort_with_tmp]
  | succ fuel ih =>
    intro l hl hp
    unfold msort_with_tmp
    split_ifs with hlen
    · cases l with
      | nil => exact List.Pairwise.nil
      | cons a as =>
        cases as with
        | nil => simp
        | cons b bs => simp at hlen
    · simp only
      have hlen2 : 2 ≤ l.length := by omega
      have ht : (l.take (l.length / 2)).length ≤ fuel := by
        rw [List.length_take]; omega
      have hd : (l.drop (l.length / 2)).length ≤ fuel := by
        rw [List.length_drop]; omega
      have pt : ∀ x ∈ l.take (l.length / 2), P x := fun x hx => hp x (List.mem_of_mem_take hx)
      have pd : ∀ x ∈ l.drop (l.length / 2), P x := fun x hx => hp x (List.mem_of_mem_drop hx)
      exact merge_runs_sorted cmp R P htr h1 h2 _ _ _ (le_refl _)
        (fun x hx => pt x ((msort_with_tmp_perm cmp fuel _).subset hx))
        (fun x hx => pd x ((msort_with_tmp_perm cmp fuel _).subset hx))
        (ih _ ht pt) (ih _ hd pd)

theorem qsort_sorted (cmp : Task → Task → Int) (R : Task → Task → Prop)
    (P : Task → Prop) (htr : ∀ a b c, R a b → R b c → R a c)
    (h1 : ∀ a b, P a → P b → cmp a b ≤ 0 → R a b)
    (h2 : ∀ a b, P a → P b → ¬ cmp a b ≤ 0 → R b a)
    (l : List Task) (hp : ∀ x ∈ l, P x) : (qsort cmp l).Pairwise R :=
  msort_with_tmp_sorted cmp R P htr h1 h2 l.length l (le_refl _) hp

/-! ## C10: order by due date -/

theorem due_order_up_trans (a b c : Task) (h1 : due_order_up a b) (h2 : due_order_up b c) :
    due_order_up a c := by
  unfold due_order_up at *
  rcases h2 with h2 | ⟨hb, hbc⟩
  · exact Or.inl h2
  · rcases h1 with h1 | ⟨ha, hab⟩
    · exact absurd h1 hb
    · exact Or.inr ⟨ha, le_trans hab hbc⟩

theorem due_order_down_trans (a b c : Task) (h1 : due_order_down a b)
    (h2 : due_order_down b c) : due_order_down a c := by
  unfold due_order_down at *
  rcases h2 with h2 | ⟨hb, hbc⟩
  · exact Or.inl h2
  · rcases h1 with h1 | ⟨ha, hab⟩
    · exact absurd h1 hb
    · exact Or.inr ⟨ha, le_trans hbc hab⟩

theorem compare_due_date_desc_le (a b : Task) (h : compare_due_date_desc a b ≤ 0) :
    due_order_up a b := by
  unfold compare_due_date_desc at h
  unfold due_order_up
  by_cases ha : a.due_date = NO_DUE_DATE
  · rw [if_pos ((strcmp_eq_zero_iff _ _).2 ha)] at h; omega
  · rw [if_neg (fun hh => ha ((strcmp_eq_zero_iff _ _).1 hh))] at h
    by_cases hb : b.due_date = NO_DUE_DATE
    · exact Or.inl hb
    · rw [if_neg (fun hh => hb ((strcmp_eq_zero_iff _ _).1 hh))] at h
      exact Or.inr ⟨ha, (strcmp_nonpos_iff _ _).1 h⟩

theorem compare_due_date_desc_gt (a b : Task) (h : ¬ compare_due_date_desc a b ≤ 0) :
    due_order_up b a := by
  unfold compare_due_date_desc at h
  unfold due_order_up
  by_cases ha : a.due_date = NO_DUE_DATE
  · exact Or.inl ha
  · rw [if_neg (fun hh => ha ((strcmp_eq_zero_iff _ _).1 hh))] at h
    by_cases hb : b.due_date = NO_DUE_DATE
    · rw [if_pos ((strcmp_eq_zero_iff _ _).2 hb)] at h; omega
    · rw [if_neg (fun hh => hb ((strcmp_eq_zero_iff _ _).1 hh))] at h
      refine Or.inr ⟨hb, (strcmp_nonpos_iff _ _).1 ?_⟩
      rw [strcmp_swap]; omega

theorem compare_due_date_asc_le (a b : Task) (h : compare_due_date_asc a b ≤ 0) :
    due_order_down a b := by
  unfold compare_due_date_asc at h
  unfold due_order_down
  by_cases ha : a.due_date = NO_DUE_DATE
  · rw [if_pos ((strcmp_eq_zero_iff _ _).2 ha)] at h; omega
  · rw [if_neg (fun hh => ha ((strcmp_eq_zero_iff _ _).1 hh))] at h
    by_cases hb : b.due_date = NO_DUE_DATE
    · exact Or.inl hb
    · rw [if_neg (fun hh => hb ((strcmp_eq_zero_iff _ _).1 hh))] at h
      exact Or.inr ⟨ha, (strcmp_nonpos_iff _ _).1 h⟩

theorem compare_due_date_asc_gt (a b : Task) (h : ¬ compare_due_date_asc a b ≤ 0) :
    due_order_down b a := by
  unfold compare_due_date_asc at h
  unfold due_order_down
  by_cases ha : a.due_date = NO_DUE_DATE
  · exact Or.inl ha
  · rw [if_neg (fun hh => ha ((strcmp_eq_zero_iff _ _).1 hh))] at h
    by_cases hb : b.due_date = NO_DUE_DATE
    · rw [if_pos ((strcmp_eq_zero_iff _ _).2 hb)] at h; omega
    · rw [if_neg (fun hh => hb ((strcmp_eq_zero_iff _ _).1 hh))] at h
      refine Or.inr ⟨hb, (strcmp_nonpos_iff _ _).1 ?_⟩
      rw [strcmp_swap]; omega

/-- A relation that does not look at ids holds pairwise after `update_task_ids` when it
held before. -/
theorem pairwise_update_task_ids (R : Task → Task → Prop)
    (hR : ∀ a b, R a b ↔ R (erase_id a) (erase_id b)) (l : List Task)
    (h : l.Pairwise R) : (update_task_ids l).Pairwise R := by
  have e1 : ∀ m : List Task, m.Pairwise R ↔ (m.map erase_id).Pairwise R := by
    intro m
    rw [List.pairwise_map]
    exact ⟨fun hm => hm.imp (fun {a b} hab => (hR a b).1 hab),
      fun hm => hm.imp (fun {a b} hab => (hR a b).2 hab)⟩
  rw [e1, map_erase_id_update, ← e1]
  exact h

theorem sort_due_up (tasks : List Task) :
    (sort_tasks tasks 'd' true).Pairwise due_order_up := by
  have h : sort_tasks tasks 'd' true = update_task_ids (qsort compare_due_date_desc tasks) :=
    rfl
  rw [h]
  apply pairwise_update_task_ids due_order_up (fun a b => Iff.rfl)
  exact qsort_sorted _ _ (fun _ => True) due_order_up_trans
    (fun a b _ _ => compare_due_date_desc_le a b)
    (fun a b _ _ => compare_due_date_desc_gt a b) tasks (fun _ _ => trivial)

theorem sort_due_down (tasks : List Task) :
    (sort_tasks tasks 'd' false).Pairwise due_order_down := by
  have h : sort_tasks tasks 'd' false = update_task_ids (qsort compare_due_date_asc tasks) :=
    rfl
  rw [h]
  apply pairwise_update_task_ids due_order_down (fun a b => Iff.rfl)
  exact qsort_sorted _ _ (fun _ => True) due_order_down_trans
    (fun a b _ _ => compare_due_date_asc_le a b)
    (fun a b _ _ => compare_due_date_asc_gt a b) tasks (fun _ _ => trivial)

/-- C10: after `sort_tasks` by due date, in either direction, every task whose due date is
`N/A` stands after every task that has a date, and the dated tasks are in lexicographic
order of their date strings: non-decreasing when `ascending` is true, non-increasing when
it is false. -/
theorem sort_by_due_date_order (tasks : List Task) (ascending : Bool) (i j : Nat)
    (hi : i < (sort_tasks tasks 'd' ascending).length)
    (hj : j < (sort_tasks tasks 'd' ascending).length) :
    (((sort_tasks tasks 'd' ascending).get ⟨i, hi⟩).due_date = NO_DUE_DATE →
      ((sort_tasks tasks 'd' ascending).get ⟨j, hj⟩).due_date ≠ NO_DUE_DATE → j < i) ∧
    (i < j → ((sort_tasks tasks 'd' ascending).get ⟨i, hi⟩).due_date ≠ NO_DUE_DATE →
      ((sort_tasks tasks 'd' ascending).get ⟨j, hj⟩).due_date ≠ NO_DUE_DATE →
      if ascending = true then
        ((sort_tasks tasks 'd' ascending).get ⟨i, hi⟩).due_date ≤
          ((sort_tasks tasks 'd' ascending).get ⟨j, hj⟩).due_date
      else
        ((sort_tasks tasks 'd' ascending).get ⟨j, hj⟩).due_date ≤
          ((sort_tasks tasks 'd' ascending).get ⟨i, hi⟩).due_date) := by
  cases ascending with
  | true =>
    have hp := List.pairwise_iff_getElem.mp (sort_due_up tasks)
    simp only [List.get_eq_getElem, if_true]
    constructor
    · intro hna hdated
      by_contra hlt
      rcases Nat.lt_or_eq_of_le (not_lt.mp hlt) with hij | hij
      · rcases hp i j hi hj hij with h | ⟨h, -⟩
        · exact hdated h
        · exact h hna
      · subst hij
        exact hdated hna
    · intro hij _ hb
      rcases hp i j hi hj hij with h | ⟨-, h⟩
      · exact absurd h hb
      · exact h
  | false =>
    have hp := List.pairwise_iff_getElem.mp (sort_due_down tasks)
    simp only [List.get_eq_getElem, Bool.false_eq_true, if_false]
    constructor
    · intro hna hdated
      by_contra hlt
      rcases Nat.lt_or_eq_of_le (not_lt.mp hlt) with hij | hij
      · rcases hp i j hi hj hij with h | ⟨h, -⟩
        · exact hdated h
        · exact h hna
      · subst hij
        exact hdated hna
    · intro hij _ hb
      rcases hp i j hi hj hij with h | ⟨-, h⟩
      · exact absurd h hb
      · exact h

/-- C10 on four tasks: the ascending sort puts 2024-01-15 before 2024-03-01 and both
before the two tasks without a date. -/
theorem sort_by_due_date_order_witness :
    (sort_tasks dated_tasks 'd' true).map (·.due_date) =
      ["2024-01-15".toList, "2024-03-01".toList, "N/A".toList, "N/A".toList] ∧
    ((sort_tasks dated_tasks 'd' true).get ⟨0, by decide⟩).due_date ≤
      ((sort_tasks dated_tasks 'd' true).get ⟨1, by decide⟩).due_date ∧
    1 < 2 := by
  refine ⟨by decide, ?_, ?_⟩
  · have h := (sort_by_due_date_order dated_tasks true 0 1 (by decide) (by decide)).2
      (by decide) (by decide) (by decide)
    simpa using h
  · exact (sort_by_due_date_order dated_tasks true 2 1 (by decide) (by decide)).1
      (by decide) (by decide)

/-! ## C5: priority sort, ascending then descending -/

theorem wrap_int_of_range (x : Int) (h1 : -2147483648 ≤ x) (h2 : x ≤ 2147483647) :
    wrap_int x = x := by
  unfold wrap_int
  omega

/-- C5 (the code at the failing input): `load_tasks` reads the priorities `INT_MIN` and 0
from the backing file; they are distinct, and for this pair both comparators return a
negative `int` in this order (the difference `0 - INT_MIN` of `compare_priority_desc` does
not fit an `int`), so the descending sort leaves the ascending result as it is instead of
reversing it. -/
theorem priority_sort_extreme_not_reversed :
    load_tasks (some file_with_extreme_priorities) = extreme_priority_tasks ∧
    extreme_priority_tasks.Pairwise (fun a b => a.priority ≠ b.priority) ∧
    compare_priority_desc (sample_task 1 "a" "N/A" 0 (-2147483648)) (sample_task 2 "b" "N/A" 0 0)
      < 0 ∧
    (sort_tasks (sort_tasks extreme_priority_tasks 'p' true) 'p' false).map erase_id =
      (sort_tasks extreme_priority_tasks 'p' true).map erase_id ∧
    (sort_tasks (sort_tasks extreme_priority_tasks 'p' true) 'p' false).map erase_id ≠
      ((sort_tasks extreme_priority_tasks 'p' true).map erase_id).reverse := by
  decide

theorem pairwise_erase_id_iff (R : Task → Task → Prop)
    (hR : ∀ a b, R a b ↔ R (erase_id a) (erase_id b)) (m : List Task) :
    m.Pairwise R ↔ (m.map erase_id).Pairwise R := by
  rw [List.pairwise_map]
  exact ⟨fun hm => hm.imp (fun {a b} hab => (hR a b).1 hab),
    fun hm => hm.imp (fun {a b} hab => (hR a b).2 hab)⟩

theorem mem_update_task_ids_priority (l : List Task) (x : Task)
    (hx : x ∈ update_task_ids l) : ∃ u ∈ l, u.priority = x.priority := by
  have h1 : erase_id x ∈ (update_task_ids l).map erase_id := List.mem_map_of_mem _ hx
  rw [map_erase_id_update, List.mem_map] at h1
  obtain ⟨u, hu, hux⟩ := h1
  refine ⟨u, hu, ?_⟩
  have := congrArg Task.priority hux
  simpa [erase_id] using this

/-- When the priorities are pairwise distinct and every difference of two of them fits a
32-bit `int`, sorting by priority ascending and then descending gives exactly the reverse of
the ascending result, ids aside. -/
theorem priority_sort_asc_then_desc_reverses (tasks : List Task)
    (hdistinct : tasks.Pairwise (fun a b => a.priority ≠ b.priority))
    (hrange : ∀ a ∈ tasks, ∀ b ∈ tasks,
      -2147483648 ≤ a.priority - b.priority ∧ a.priority - b.priority ≤ 2147483647) :
    (sort_tasks (sort_tasks tasks 'p' true) 'p' false).map erase_id =
      ((sort_tasks tasks 'p' true).map erase_id).reverse := by
  have e1 : sort_tasks tasks 'p' true = update_task_ids (qsort compare_priority_asc tasks) :=
    rfl
  have e2 : ∀ l, sort_tasks l 'p' false = update_task_ids (qsort compare_priority_desc l) :=
    fun _ => rfl
  rw [e2, e1]
  set A := qsort compare_priority_asc tasks with hA
  set B := qsort compare_priority_desc (update_task_ids A) with hB
  rw [map_erase_id_update, map_erase_id_update]
  let P : Task → Prop := fun t => ∃ u ∈ tasks, u.priority = t.priority
  have hne_symm : ∀ {a b : Task}, a.priority ≠ b.priority → b.priority ≠ a.priority :=
    fun h => h.symm
  -- the ascending pass
  have hAperm : A.Perm tasks := qsort_perm _ _
  have hAle : A.Pairwise (fun a b => a.priority ≤ b.priority) := by
    refine qsort_sorted compare_priority_asc (fun a b => a.priority ≤ b.priority) P
      (fun a b c h1 h2 => le_trans h1 h2) ?_ ?_ tasks (fun x hx => ⟨x, hx, rfl⟩)
    · rintro a b ⟨u, hu, hua⟩ ⟨v, hv, hvb⟩ h
      have := hrange u hu v hv
      unfold compare_priority_asc at h
      rw [wrap_int_of_range _ (by omega) (by omega)] at h
      omega
    · rintro a b ⟨u, hu, hua⟩ ⟨v, hv, hvb⟩ h
      have := hrange u hu v hv
      unfold compare_priority_asc at h
      rw [wrap_int_of_range _ (by omega) (by omega)] at h
      omega
  have hAne : A.Pairwise (fun a b => a.priority ≠ b.priority) :=
    (hAperm.pairwise_iff (fun {a b} h => hne_symm h)).2 hdistinct
  have hAlt : A.Pairwise (fun a b => a.priority < b.priority) :=
    (hAle.and hAne).imp (fun {a b} h => lt_of_le_of_ne h.1 h.2)
  -- the descending pass over the renumbered array
  have hPupd : ∀ x ∈ update_task_ids A, P x := by
    intro x hx
    obtain ⟨u, hu, hux⟩ := mem_update_task_ids_priority A x hx
    exact ⟨u, hAperm.subset hu, hux⟩
  have hBperm : B.Perm (update_task_ids A) := qsort_perm _ _
  have hBge : B.Pairwise (fun a b => a.priority ≥ b.priority) := by
    refine qsort_sorted compare_priority_desc (fun a b => a.priority ≥ b.priority) P
      (fun a b c h1 h2 => le_trans h2 h1) ?_ ?_ (update_task_ids A) hPupd
    · rintro a b ⟨u, hu, hua⟩ ⟨v, hv, hvb⟩ h
      have := hrange v hv u hu
      unfold compare_priority_desc at h
      rw [wrap_int_of_range _ (by omega) (by omega)] at h
      show b.priority ≤ a.priority
      omega
    · rintro a b ⟨u, hu, hua⟩ ⟨v, hv, hvb⟩ h
      have := hrange v hv u hu
      unfold compare_priority_desc at h
      rw [wrap_int_of_range _ (by omega) (by omega)] at h
      show a.priority ≤ b.priority
      omega
  have hUne : (update_task_ids A).Pairwise (fun a b => a.priority ≠ b.priority) :=
    pairwise_update_task_ids (fun a b => a.priority ≠ b.priority) (fun a b => Iff.rfl) A hAne
  have hBne : B.Pairwise (fun a b => a.priority ≠ b.priority) :=
    (hBperm.pairwise_iff (fun {a b} h => hne_symm h)).2 hUne
  have hBgt : B.Pairwise (fun a b => a.priority > b.priority) :=
    (hBge.and hBne).imp (fun {a b} h => lt_of_le_of_ne h.1 (fun e => h.2 e.symm))
  -- both sides are the strictly decreasing arrangement of the same tasks
  have hperm : (B.map erase_id).Perm ((A.map erase_id).reverse) := by
    have h1 : (B.map erase_id).Perm ((update_task_ids A).map erase_id) := hBperm.map _
    rw [map_erase_id_update] at h1
    exact h1.trans (List.reverse_perm _).symm
  have hs1 : (B.map erase_id).Sorted (fun a b => a.priority > b.priority) :=
    (pairwise_erase_id_iff (fun a b => a.priority > b.priority) (fun a b => Iff.rfl) B).1 hBgt
  have hs2 : ((A.map erase_id).reverse).Sorted (fun a b => a.priority > b.priority) := by
    have h1 : (A.map erase_id).Pairwise (fun a b => a.priority < b.priority) :=
      (pairwise_erase_id_iff (fun a b => a.priority < b.priority) (fun a b => Iff.rfl) A).1
        hAlt
    exact List.pairwise_reverse.mpr h1
  exact List.eq_of_perm_of_sorted hperm hs1 hs2

/-- The reversal on three tasks with priorities 3, 1, 2. -/
theorem priority_sort_asc_then_desc_reverses_witness :
    (sort_tasks (sort_tasks three_priority_tasks 'p' true) 'p' false).map erase_id =
      ((sort_tasks three_priority_tasks 'p' true).map erase_id).reverse :=
  priority_sort_asc_then_desc_reverses three_priority_tasks (by decide) (by decide)

/-- For tasks with pairwise distinct priorities in the range 1..5 that `add_task` and
`edit_task` accept, sorting by priority ascending and then descending gives exactly the
reverse of the ascending result, ids aside. -/
theorem priority_sort_reverses_in_entry_range (tasks : List Task)
    (hdistinct : tasks.Pairwise (fun a b => a.priority ≠ b.priority))
    (hrange : ∀ t ∈ tasks, 1 ≤ t.priority ∧ t.priority ≤ 5) :
    (sort_tasks (sort_tasks tasks 'p' true) 'p' false).map erase_id =
      ((sort_tasks tasks 'p' true).map erase_id).reverse := by
  refine priority_sort_asc_then_desc_reverses tasks hdistinct ?_
  intro a ha b hb
  have h1 := hrange a ha
  have h2 := hrange b hb
  omega

/-! ## C4: completing a weekly task -/

theorem digitChar_facts (k : Nat) (hk : k < 10) :
    isdigit (Nat.digitChar k) = true ∧ digit_value (Nat.digitChar k) = (k : Int) ∧
    isspace (Nat.digitChar k) = false := by
  interval_cases k <;> decide

theorem skip_spaces_digit (k : Nat) (hk : k < 10) (rest : CString) :
    skip_spaces (Nat.digitChar k :: rest) = Nat.digitChar k :: rest := by
  simp [skip_spaces, (digitChar_facts k hk).2.2]

theorem get_number_two (lo hi : Int) (v : Nat) (rest : CString) (hv : v < 100)
    (hlo : lo ≤ (v : Int)) (hhi : (v : Int) ≤ hi) (h10 : ((v / 10 : Nat) : Int) * 10 ≤ hi) :
    get_number lo hi 2 (Nat.digitChar (v / 10 % 10) :: Nat.digitChar (v % 10) :: rest)
      = some ((v : Int), rest) := by
  have e1 : v / 10 % 10 = v / 10 := Nat.mod_eq_of_lt (by omega)
  rw [e1]
  obtain ⟨a1, a2, -⟩ := digitChar_facts (v / 10) (by omega)
  obtain ⟨b1, b2, -⟩ := digitChar_facts (v % 10) (Nat.mod_lt _ (by decide))
  have hval : ((v / 10 : Nat) : Int) * 10 + ((v % 10 : Nat) : Int) = (v : Int) := by omega
  simp only [get_number, skip_spaces_digit _ (show v / 10 < 10 by omega), a1, a2, b1, b2,
    get_number_loop, h10, and_self, if_true, hval]
  rw [if_neg (by omega)]

theorem get_number_four (v : Nat) (rest : CString) (hv : v ≤ 9999) :
    get_number 0 9999 4
      (Nat.digitChar (v / 1000 % 10) :: Nat.digitChar (v / 100 % 10) ::
        Nat.digitChar (v / 10 % 10) :: Nat.digitChar (v % 10) :: rest)
      = some ((v : Int), rest) := by
  have e1 : v / 1000 % 10 = v / 1000 := Nat.mod_eq_of_lt (by omega)
  rw [e1]
  obtain ⟨a1, a2, -⟩ := digitChar_facts (v / 1000) (by omega)
  obtain ⟨b1, b2, -⟩ := digitChar_facts (v / 100 % 10) (Nat.mod_lt _ (by decide))
  obtain ⟨c1, c2, -⟩ := digitChar_facts (v / 10 % 10) (Nat.mod_lt _ (by decide))
  obtain ⟨d1, d2, -⟩ := digitChar_facts (v % 10) (Nat.mod_lt _ (by decide))
  have h1 : ((v / 1000 : Nat) : Int) * 10 ≤ 9999 := by omega
  have h2 : (((v / 1000 : Nat) : Int) * 10 + ((v / 100 % 10 : Nat) : Int)) * 10 ≤ 9999 := by
    omega
  have h3 : ((((v / 1000 : Nat) : Int) * 10 + ((v / 100 % 10 : Nat) : Int)) * 10
      + ((v / 10 % 10 : Nat) : Int)) * 10 ≤ 9999 := by omega
  have hval : ((((v / 1000 : Nat) : Int) * 10 + ((v / 100 % 10 : Nat) : Int)) * 10
      + ((v / 10 % 10 : Nat) : Int)) * 10 + ((v % 10 : Nat) : Int) = (v : Int) := by omega
  simp only [get_number, skip_spaces_digit _ (show v / 1000 < 10 by omega), a1, a2, b1, b2,
    c1, c2, d1, d2, get_number_loop, h1, h2, h3, and_self, if_true, hval]
  rw [if_neg (by omega)]

/-- `parse_date` reads the strict `YYYY-MM-DD` form of a date back. -/
theorem parse_date_ymd_string (x : Date) (hy : 0 ≤ x.year ∧ x.year ≤ 9999)
    (hm : 1 ≤ x.month ∧ x.month ≤ 12) (hd : 1 ≤ x.day ∧ x.day ≤ 31) :
    parse_date (ymd_string x) =
      some { tm_year := x.year - 1900, tm_mon := x.month - 1, tm_mday := x.day } := by
  obtain ⟨y, hy'⟩ := Int.eq_ofNat_of_zero_le hy.1
  obtain ⟨m, hm'⟩ := Int.eq_ofNat_of_zero_le (le_trans (by decide) hm.1)
  obtain ⟨d, hd'⟩ := Int.eq_ofNat_of_zero_le (le_trans (by decide) hd.1)
  have gy := fun rest => get_number_four y rest (by omega)
  have gm := fun rest => get_number_two 1 12 m rest (by omega) (by omega) (by omega) (by omega)
  have gd := fun rest => get_number_two 1 31 d rest (by omega) (by omega) (by omega) (by omega)
  simp only [parse_date, strptime, ymd_string, four_digits, two_digits, hy', hm', hd',
    Int.toNat_ofNat, List.cons_append, List.nil_append, gy, gm, gd, Option.some_bind,
    match_char, if_true, Option.map_some']

theorem days_in_month_ge (y m : Int) : 28 ≤ days_in_month y m := by
  unfold days_in_month
  split_ifs <;> omega

theorem next_day_valid (x : Date) (hx : x.valid) : (next_day x).valid := by
  unfold Date.valid at *
  unfold next_day
  split_ifs with h1 h2
  · simp only; omega
  · have := days_in_month_ge x.year (x.month + 1)
    simp only; omega
  · have := days_in_month_ge (x.year + 1) 1
    simp only; omega

theorem iterate_next_day_valid (x : Date) (hx : x.valid) (k : Nat) :
    (next_day^[k] x).valid := by
  induction k with
  | zero => exact hx
  | succ k ih =>
    rw [Function.iterate_succ_apply']
    exact next_day_valid _ ih

theorem iterate_next_day_in_month (y m : Int) (n : Nat)
    (h : 1 + (n : Int) ≤ days_in_month y m) :
    next_day^[n] { year := y, month := m, day := 1 }
      = { year := y, month := m, day := 1 + (n : Int) } := by
  induction n with
  | zero => simp
  | succ n ih =>
    rw [Function.iterate_succ_apply', ih (by push_cast at h; omega)]
    unfold next_day
    simp only
    rw [if_pos (by push_cast at h; omega)]
    push_cast
    simp only [Date.mk.injEq, true_and]
    ring

/-- `mktime` on a valid date whose day field has been advanced by `k` days denotes the
`k`-th calendar successor of the date. -/
theorem normalize_date_add_days (x : Date) (hx : x.valid) (k : Nat) :
    normalize_date ⟨x.year - 1900, x.month - 1, x.day + (k : Int)⟩ = next_day^[k] x := by
  obtain ⟨hm1, hm2, hd1, hd2⟩ := hx
  unfold normalize_date
  simp only
  have e1 : x.year - 1900 + 1900 + (x.month - 1) / 12 = x.year := by omega
  have e2 : (x.month - 1) % 12 + 1 = x.month := by omega
  rw [e1, e2, if_pos (by omega)]
  have e3 : (x.day + (k : Int) - 1).toNat = k + (x.day - 1).toNat := by omega
  rw [e3, Function.iterate_add_apply, iterate_next_day_in_month _ _ _ (by omega)]
  congr 1
  cases x
  simp only [Date.mk.injEq, true_and]
  simp only at hd1
  omega

theorem toDigits_four (n : Nat) (h1 : 1000 ≤ n) (h2 : n ≤ 9999) :
    Nat.toDigits 10 n = [Nat.digitChar (n / 1000 % 10), Nat.digitChar (n / 100 % 10),
      Nat.digitChar (n / 10 % 10), Nat.digitChar (n % 10)] := by
  obtain ⟨k, rfl⟩ : ∃ k, n = k + 3 := ⟨n - 3, by omega⟩
  have e1 : (k + 3) / 10 / 10 = (k + 3) / 100 := by omega
  have e2 : (k + 3) / 100 / 10 = (k + 3) / 1000 := by omega
  have e3 : (k + 3) / 1000 % 10 = (k + 3) / 1000 := by omega
  simp only [Nat.toDigits, Nat.toDigitsCore]
  rw [if_neg (by omega), if_neg (by omega), if_neg (by omega), if_pos (by omega), e1, e2, e3]

/-- For a year of four significant digits `format_date` prints the strict form. -/
theorem date_string_eq_ymd_string (x : Date) (h1 : 1000 ≤ x.year) (h2 : x.year ≤ 9999) :
    date_string x = ymd_string x := by
  obtain ⟨y, hy⟩ := Int.eq_ofNat_of_zero_le (le_trans (by decide) h1)
  have hd := toDigits_four y (by omega) (by omega)
  simp only [date_string, format_date, ymd_string, print_int, four_digits, hy,
    sub_add_cancel, Int.toNat_ofNat, hd]
  rw [if_neg (by omega)]

/-- When local time at the instant `mktime` returns is the `tm_isdst = 0` time, or ahead of
it by less than a day, `mktime` leaves the normalised date in the struct. -/
theorem mktime_of_no_shift (zone : Zone) (tm : Tm) (h : mktime_day_shift zone tm = 0) :
    mktime zone tm =
      { tm_year := (normalize_date tm).year - 1900, tm_mon := (normalize_date tm).month - 1,
        tm_mday := (normalize_date tm).day } := by
  unfold mktime
  rw [h]
  rfl

/-- What `update_task_recurrence` does to a recurring task whose due date parses to the
fields of the date `x`. -/
theorem update_task_recurrence_eq (zone : Zone) (t : Task) (x : Date)
    (hparse : parse_date t.due_date =
      some { tm_year := x.year - 1900, tm_mon := x.month - 1, tm_mday := x.day })
    (hrec : t.recurrence ≠ RECURRENCE_NONE) :
    update_task_recurrence zone t =
      { t with due_date := format_date (mktime zone (adjusted_tm x t.recurrence)) } := by
  unfold update_task_recurrence adjusted_tm
  rw [if_neg hrec, hparse]

/-- Where `mktime` keeps the date and the year has four significant digits, the due date
written by `update_task_recurrence` is the strict form of the normalised date. -/
theorem update_task_recurrence_ymd (zone : Zone) (t : Task) (x r : Date)
    (hx : x.valid) (hy : 0 ≤ x.year ∧ x.year ≤ 9999) (hdue : t.due_date = ymd_string x)
    (hrec : t.recurrence ≠ RECURRENCE_NONE)
    (hnorm : normalize_date (adjusted_tm x t.recurrence) = r)
    (hyear : 1000 ≤ r.year ∧ r.year ≤ 9999)
    (hzone : mktime_day_shift zone (adjusted_tm x t.recurrence) = 0) :
    update_task_recurrence zone t = { t with due_date := ymd_string r } := by
  have hd31 : x.day ≤ 31 := by
    have := hx.2.2.2
    unfold days_in_month at this
    split_ifs at this <;> omega
  have hparse : parse_date t.due_date =
      some { tm_year := x.year - 1900, tm_mon := x.month - 1, tm_mday := x.day } := by
    rw [hdue]
    exact parse_date_ymd_string x hy ⟨hx.1, hx.2.1⟩ ⟨hx.2.2.1, hd31⟩
  rw [update_task_recurrence_eq zone t x hparse hrec, mktime_of_no_shift zone _ hzone, hnorm,
    ← date_string_eq_ymd_string r hyear.1 hyear.2]
  rfl

set_option maxRecDepth 8000 in
/-- C4 (as stated, refuted): in a zone that keeps UTC, toggling a weekly task due
0999-01-01 writes `999-01-08`, and toggling one due 9999-12-28 writes `10000-01-04`:
`strftime` prints the year as a plain number, so neither is the `YYYY-MM-DD` date seven
days later.  And in Europe/Dublin, whose winter time is behind its `tm_isdst = 0` time,
toggling the weekly task due 2024-01-01 writes 2024-01-07, six days later. -/
theorem toggle_weekly_not_seven_days :
    ((toggle_task_completion utc_zone (sample_task 1 "Report Q1" "0999-01-01" 2 2) []).1.due_date
        = "999-01-08".toList ∧
      ymd_string (next_day^[7] { year := 999, month := 1, day := 1 })
        = "0999-01-08".toList) ∧
    ((toggle_task_completion utc_zone (sample_task 1 "Report Q1" "9999-12-28" 2 2) []).1.due_date
        = "10000-01-04".toList ∧
      next_day^[7] { year := 9999, month := 12, day := 28 }
        = { year := 10000, month := 1, day := 4 }) ∧
    ((toggle_task_completion dublin_zone
        (sample_task 1 "Report Q1" "2024-01-01" 2 2) []).1.due_date = "2024-01-07".toList ∧
      ymd_string (next_day^[7] { year := 2024, month := 1, day := 1 })
        = "2024-01-08".toList) := by
  decide

/-- C4 (amended): toggling a task that is not completed, recurs weekly and is due on a
valid date `x` written `YYYY-MM-DD` marks it completed and sets its due date to the
`YYYY-MM-DD` form of the seventh calendar day after `x`, which is again a valid date,
provided the year of that day is 1000..9999 and local time at the instant `mktime` returns
for it is not behind the zone's `tm_isdst = 0` time; toggling the task once more clears the
flag and keeps the rolled date. -/
theorem toggle_weekly_rolls_seven_days (zone : Zone) (t : Task) (st st1 : List Action)
    (x : Date) (hx : x.valid) (hy : 0 ≤ x.year ∧ x.year ≤ 9999)
    (hdue : t.due_date = ymd_string x) (hrec : t.recurrence = RECURRENCE_WEEKLY)
    (hc : t.completed = 0)
    (hyear : 1000 ≤ (next_day^[7] x).year ∧ (next_day^[7] x).year ≤ 9999)
    (hzone : mktime_day_shift zone (adjusted_tm x RECURRENCE_WEEKLY) = 0) :
    (toggle_task_completion zone t st).1.completed = 1 ∧
    (toggle_task_completion zone t st).1.due_date = ymd_string (next_day^[7] x) ∧
    (next_day^[7] x).valid ∧
    (toggle_task_completion zone (toggle_task_completion zone t st).1 st1).1.completed = 0 ∧
    (toggle_task_completion zone (toggle_task_completion zone t st).1 st1).1.due_date
      = ymd_string (next_day^[7] x) := by
  have hnorm : normalize_date (adjusted_tm x RECURRENCE_WEEKLY) = next_day^[7] x := by
    have := normalize_date_add_days x hx 7
    simpa only [Nat.cast_ofNat] using this
  have hroll : update_task_recurrence zone { t with completed := 1 } =
      { t with completed := 1, due_date := ymd_string (next_day^[7] x) } := by
    have h := update_task_recurrence_ymd zone { t with completed := 1 } x (next_day^[7] x) hx
      hy hdue (by rw [hrec]; decide) (by rw [hrec]; exact hnorm) hyear
      (by rw [hrec]; exact hzone)
    exact h
  have h1 : (toggle_task_completion zone t st).1 =
      { t with completed := 1, due_date := ymd_string (next_day^[7] x) } := by
    rw [← hroll]
    simp only [toggle_task_completion, hc, if_true, hrec]
    rw [if_pos (by decide)]
  refine ⟨by rw [h1], by rw [h1], iterate_next_day_valid x hx 7, ?_, ?_⟩
  · rw [h1]
    simp [toggle_task_completion]
  · rw [h1]
    simp [toggle_task_completion]

set_option maxRecDepth 8000 in
/-- C4 (amended) at the example of the specification, in a zone that keeps UTC: a weekly
task due 2024-01-01 becomes completed and due 2024-01-08; a second toggle clears the flag
and keeps 2024-01-08. -/
theorem toggle_weekly_rolls_seven_days_witness :
    ymd_string (next_day^[7] { year := 2024, month := 1, day := 1 }) = "2024-01-08".toList ∧
    ((toggle_task_completion utc_zone
        (sample_task 1 "Report Q1" "2024-01-01" 2 2) []).1.completed = 1 ∧
    (toggle_task_completion utc_zone (sample_task 1 "Report Q1" "2024-01-01" 2 2) []).1.due_date
      = ymd_string (next_day^[7] { year := 2024, month := 1, day := 1 }) ∧
    (next_day^[7] { year := 2024, month := 1, day := 1 }).valid ∧
    (toggle_task_completion utc_zone
      (toggle_task_completion utc_zone
        (sample_task 1 "Report Q1" "2024-01-01" 2 2) []).1 []).1.completed = 0 ∧
    (toggle_task_completion utc_zone
      (toggle_task_completion utc_zone
        (sample_task 1 "Report Q1" "2024-01-01" 2 2) []).1 []).1.due_date
      = ymd_string (next_day^[7] { year := 2024, month := 1, day := 1 })) :=
  ⟨by decide,
   toggle_weekly_rolls_seven_days utc_zone (sample_task 1 "Report Q1" "2024-01-01" 2 2) [] []
    { year := 2024, month := 1, day := 1 } (by decide) (by decide) (by decide) (by decide)
    (by decide) (by decide) (by decide)⟩

set_option maxRecDepth 8000 in
/-- In Europe/Berlin during summer time local time is ahead of the `tm_isdst = 0` time, and
the weekly task due 2024-07-01 rolls to 2024-07-08. -/
theorem toggle_weekly_in_summer_time :
    mktime_day_shift berlin_zone
      (adjusted_tm { year := 2024, month := 7, day := 1 } RECURRENCE_WEEKLY) = 0 ∧
    (toggle_task_completion berlin_zone
      (sample_task 1 "Report Q1" "2024-07-01" 2 2) []).1.due_date = "2024-07-08".toList := by
  decide

/-! ## C8: overdue tasks -/

/-- C8 (as stated, refuted): at 12:00:00 UTC of 2024-01-01 (`now = 1704110400`), in a zone
that keeps UTC, a task due 2024-01-01 is reported overdue, although the calendar day of
`now` is the due day itself and not a later one. -/
theorem overdue_on_the_due_day :
    parse_date "2024-01-01".toList = some { tm_year := 124, tm_mon := 0, tm_mday := 1 } ∧
    local_day_number utc_zone 1704110400
      = due_day_number { tm_year := 124, tm_mon := 0, tm_mday := 1 } ∧
    ¬ (due_day_number { tm_year := 124, tm_mon := 0, tm_mday := 1 }
        < local_day_number utc_zone 1704110400) ∧
    is_task_overdue utc_zone 1704110400 (sample_task 1 "Report Q1" "2024-01-01" 0 2) = 1 := by
  decide

theorem overdue_arith (utc_offset now d : Int) :
    ((if now > d * 86400 - utc_offset then (1 : Int) else 0) = 1 ↔
      (d < (now + utc_offset) / 86400 ∨
        (d = (now + utc_offset) / 86400 ∧ 0 < (now + utc_offset) % 86400))) ∧
    ((if now > d * 86400 - utc_offset then (1 : Int) else 0) = 1 ∨
      (if now > d * 86400 - utc_offset then (1 : Int) else 0) = 0) := by
  constructor
  · split_ifs with h
    · simp only [true_iff]; omega
    · simp only [zero_ne_one, false_iff]; omega
  · split_ifs <;> simp

/-- In every zone a task with a due date that parses is overdue exactly when `now` is later
than the instant at which the zone's `tm_isdst = 0` time reads 00:00:00 of the due date. -/
theorem is_task_overdue_iff (zone : Zone) (now : Int) (task : Task) (tm : Tm)
    (hna : task.due_date ≠ NO_DUE_DATE) (hp : parse_date task.due_date = some tm) :
    is_task_overdue zone now task = 1 ↔ mktime_value zone tm < now := by
  have hne : ¬ strcmp task.due_date NO_DUE_DATE = 0 :=
    fun hh => hna ((strcmp_eq_zero_iff _ _).1 hh)
  unfold is_task_overdue
  rw [if_neg hne, hp]
  simp only
  split_ifs with h
  · simp only [true_iff]; omega
  · simp only [zero_ne_one, false_iff]; omega

/-- C8 (amended): `is_task_overdue` returns 0 when the due date is `N/A` or does not parse;
otherwise, when the local time in force at `now` is the zone's `tm_isdst = 0` time of the
due date (no daylight saving shift at `now`), it returns 1 exactly when `now` is later than
local midnight at the start of the due day, that is when the local day of `now` is after the
due day, or is the due day and at least one second of it has elapsed; in every other case
it returns 0. -/
theorem is_task_overdue_spec (zone : Zone) (now : Int) (task : Task) :
    (task.due_date = NO_DUE_DATE → is_task_overdue zone now task = 0) ∧
    (parse_date task.due_date = none → is_task_overdue zone now task = 0) ∧
    (∀ tm, task.due_date ≠ NO_DUE_DATE → parse_date task.due_date = some tm →
      zone.utc_offset now = zone.std_offset (due_day_number tm) →
      (is_task_overdue zone now task = 1 ↔
        (due_day_number tm < local_day_number zone now ∨
          (due_day_number tm = local_day_number zone now ∧
            0 < local_seconds_of_day zone now))) ∧
      (is_task_overdue zone now task = 1 ∨ is_task_overdue zone now task = 0)) := by
  refine ⟨?_, ?_, ?_⟩
  · intro h
    unfold is_task_overdue
    rw [if_pos ((strcmp_eq_zero_iff _ _).2 h)]
  · intro h
    unfold is_task_overdue
    split_ifs
    · rfl
    · rw [h]
  · intro tm hna hp hz
    have hne : ¬ strcmp task.due_date NO_DUE_DATE = 0 :=
      fun hh => hna ((strcmp_eq_zero_iff _ _).1 hh)
    unfold is_task_overdue
    rw [if_neg hne, hp]
    simp only [mktime_value, local_day_number, local_seconds_of_day, hz]
    exact overdue_arith _ _ _

/-- C8 (amended) on a task due 2020-01-01, in a zone that keeps UTC: overdue at noon of
2020-01-02, not overdue at the midnight that starts 2020-01-01, and never overdue without a
date. -/
theorem is_task_overdue_spec_witness :
    is_task_overdue utc_zone 1577966400 (sample_task 1 "Report Q1" "2020-01-01" 0 2) = 1 ∧
    is_task_overdue utc_zone 1577836800 (sample_task 1 "Report Q1" "2020-01-01" 0 2) ≠ 1 ∧
    is_task_overdue utc_zone 1577966400 (sample_task 1 "Report Q1" "N/A" 0 2) = 0 := by
  have h := is_task_overdue_spec utc_zone 1577966400
    (sample_task 1 "Report Q1" "2020-01-01" 0 2)
  have h0 := is_task_overdue_spec utc_zone 1577836800
    (sample_task 1 "Report Q1" "2020-01-01" 0 2)
  have hn := is_task_overdue_spec utc_zone 1577966400 (sample_task 1 "Report Q1" "N/A" 0 2)
  refine ⟨?_, ?_, hn.1 (by decide)⟩
  · exact ((h.2.2 { tm_year := 120, tm_mon := 0, tm_mday := 1 } (by decide) (by decide)
      (by decide)).1).2 (by decide)
  · intro hc
    have := ((h0.2.2 { tm_year := 120, tm_mon := 0, tm_mday := 1 } (by decide)
      (by decide) (by decide)).1).1 hc
    revert this
    decide

/-- While daylight saving time is in force the instant compared with `now` is not local
midnight.  In Europe/Berlin at 00:30 local time of 2024-07-01 (`now = 1719786600`) a task
due 2024-07-01 is not yet overdue, and it is at 01:00:01; in Europe/Dublin at 23:30 local
time of 2024-01-14 (`now = 1705275000`) a task due 2024-01-15 is overdue already. -/
theorem overdue_under_daylight_saving :
    (local_day_number berlin_zone 1719786600
        = due_day_number { tm_year := 124, tm_mon := 6, tm_mday := 1 } ∧
      local_seconds_of_day berlin_zone 1719786600 = 1800 ∧
      is_task_overdue berlin_zone 1719786600 (sample_task 1 "Report Q1" "2024-07-01" 0 2) = 0 ∧
      is_task_overdue berlin_zone 1719788401 (sample_task 1 "Report Q1" "2024-07-01" 0 2)
        = 1) ∧
    (local_day_number dublin_zone 1705275000 + 1
        = due_day_number { tm_year := 124, tm_mon := 0, tm_mday := 15 } ∧
      local_seconds_of_day dublin_zone 1705275000 = 84600 ∧
      is_task_overdue dublin_zone 1705275000 (sample_task 1 "Report Q1" "2024-01-15" 0 2)
        = 1) := by
  decide

/-! ## C9: what `parse_date` accepts -/

/-- C9 (the code at the failing inputs): `parse_date` accepts a valid date followed by an
extra character, a date with one-digit month and day, and the day 31 of February, none of
which is a calendar date in the strict form `YYYY-MM-DD`. -/
theorem parse_date_accepts_non_strict :
    parse_date "2024-01-01x".toList = some { tm_year := 124, tm_mon := 0, tm_mday := 1 } ∧
    parse_date "2024-1-5".toList = some { tm_year := 124, tm_mon := 0, tm_mday := 5 } ∧
    parse_date "2024-02-31".toList = some { tm_year := 124, tm_mon := 1, tm_mday := 31 } ∧
    (read_due_date ["2024-1-5".toList]).map (·.1) = some "2024-1-5".toList := by
  decide

/-! ## C2: saving and loading -/

/-- C2 (the code at the failing input): a task whose title is " x" is written as
`1<TAB> x<TAB>work<TAB>1<TAB>0<TAB>N/A<TAB>none`, and `load_tasks` reads the title back as
"x": the white-space directive before `%[^\t]` also consumes the leading space. -/
theorem save_load_loses_leading_space :
    save_tasks [spaced_title_task] = some "1\t x\twork\t1\t0\tN/A\tnone\n".toList ∧
    load_tasks (save_tasks [spaced_title_task])
      = [{ spaced_title_task with title := "x".toList }] ∧
    load_tasks (save_tasks [spaced_title_task]) ≠ [spaced_title_task] := by
  decide

/-! ## The time zone matters only to a recurring task -/

/-- Completing or reopening a task that does not recur is the same in every time zone. -/
theorem toggle_task_completion_zone_free (zone : Zone) (task : Task) (st : List Action)
    (h : task.recurrence = RECURRENCE_NONE) :
    toggle_task_completion zone task st = toggle_task_completion utc_zone task st := by
  unfold toggle_task_completion
  simp only [h, ne_eq, not_true_eq_false, and_false, if_false]

/-- A turn of the command loop is the same in every time zone, unless it is the turn `c`
on an array that holds a recurring task. -/
theorem main_step_zone_free (zone : Zone) (ch confirm : Char) (lines : List CString)
    (s : State) (h : ch = 'c' → ∀ t ∈ s.tasks, t.recurrence = RECURRENCE_NONE) :
    main_step zone ch confirm lines s = main_step utc_zone ch confirm lines s := by
  unfold main_step
  congr 1
  by_cases hc : ch = 'c'
  · subst hc
    have e : ∀ z : Zone, dispatch z 'c' confirm lines s =
        if s.selected_task ≥ 0 ∧ s.selected_task < s.task_count then
          (s.tasks.get? s.selected_task.toNat).map fun task =>
            let r := toggle_task_completion z task s.action_stack
            { s with tasks := s.tasks.set s.selected_task.toNat r.1, action_stack := r.2,
                     action_counter := bump_action_counter s.action_counter }
        else some s := fun z => rfl
    rw [e zone, e utc_zone]
    split_ifs with hsel
    · cases hg : s.tasks.get? s.selected_task.toNat with
      | none => rfl
      | some task =>
        have hm : task ∈ s.tasks := List.get?_mem hg
        simp only [Option.map_some', toggle_task_completion_zone_free zone task _ (h rfl task hm)]
    · rfl
  · unfold dispatch
    simp only [if_neg hc]

/-- The three turns `c`, `P`, `u` are the same in every time zone when no task recurs. -/
theorem toggle_sort_undo_zone_free (zone : Zone) (s : State)
    (h : ∀ t ∈ s.tasks, t.recurrence = RECURRENCE_NONE) :
    toggle_sort_undo zone s = toggle_sort_undo utc_zone s := by
  unfold toggle_sort_undo
  rw [main_step_zone_free zone 'c' 'n' [] s (fun _ => h)]
  congr 1

/-! ## C15, C18: what `load_tasks` accepts -/

/-- C15 (the code at the failing inputs): `load_tasks` keeps the id read from each line, so
a file whose second line is skipped yields the ids 1, 3, and a file whose only record has
id 7 yields the id 7; neither array has ids equal to position+1.  On the second array the
turn `c` records the index `id - 1 = 6`, and the turn `u` that follows stores the snapshot
outside the one-element array. -/
theorem load_tasks_keeps_file_ids (zone : Zone) :
    (load_tasks (some file_with_broken_line)).map (·.id) = [1, 3] ∧
    ¬ ids_dense (load_tasks (some file_with_broken_line)) ∧
    (load_tasks (some file_with_id_seven)).map (·.id) = [7] ∧
    ¬ ids_dense (load_tasks (some file_with_id_seven)) ∧
    (main_step zone 'c' 'n' [] (loaded_state file_with_id_seven)).map
        (fun s => s.action_stack.map (·.index)) = some [6] ∧
    (main_step zone 'c' 'n' [] (loaded_state file_with_id_seven)).bind
        (main_step zone 'u' 'n' []) = none := by
  have hu : main_step zone 'u' 'n' [] = main_step utc_zone 'u' 'n' [] :=
    funext fun s => main_step_zone_free zone 'u' 'n' [] s (fun hc => absurd hc (by decide))
  rw [main_step_zone_free zone 'c' 'n' [] (loaded_state file_with_id_seven)
    (fun _ => by decide), hu]
  decide

/-- C18 (the code at the failing input): a line whose recurrence token is `often` is
loaded, with the value -1 that `parse_recurrence` returns for a token outside the table, and
`save_tasks` then reads `recurrence_strings` outside its six entries; the six names
themselves are mapped to their indices. -/
theorem load_tasks_accepts_unknown_recurrence :
    parse_recurrence "often".toList = -1 ∧
    (load_tasks (some file_with_unknown_recurrence)).map (·.recurrence) = [-1] ∧
    save_tasks (load_tasks (some file_with_unknown_recurrence)) = none ∧
    recurrence_strings.map parse_recurrence = [0, 1, 2, 3, 4, 5] := by
  decide

/-! ## C17: undo after a sort -/

/-- C17 (the code at the failing input): with the tasks "Report Q1" (priority 2) and
"Buy milk" (priority 1), completing the first, sorting by priority and undoing writes the
snapshot of "Report Q1" into slot 0, where the sort has put "Buy milk": the result holds
"Report Q1" twice (once not completed, once completed) and "Buy milk" is lost. -/
theorem undo_after_sort_overwrites_other_task (zone : Zone) :
    ∃ s, toggle_sort_undo zone unsorted_state = some s ∧
      s.tasks.map erase_id =
        [erase_id (sample_task 1 "Report Q1" "N/A" 0 2),
         erase_id { sample_task 1 "Report Q1" "N/A" 0 2 with completed := 1 }] ∧
      erase_id (sample_task 2 "Buy milk" "N/A" 0 1) ∉ s.tasks.map erase_id ∧
      ¬ (s.tasks.map erase_id).Perm (unsorted_state.tasks.map erase_id) := by
  rw [toggle_sort_undo_zone_free zone unsorted_state (by decide)]
  have h : (toggle_sort_undo utc_zone unsorted_state).isSome = true := by decide
  obtain ⟨s, hs⟩ := Option.isSome_iff_exists.mp h
  have e : (toggle_sort_undo utc_zone unsorted_state).map (fun s => s.tasks.map erase_id) =
      some [erase_id (sample_task 1 "Report Q1" "N/A" 0 2),
            erase_id { sample_task 1 "Report Q1" "N/A" 0 2 with completed := 1 }] := by
    decide
  rw [hs] at e
  simp only [Option.map_some', Option.some.injEq] at e
  have hnot : erase_id (sample_task 2 "Buy milk" "N/A" 0 1) ∉ s.tasks.map erase_id := by
    rw [e]; decide
  refine ⟨s, hs, e, hnot, ?_⟩
  intro hp
  exact hnot (hp.symm.subset (by decide))

/-! ## C16: the foreground thread and `task_mutex` -/

/-- C16 (the code at the failing input): in the turn for the key `d` confirmed with `y`,
`main` has locked `task_mutex` when `delete_task_interactive` waits for the confirmation
key and then locks the mutex again, so the turn never completes; the turns for `a`, `e`
and `u` also wait for the terminal while holding the mutex.  Only the turns for `c`, `P`
and `S` keep the discipline. -/
theorem delete_turn_locks_twice :
    turn_events 'd' 'y' [] two_task_state =
      [LockEvent.input, LockEvent.lock, LockEvent.input, LockEvent.lock, LockEvent.unlock,
       LockEvent.unlock] ∧
    run_events false (turn_events 'd' 'y' [] two_task_state) = none ∧
    lock_while_held false (turn_events 'd' 'y' [] two_task_state) = true ∧
    input_while_held false (turn_events 'd' 'y' [] two_task_state) = true ∧
    input_while_held false (turn_events 'a' 'n' [] two_task_state) = true ∧
    input_while_held false (turn_events 'e' 'n' [] two_task_state) = true ∧
    input_while_held false (turn_events 'u' 'n' [] two_task_state) = true ∧
    (∀ ch ∈ ['c', 'P', 'S'],
      run_events false (turn_events ch 'n' [] two_task_state) = some false ∧
      lock_while_held false (turn_events ch 'n' [] two_task_state) = false ∧
      input_while_held false (turn_events ch 'n' [] two_task_state) = false) := by
  decide

/-! ## C12: the action stack is bounded -/

theorem push_action_length_le (st : List Action) (a : Action) (h : st.length ≤ MAX_ACTIONS) :
    (push_action st a).length ≤ MAX_ACTIONS := by
  unfold push_action
  split_ifs with h1
  · simp only [List.length_append, List.length_singleton]; omega
  · exact h

theorem push_action_full (st : List Action) (a : Action) (h : st.length = MAX_ACTIONS) :
    push_action st a = st := by
  unfold push_action
  rw [if_neg (by omega)]

theorem add_task_stack (lines : List CString) (tasks : List Task) (st : List Action)
    (r : List Task × List Action × List CString) (h : add_task lines tasks st = some r) :
    ∃ a, r.2.1 = push_action st a := by
  unfold add_task at h
  simp only [Option.bind_eq_some, Option.some.injEq] at h
  obtain ⟨_, -, _, -, _, -, _, -, _, -, rfl⟩ := h
  exact ⟨_, rfl⟩

theorem add_task_tasks_indep (lines : List CString) (tasks : List Task)
    (st st1 : List Action) :
    (add_task lines tasks st1).map (·.1) = (add_task lines tasks st).map (·.1) := by
  unfold add_task
  cases read_nonempty MAX_TITLE_LEN lines with
  | none => rfl
  | some title =>
    simp only [Option.some_bind]
    cases read_nonempty MAX_CATEGORY_LEN title.2 with
    | none => rfl
    | some category =>
      simp only [Option.some_bind]
      cases read_due_date category.2 with
      | none => rfl
      | some due =>
        simp only [Option.some_bind]
        cases read_recurrence due.2 with
        | none => rfl
        | some recurrence =>
          simp only [Option.some_bind]
          cases read_priority recurrence.2 with
          | none => rfl
          | some priority => rfl

theorem edit_task_stack (lines : List CString) (t : Task) (st : List Action)
    (r : Task × List Action × List CString) (h : edit_task lines t st = some r) :
    ∃ a, r.2.1 = push_action st a := by
  unfold edit_task at h
  simp only at h
  split at h
  · simp at h
  · split at h
    · simp at h
    · simp only [Option.bind_eq_some] at h
      obtain ⟨due, -, rec, -, h⟩ := h
      split at h
      · simp at h
      · simp only [Option.some.injEq] at h
        subst h
        exact ⟨_, rfl⟩

theorem edit_task_task_indep (lines : List CString) (t : Task) (st st1 : List Action) :
    (edit_task lines t st1).map (·.1) = (edit_task lines t st).map (·.1) := by
  unfold edit_task
  simp only
  cases lines with
  | nil => rfl
  | cons l1 lines1 =>
    cases lines1 with
    | nil => rfl
    | cons l2 lines2 =>
      simp only
      generalize edit_due_date _ lines2 = d
      cases d with
      | none => rfl
      | some due =>
        simp only [Option.some_bind]
        generalize edit_recurrence _ due.2 = rc
        cases rc with
        | none => rfl
        | some recurrence =>
          simp only [Option.some_bind]
          cases recurrence.2 with
          | nil => rfl
          | cons l5 lines5 => rfl

theorem delete_task_interactive_stack (ch : Char) (s : State) :
    (delete_task_interactive ch s).action_stack = s.action_stack ∨
    ∃ a, (delete_task_interactive ch s).action_stack = push_action s.action_stack a := by
  unfold delete_task_interactive
  split_ifs
  · exact Or.inl rfl
  · split
    · exact Or.inl rfl
    · exact Or.inr ⟨_, rfl⟩
  · exact Or.inl rfl

theorem delete_task_interactive_tasks_indep (ch : Char) (s : State) (st : List Action) :
    (delete_task_interactive ch { s with action_stack := st }).tasks =
      (delete_task_interactive ch s).tasks := by
  unfold delete_task_interactive
  simp only [State.task_count]
  by_cases hy : ch = 'y' ∨ ch = 'Y'
  · rw [if_pos hy, if_pos hy]
    by_cases hsel : s.selected_task < 0 ∨ s.selected_task ≥ (s.tasks.length : Int)
    · rw [if_pos hsel, if_pos hsel]
    · rw [if_neg hsel, if_neg hsel]
      generalize s.tasks.get? s.selected_task.toNat = o
      cases o <;> rfl
  · rw [if_neg hy, if_neg hy]

theorem undo_last_action_stack (s s1 : State) (msg : String)
    (h : undo_last_action s = some (msg, s1)) :
    s1.action_stack = s.action_stack ∨ s1.action_stack = s.action_stack.dropLast := by
  unfold undo_last_action at h
  split at h
  · simp only [Option.some.injEq, Prod.mk.injEq] at h
    exact Or.inl (by rw [← h.2])
  · simp only [Option.map_eq_some'] at h
    obtain ⟨ts, -, h⟩ := h
    simp only [Prod.mk.injEq] at h
    exact Or.inr (by rw [← h.2])

theorem dispatch_stack {zone : Zone} (ch confirm : Char) (lines : List CString) (s s1 : State)
    (hs : dispatch zone ch confirm lines s = some s1) :
    s1.action_stack = s.action_stack ∨
    (∃ a, s1.action_stack = push_action s.action_stack a) ∨
    s1.action_stack = s.action_stack.dropLast := by
  unfold dispatch at hs
  by_cases hj : ch = 'j'
  · rw [if_pos hj] at hs
    simp only [Option.some.injEq] at hs
    subst hs
    split_ifs <;> exact Or.inl rfl
  rw [if_neg hj] at hs
  by_cases hk : ch = 'k'
  · rw [if_pos hk] at hs
    simp only [Option.some.injEq] at hs
    subst hs
    split_ifs <;> exact Or.inl rfl
  rw [if_neg hk] at hs
  by_cases ha : ch = 'a'
  · rw [if_pos ha] at hs
    simp only [Option.map_eq_some'] at hs
    obtain ⟨r, hr, rfl⟩ := hs
    exact Or.inr (Or.inl (add_task_stack _ _ _ _ hr))
  rw [if_neg ha] at hs
  by_cases hd : ch = 'd'
  · rw [if_pos hd] at hs
    simp only [Option.some.injEq] at hs
    subst hs
    split_ifs
    · rcases delete_task_interactive_stack confirm s with h | h
      · exact Or.inl h
      · exact Or.inr (Or.inl h)
    · exact Or.inl rfl
  rw [if_neg hd] at hs
  by_cases hc : ch = 'c'
  · rw [if_pos hc] at hs
    split_ifs at hs
    · simp only [Option.map_eq_some'] at hs
      obtain ⟨t, -, rfl⟩ := hs
      exact Or.inr (Or.inl ⟨_, rfl⟩)
    · simp only [Option.some.injEq] at hs
      subst hs
      exact Or.inl rfl
  rw [if_neg hc] at hs
  by_cases he : ch = 'e'
  · rw [if_pos he] at hs
    split_ifs at hs
    · simp only [Option.bind_eq_some, Option.map_eq_some'] at hs
      obtain ⟨t, -, r, hr, rfl⟩ := hs
      exact Or.inr (Or.inl (edit_task_stack _ _ _ _ hr))
    · simp only [Option.some.injEq] at hs
      subst hs
      exact Or.inl rfl
  rw [if_neg he] at hs
  by_cases hsr : ch = 's'
  · rw [if_pos hsr] at hs
    split at hs
    · simp at hs
    · simp only [Option.some.injEq] at hs
      subst hs
      exact Or.inl rfl
  rw [if_neg hsr] at hs
  by_cases hP : ch = 'P'
  · rw [if_pos hP] at hs
    simp only [Option.some.injEq] at hs
    subst hs
    exact Or.inl rfl
  rw [if_neg hP] at hs
  by_cases hS : ch = 'S'
  · rw [if_pos hS] at hs
    simp only [Option.some.injEq] at hs
    subst hs
    exact Or.inl rfl
  rw [if_neg hS] at hs
  by_cases hu : ch = 'u'
  · rw [if_pos hu] at hs
    simp only [Option.map_eq_some'] at hs
    obtain ⟨r, hr, rfl⟩ := hs
    rcases undo_last_action_stack s r.2 r.1 hr with h | h
    · exact Or.inl h
    · exact Or.inr (Or.inr h)
  rw [if_neg hu] at hs
  simp only [Option.some.injEq] at hs
  subst hs
  exact Or.inl rfl

theorem main_step_count_le {zone : Zone} (ch confirm : Char) (lines : List CString) (s s1 : State)
    (hle : s.action_count ≤ MAX_ACTIONS) (hs : main_step zone ch confirm lines s = some s1) :
    s1.action_count ≤ MAX_ACTIONS := by
  unfold main_step at hs
  simp only [Option.map_eq_some'] at hs
  obtain ⟨s0, h0, rfl⟩ := hs
  unfold State.action_count at *
  show s0.action_stack.length ≤ MAX_ACTIONS
  rcases dispatch_stack ch confirm lines s s0 h0 with h | ⟨a, h⟩ | h
  · rw [h]; exact hle
  · rw [h]; exact push_action_length_le _ _ hle
  · rw [h, List.length_dropLast]; omega

/-- The task array a mutating turn produces does not depend on the action stack. -/
theorem dispatch_tasks_indep {zone : Zone} (ch confirm : Char) (lines : List CString) (s : State)
    (st : List Action) (hch : ch = 'a' ∨ ch = 'd' ∨ ch = 'e' ∨ ch = 'c') :
    (dispatch zone ch confirm lines { s with action_stack := st }).map (·.tasks) =
      (dispatch zone ch confirm lines s).map (·.tasks) := by
  rcases hch with rfl | rfl | rfl | rfl
  · have e : ∀ u : State, dispatch zone 'a' confirm lines u =
        (add_task lines u.tasks u.action_stack).map fun r =>
          { u with tasks := update_task_ids r.1, action_stack := r.2.1,
                   action_counter := bump_action_counter u.action_counter } := fun _ => rfl
    rw [e, e]
    simp only [Option.map_map]
    have h := add_task_tasks_indep lines s.tasks s.action_stack st
    have h2 := congrArg (Option.map update_task_ids) h
    simp only [Option.map_map] at h2
    exact h2
  · have e : ∀ u : State, dispatch zone 'd' confirm lines u =
        some (if u.task_count > 0 then delete_task_interactive confirm u else u) :=
      fun _ => rfl
    rw [e, e]
    simp only [Option.map_some', State.task_count, Option.some.injEq]
    split_ifs
    · exact delete_task_interactive_tasks_indep confirm s st
    · rfl
  · have e : ∀ u : State, dispatch zone 'e' confirm lines u =
        if u.selected_task ≥ 0 ∧ u.selected_task < u.task_count then
          (u.tasks.get? u.selected_task.toNat).bind fun task =>
            (edit_task lines task u.action_stack).map fun r =>
              { u with tasks := u.tasks.set u.selected_task.toNat r.1, action_stack := r.2.1,
                       action_counter := bump_action_counter u.action_counter }
        else some u := fun _ => rfl
    rw [e, e]
    simp only [State.task_count]
    split_ifs
    · cases s.tasks.get? s.selected_task.toNat with
      | none => rfl
      | some task =>
        simp only [Option.some_bind, Option.map_map]
        have h := edit_task_task_indep lines task s.action_stack st
        have h2 := congrArg (Option.map (fun t => s.tasks.set s.selected_task.toNat t)) h
        simp only [Option.map_map] at h2
        exact h2
    · rfl
  · have e : ∀ u : State, dispatch zone 'c' confirm lines u =
        if u.selected_task ≥ 0 ∧ u.selected_task < u.task_count then
          (u.tasks.get? u.selected_task.toNat).map fun task =>
            let r := toggle_task_completion zone task u.action_stack
            { u with tasks := u.tasks.set u.selected_task.toNat r.1, action_stack := r.2,
                     action_counter := bump_action_counter u.action_counter }
        else some u := fun _ => rfl
    rw [e, e]
    simp only [State.task_count]
    split_ifs
    · cases s.tasks.get? s.selected_task.toNat with
      | none => rfl
      | some task => rfl
    · rfl

theorem dispatch_stack_mutating {zone : Zone} (ch confirm : Char) (lines : List CString)
    (s s1 : State)
    (hch : ch = 'a' ∨ ch = 'd' ∨ ch = 'e' ∨ ch = 'c')
    (hs : dispatch zone ch confirm lines s = some s1) :
    s1.action_stack = s.action_stack ∨
    ∃ a, s1.action_stack = push_action s.action_stack a := by
  rcases hch with rfl | rfl | rfl | rfl
  · have e : dispatch zone 'a' confirm lines s =
        (add_task lines s.tasks s.action_stack).map fun r =>
          { s with tasks := update_task_ids r.1, action_stack := r.2.1,
                   action_counter := bump_action_counter s.action_counter } := rfl
    rw [e] at hs
    simp only [Option.map_eq_some'] at hs
    obtain ⟨r, hr, rfl⟩ := hs
    exact Or.inr (add_task_stack _ _ _ _ hr)
  · have e : dispatch zone 'd' confirm lines s =
        some (if s.task_count > 0 then delete_task_interactive confirm s else s) := rfl
    rw [e] at hs
    simp only [Option.some.injEq] at hs
    subst hs
    split_ifs
    · exact delete_task_interactive_stack confirm s
    · exact Or.inl rfl
  · have e : dispatch zone 'e' confirm lines s =
        if s.selected_task ≥ 0 ∧ s.selected_task < s.task_count then
          (s.tasks.get? s.selected_task.toNat).bind fun task =>
            (edit_task lines task s.action_stack).map fun r =>
              { s with tasks := s.tasks.set s.selected_task.toNat r.1, action_stack := r.2.1,
                       action_counter := bump_action_counter s.action_counter }
        else some s := rfl
    rw [e] at hs
    split_ifs at hs
    · simp only [Option.bind_eq_some, Option.map_eq_some'] at hs
      obtain ⟨t, -, r, hr, rfl⟩ := hs
      exact Or.inr (edit_task_stack _ _ _ _ hr)
    · simp only [Option.some.injEq] at hs
      subst hs
      exact Or.inl rfl
  · have e : dispatch zone 'c' confirm lines s =
        if s.selected_task ≥ 0 ∧ s.selected_task < s.task_count then
          (s.tasks.get? s.selected_task.toNat).map fun task =>
            let r := toggle_task_completion zone task s.action_stack
            { s with tasks := s.tasks.set s.selected_task.toNat r.1, action_stack := r.2,
                     action_counter := bump_action_counter s.action_counter }
        else some s := rfl
    rw [e] at hs
    split_ifs at hs
    · simp only [Option.map_eq_some'] at hs
      obtain ⟨t, -, rfl⟩ := hs
      exact Or.inr ⟨_, rfl⟩
    · simp only [Option.some.injEq] at hs
      subst hs
      exact Or.inl rfl

/-- C12: every turn of the command loop (add, delete, edit, toggle, undo included) keeps
`action_count` at most `MAX_ACTIONS` (it is a count, hence never negative); and with
`action_count = MAX_ACTIONS` a turn for add, delete, edit or toggle leaves the action stack
exactly as it was while producing the same task array as it does when the action is
recorded, that is, the mutation is applied and only its record is dropped. -/
theorem action_log_bounded (zone : Zone) :
    (∀ (ch confirm : Char) (lines : List CString) (s s1 : State),
      s.action_count ≤ MAX_ACTIONS → main_step zone ch confirm lines s = some s1 →
      s1.action_count ≤ MAX_ACTIONS) ∧
    (∀ (ch confirm : Char) (lines : List CString) (s s1 : State),
      (ch = 'a' ∨ ch = 'd' ∨ ch = 'e' ∨ ch = 'c') → s.action_count = MAX_ACTIONS →
      main_step zone ch confirm lines s = some s1 →
      s1.action_stack = s.action_stack ∧
      (main_step zone ch confirm lines { s with action_stack := [] }).map (·.tasks)
        = some s1.tasks) := by
  refine ⟨main_step_count_le, ?_⟩
  intro ch confirm lines s s1 hch hfull hs
  unfold main_step at hs
  simp only [Option.map_eq_some'] at hs
  obtain ⟨s0, h0, rfl⟩ := hs
  constructor
  · show s0.action_stack = s.action_stack
    rcases dispatch_stack_mutating ch confirm lines s s0 hch h0 with h | ⟨a, h⟩
    · exact h
    · rw [h]; exact push_action_full _ _ hfull
  · have hi := @dispatch_tasks_indep zone ch confirm lines s [] hch
    unfold main_step
    rw [Option.map_map]
    have e : (fun u : State => u.tasks) ∘ clamp_selection = fun u : State => u.tasks := rfl
    rw [e, hi, h0]
    rfl

/-- C12 at a state whose action stack holds `MAX_ACTIONS` entries: the turn `c` completes
the selected task and leaves the stack as it was. -/
theorem action_log_bounded_witness :
    ∃ s1, main_step utc_zone 'c' 'n' [] full_log_state = some s1 ∧
      s1.action_count ≤ MAX_ACTIONS ∧ s1.action_stack = full_log_state.action_stack ∧
      s1.tasks.map (·.completed) = [0, 1] := by
  have h : (main_step utc_zone 'c' 'n' [] full_log_state).isSome = true := by decide
  obtain ⟨s1, hs⟩ := Option.isSome_iff_exists.mp h
  have hc : (main_step utc_zone 'c' 'n' [] full_log_state).map
      (fun s => s.tasks.map (·.completed)) = some [0, 1] := by decide
  rw [hs] at hc
  simp only [Option.map_some', Option.some.injEq] at hc
  exact ⟨s1, hs, (action_log_bounded utc_zone).1 _ _ _ _ _ (by decide) hs,
    ((action_log_bounded utc_zone).2 'c' 'n' [] full_log_state s1 (by decide) (by decide)
      hs).1, hc⟩

/-! ## C13: undo unwinds in reverse order -/

theorem main_step_undo {zone : Zone} (s s2 : State) (msg : String)
    (h : undo_last_action s = some (msg, s2)) :
    ∃ s3, main_step zone 'u' 'n' [] s = some s3 ∧ s3.tasks = update_task_ids s2.tasks ∧
      s3.action_stack = s2.action_stack := by
  have e : dispatch zone 'u' 'n' [] s =
      (undo_last_action s).map fun r => { r.2 with tasks := update_task_ids r.2.tasks } := rfl
  unfold main_step
  rw [e, h]
  exact ⟨_, rfl, rfl, rfl⟩

theorem undo_add_top (s : State) (st : List Action) (v : Task) (i : Int)
    (hst : s.action_stack = st ++ [⟨ActionType.ACTION_ADD, v, i⟩]) :
    undo_last_action s = some ("Last action undone. Press any key...",
      { s with tasks := remove_task s.tasks i, action_stack := st }) := by
  simp [undo_last_action, hst]

theorem undo_edit_top (s : State) (st : List Action) (v : Task) (i : Nat)
    (hst : s.action_stack = st ++ [⟨ActionType.ACTION_EDIT, v, (i : Int)⟩])
    (hi : i < s.tasks.length) :
    undo_last_action s = some ("Last action undone. Press any key...",
      { s with tasks := s.tasks.set i v, action_stack := st }) := by
  have hle : (0 : Int) ≤ (i : Int) ∧ (i : Int) < (s.tasks.length : Int) := by omega
  simp [undo_last_action, hst, hle]

theorem undo_complete_top (s : State) (st : List Action) (v : Task) (i : Nat)
    (hst : s.action_stack = st ++ [⟨ActionType.ACTION_COMPLETE, v, (i : Int)⟩])
    (hi : i < s.tasks.length) :
    undo_last_action s = some ("Last action undone. Press any key...",
      { s with tasks := s.tasks.set i v, action_stack := st }) := by
  have hle : (0 : Int) ≤ (i : Int) ∧ (i : Int) < (s.tasks.length : Int) := by omega
  simp [undo_last_action, hst, hle]

theorem map_eraseIdx_task (f : Task → Task) (i : Nat) (l : List Task) :
    (l.eraseIdx i).map f = (l.map f).eraseIdx i := by
  induction l generalizing i with
  | nil => simp
  | cons a as ih =>
    cases i with
    | zero => simp
    | succ j => simp [ih]

theorem eraseIdx_append_singleton (l : List Task) (v : Task) :
    (l ++ [v]).eraseIdx l.length = l := by
  induction l with
  | nil => simp
  | cons a as ih => simp [ih]

/-- Removing the slot appended by an add and renumbering gives the array before the add. -/
theorem remove_appended (tasks : List Task) (v : Task) (hids : ids_dense tasks) :
    update_task_ids (remove_task (update_task_ids (tasks ++ [v])) (tasks.length : Int))
      = tasks := by
  have hlen : (update_task_ids (tasks ++ [v])).length = tasks.length + 1 := by
    rw [length_update_task_ids]; simp
  have hnot : ¬ ((tasks.length : Int) < 0 ∨
      (tasks.length : Int) ≥ ((update_task_ids (tasks ++ [v])).length : Int)) := by
    rw [hlen]; push_cast; omega
  unfold remove_task
  rw [if_neg hnot, Int.toNat_ofNat]
  have h1 : ((update_task_ids (tasks ++ [v])).eraseIdx tasks.length).map erase_id
      = tasks.map erase_id := by
    rw [map_eraseIdx_task, map_erase_id_update, ← map_eraseIdx_task,
      eraseIdx_append_singleton]
  rw [update_task_ids_congr _ _ h1]
  exact (ids_dense_iff _).1 hids

theorem set_set_get (l : List Task) (i : Nat) (h : i < l.length) (t : Task) :
    (l.set i t).set i (l.get ⟨i, h⟩) = l := by
  rw [List.set_set]
  apply List.ext_getElem (by simp)
  intro j h1 h2
  simp only [List.get_eq_getElem, List.getElem_set]
  split_ifs with hij
  · subst hij; rfl
  · rfl

theorem add_effect {zone : Zone} (lines : List CString) (s s1 : State)
    (h : main_step zone 'a' 'n' lines s = some s1) :
    ∃ created, s1.tasks = update_task_ids (s.tasks ++ [created]) ∧
      s1.action_stack = push_action s.action_stack
        ⟨ActionType.ACTION_ADD, created, (s.tasks.length : Int)⟩ := by
  have hd : dispatch zone 'a' 'n' lines s = (add_task lines s.tasks s.action_stack).map fun r =>
      { s with tasks := update_task_ids r.1, action_stack := r.2.1,
               action_counter := bump_action_counter s.action_counter } := rfl
  unfold main_step at h
  rw [hd] at h
  simp only [Option.map_eq_some'] at h
  obtain ⟨s0, ⟨r, hr, rfl⟩, rfl⟩ := h
  unfold add_task at hr
  simp only [Option.bind_eq_some, Option.some.injEq] at hr
  obtain ⟨_, -, _, -, _, -, _, -, _, -, rfl⟩ := hr
  exact ⟨_, rfl, rfl⟩

theorem toggle_effect {zone : Zone} (s s1 : State) (i : Nat) (hi : i < s.tasks.length)
    (h : main_step zone 'c' 'n' [] { s with selected_task := (i : Int) } = some s1) :
    ∃ t1, s1.tasks = s.tasks.set i t1 ∧
      s1.action_stack = push_action s.action_stack
        ⟨ActionType.ACTION_COMPLETE, s.tasks.get ⟨i, hi⟩, (s.tasks.get ⟨i, hi⟩).id - 1⟩ := by
  have hd : dispatch zone 'c' 'n' [] { s with selected_task := (i : Int) } =
      if (i : Int) ≥ 0 ∧ (i : Int) < (s.tasks.length : Int) then
        (s.tasks.get? (i : Int).toNat).map fun task =>
          let r := toggle_task_completion zone task s.action_stack
          { s with selected_task := (i : Int), tasks := s.tasks.set (i : Int).toNat r.1,
                   action_stack := r.2,
                   action_counter := bump_action_counter s.action_counter }
      else some { s with selected_task := (i : Int) } := rfl
  unfold main_step at h
  rw [hd, if_pos (by omega), Int.toNat_ofNat, List.get?_eq_get hi] at h
  simp only [Option.map_some', Option.some.injEq] at h
  subst h
  exact ⟨_, rfl, rfl⟩

theorem edit_effect {zone : Zone} (lines : List CString) (s s1 : State) (i : Nat)
    (hi : i < s.tasks.length)
    (h : main_step zone 'e' 'n' lines { s with selected_task := (i : Int) } = some s1) :
    ∃ t1, s1.tasks = s.tasks.set i t1 ∧
      s1.action_stack = push_action s.action_stack
        ⟨ActionType.ACTION_EDIT, s.tasks.get ⟨i, hi⟩, (s.tasks.get ⟨i, hi⟩).id - 1⟩ := by
  have hd : dispatch zone 'e' 'n' lines { s with selected_task := (i : Int) } =
      if (i : Int) ≥ 0 ∧ (i : Int) < (s.tasks.length : Int) then
        (s.tasks.get? (i : Int).toNat).bind fun task =>
          (edit_task lines task s.action_stack).map fun r =>
            { s with selected_task := (i : Int), tasks := s.tasks.set (i : Int).toNat r.1,
                     action_stack := r.2.1,
                     action_counter := bump_action_counter s.action_counter }
      else some { s with selected_task := (i : Int) } := rfl
  unfold main_step at h
  rw [hd, if_pos (by omega), Int.toNat_ofNat, List.get?_eq_get hi] at h
  simp only [Option.some_bind, Option.map_eq_some'] at h
  obtain ⟨s0, ⟨r, hr, rfl⟩, rfl⟩ := h
  refine ⟨r.1, rfl, ?_⟩
  show r.2.1 = _
  unfold edit_task at hr
  simp only at hr
  split at hr
  · simp at hr
  · split at hr
    · simp at hr
    · simp only [Option.bind_eq_some] at hr
      obtain ⟨due, -, rec, -, hr⟩ := hr
      split at hr
      · simp at hr
      · simp only [Option.some.injEq] at hr
        subst hr
        rfl

theorem delete_turn_effect {zone : Zone} (s s1 : State) (i : Nat) (hi : i < s.tasks.length)
    (h : main_step zone 'd' 'y' [] { s with selected_task := (i : Int) } = some s1) :
    s1.tasks = update_task_ids (s.tasks.eraseIdx i) ∧
    s1.action_stack = push_action s.action_stack
      ⟨ActionType.ACTION_DELETE, s.tasks.get ⟨i, hi⟩, (i : Int)⟩ := by
  have hd : dispatch zone 'd' 'y' [] { s with selected_task := (i : Int) } =
      some (if (s.tasks.length : Int) > 0
        then delete_task_interactive 'y' { s with selected_task := (i : Int) }
        else { s with selected_task := (i : Int) }) := rfl
  unfold main_step at h
  rw [hd, if_pos (by omega)] at h
  simp only [Option.map_some', Option.some.injEq] at h
  subst h
  exact delete_effect { s with selected_task := (i : Int) } i rfl hi

/-- A recorded mutation is reverted by the next `u` turn, whatever the other globals are. -/
theorem undo_reverts {zone : Zone} (m : Mutation) (s s1 : State) (hids : ids_dense s.tasks)
    (hlog : s.action_stack.length < MAX_ACTIONS) (h : apply_mutation zone m s = some s1) :
    s1.action_stack.length = s.action_stack.length + 1 ∧
    ∀ t : State, t.tasks = s1.tasks → t.action_stack = s1.action_stack →
      ∃ t1, main_step zone 'u' 'n' [] t = some t1 ∧ t1.tasks = s.tasks ∧
        t1.action_stack = s.action_stack := by
  have hupd : update_task_ids s.tasks = s.tasks := (ids_dense_iff _).1 hids
  cases m with
  | add lines =>
    obtain ⟨created, ht, hst⟩ := add_effect lines s s1 h
    rw [push_action, if_pos hlog] at hst
    refine ⟨by rw [hst]; simp, ?_⟩
    intro t htt hts
    obtain ⟨t1, h1, h2, h3⟩ := main_step_undo t _ _
      (undo_add_top t s.action_stack created _ (hts.trans hst))
    refine ⟨t1, h1, ?_, h3⟩
    rw [h2]
    simp only [htt, ht]
    exact remove_appended s.tasks created hids
  | delete i =>
    unfold apply_mutation at h
    simp only at h
    split_ifs at h with hi
    obtain ⟨ht, hst⟩ := delete_turn_effect s s1 i hi h
    rw [push_action, if_pos hlog] at hst
    refine ⟨by rw [hst]; simp, ?_⟩
    intro t htt hts
    have hle : i ≤ t.tasks.length := by
      rw [htt, ht, length_update_task_ids, List.length_eraseIdx]
      simp only [hi, if_true]
      omega
    obtain ⟨t1, h1, h2, h3⟩ := main_step_undo t _ _
      (undo_delete_top t s.action_stack _ i (hts.trans hst) hle)
    refine ⟨t1, h1, ?_, h3⟩
    rw [h2]
    simp only [htt, ht]
    exact reinsert_removed s.tasks i hi hids
  | edit i lines =>
    unfold apply_mutation at h
    simp only at h
    split_ifs at h with hi
    obtain ⟨e1, ht, hst⟩ := edit_effect lines s s1 i hi h
    have hid : (s.tasks.get ⟨i, hi⟩).id - 1 = (i : Int) := by
      rw [hids i hi]; ring
    rw [push_action, if_pos hlog, hid] at hst
    refine ⟨by rw [hst]; simp, ?_⟩
    intro t htt hts
    have hlt : i < t.tasks.length := by rw [htt, ht]; simpa using hi
    obtain ⟨t1, h1, h2, h3⟩ := main_step_undo t _ _
      (undo_edit_top t s.action_stack _ i (hts.trans hst) hlt)
    refine ⟨t1, h1, ?_, h3⟩
    rw [h2]
    simp only [htt, ht, set_set_get, hupd]
  | toggle i =>
    unfold apply_mutation at h
    simp only at h
    split_ifs at h with hi
    obtain ⟨e1, ht, hst⟩ := toggle_effect s s1 i hi h
    have hid : (s.tasks.get ⟨i, hi⟩).id - 1 = (i : Int) := by
      rw [hids i hi]; ring
    rw [push_action, if_pos hlog, hid] at hst
    refine ⟨by rw [hst]; simp, ?_⟩
    intro t htt hts
    have hlt : i < t.tasks.length := by rw [htt, ht]; simpa using hi
    obtain ⟨t1, h1, h2, h3⟩ := main_step_undo t _ _
      (undo_complete_top t s.action_stack _ i (hts.trans hst) hlt)
    refine ⟨t1, h1, ?_, h3⟩
    rw [h2]
    simp only [htt, ht, set_set_get, hupd]

theorem apply_mutation_ids {zone : Zone} (m : Mutation) (s s1 : State) (hids : ids_dense s.tasks)
    (h : apply_mutation zone m s = some s1) : ids_dense s1.tasks := by
  cases m with
  | add lines => exact main_step_ids _ _ _ _ _ hids h
  | delete i =>
    unfold apply_mutation at h
    simp only at h
    split_ifs at h
    exact main_step_ids _ _ _ { s with selected_task := (i : Int) } _ hids h
  | edit i lines =>
    unfold apply_mutation at h
    simp only at h
    split_ifs at h
    exact main_step_ids _ _ _ { s with selected_task := (i : Int) } _ hids h
  | toggle i =>
    unfold apply_mutation at h
    simp only at h
    split_ifs at h
    exact main_step_ids _ _ _ { s with selected_task := (i : Int) } _ hids h

theorem run_mutations_spec {zone : Zone} (ms : List Mutation) (s t : State)
    (hids : ids_dense s.tasks)
    (hlog : s.action_stack.length + ms.length ≤ MAX_ACTIONS)
    (h : run_mutations zone ms s = some t) :
    ids_dense t.tasks ∧ t.action_stack.length = s.action_stack.length + ms.length := by
  induction ms generalizing s with
  | nil =>
    simp only [run_mutations, Option.some.injEq] at h
    subst h
    exact ⟨hids, rfl⟩
  | cons m more ih =>
    simp only [run_mutations, Option.bind_eq_some] at h
    obtain ⟨s1, h1, h2⟩ := h
    simp only [List.length_cons] at hlog
    obtain ⟨hlen, -⟩ := undo_reverts m s s1 hids (by omega) h1
    obtain ⟨hd, hl⟩ := ih s1 (apply_mutation_ids m s s1 hids h1) (by omega) h2
    refine ⟨hd, ?_⟩
    rw [hl, hlen, List.length_cons]
    omega

theorem undo_times_unwinds {zone : Zone} (ms : List Mutation) (s t : State)
    (hids : ids_dense s.tasks)
    (hlog : s.action_stack.length + ms.length ≤ MAX_ACTIONS)
    (h : run_mutations zone ms s = some t) :
    ∀ u : State, u.tasks = t.tasks → u.action_stack = t.action_stack →
      ∃ u1, undo_times zone ms.length u = some u1 ∧ u1.tasks = s.tasks ∧
        u1.action_stack = s.action_stack := by
  induction ms generalizing s with
  | nil =>
    simp only [run_mutations, Option.some.injEq] at h
    subst h
    intro u hu1 hu2
    exact ⟨u, rfl, hu1, hu2⟩
  | cons m more ih =>
    simp only [run_mutations, Option.bind_eq_some] at h
    obtain ⟨s1, h1, h2⟩ := h
    simp only [List.length_cons] at hlog
    obtain ⟨hlen, hrev⟩ := undo_reverts m s s1 hids (by omega) h1
    intro u hu1 hu2
    obtain ⟨u1, hu, ht1, hs1⟩ :=
      ih s1 (apply_mutation_ids m s s1 hids h1) (by omega) h2 u hu1 hu2
    obtain ⟨u2, hu2', ht2, hs2⟩ := hrev u1 ht1 hs1
    refine ⟨u2, ?_, ht2, hs2⟩
    simp only [List.length_cons, undo_times, hu, Option.some_bind, hu2']

/-- C13: from a task array whose ids equal position+1 and an empty action stack, run any
`before.length + after.length ≤ MAX_ACTIONS` mutating turns (add, delete, edit, toggle at
valid indices) and then press `u` as many times as there are turns in `after`: the task
array and the action stack are those reached after the turns of `before`.  So each `u`
reverts one turn, the last one first; with `before` empty the initial array is back and the
stack is empty. -/
theorem undo_unwinds_lifo (zone : Zone) (s mid final : State) (before after : List Mutation)
    (hids : ids_dense s.tasks) (hlog : s.action_stack = [])
    (hk : before.length + after.length ≤ MAX_ACTIONS)
    (h1 : run_mutations zone before s = some mid)
    (h2 : run_mutations zone after mid = some final) :
    ∃ u, undo_times zone after.length final = some u ∧ u.tasks = mid.tasks ∧
      u.action_stack = mid.action_stack ∧
      (before = [] → u.tasks = s.tasks ∧ u.action_stack = []) := by
  have hlen0 : s.action_stack.length = 0 := by rw [hlog]; rfl
  obtain ⟨hmid, hmidlen⟩ := run_mutations_spec before s mid hids (by omega) h1
  obtain ⟨u, hu, ht, hs⟩ :=
    undo_times_unwinds after mid final hmid (by omega) h2 final rfl rfl
  refine ⟨u, hu, ht, hs, ?_⟩
  intro hb
  subst hb
  simp only [run_mutations, Option.some.injEq] at h1
  subst h1
  exact ⟨ht, hs.trans hlog⟩

/-- C13 on four turns (add, toggle, delete, edit) from two tasks: four `u` turns give back
the two tasks and an empty action stack. -/
theorem undo_unwinds_lifo_witness :
    ∃ final u, run_mutations utc_zone sample_mutations two_task_state = some final ∧
      final.tasks.map (·.title) = ["Report Q2".toList, "Call Ana".toList] ∧
      undo_times utc_zone 4 final = some u ∧ u.tasks = two_task_state.tasks ∧
      u.action_stack = [] := by
  have h : (run_mutations utc_zone sample_mutations two_task_state).isSome = true := by decide
  obtain ⟨final, hf⟩ := Option.isSome_iff_exists.mp h
  have ht : (run_mutations utc_zone sample_mutations two_task_state).map
      (fun s => s.tasks.map (·.title)) = some ["Report Q2".toList, "Call Ana".toList] := by
    decide
  rw [hf] at ht
  simp only [Option.map_some', Option.some.injEq] at ht
  obtain ⟨u, hu, -, -, hall⟩ := undo_unwinds_lifo utc_zone two_task_state two_task_state final
    [] sample_mutations (by decide) rfl (by decide) rfl hf
  exact ⟨final, u, hf, ht, hu, (hall rfl).1, (hall rfl).2⟩

/-! ## C11: which ties keep their order -/

/-- C11 (as stated, refuted): two tasks without a due date come out of the sort by due
date in the opposite order (both comparators return 1 for such a pair, so the merge takes
the later one first); and among six tasks already in priority order, the two of equal
priority `x`, `y` come out as `y`, `x`, because the comparator's difference for the first
task and `y` wraps to a positive `int`. -/
theorem sort_tasks_reorders_ties :
    (sort_tasks undated_tasks 'd' true).map (·.title) = ["b".toList, "a".toList] ∧
    (sort_tasks undated_tasks 'd' false).map (·.title) = ["b".toList, "a".toList] ∧
    (sort_tasks far_priority_tasks 'p' true).map (·.title) =
      ["y".toList, "u".toList, "v".toList, "z".toList, "w".toList, "x".toList] := by
  decide

/-- The merge loop keeps, among the tasks selected by `p`, those of the first run before
those of the second, provided a task of the second run that is taken first and satisfies
`p` is strictly before everything left of the first run. -/
theorem merge_runs_filter (cmp : Task → Task → Int) (R : Task → Task → Prop)
    (P : Task → Prop) (p : Task → Bool)
    (hsep : ∀ a b, P a → P b → ¬ cmp a b ≤ 0 → p b = true →
      p a = false ∧ ∀ x, P x → R a x → p x = false) :
    ∀ (n : Nat) (l1 l2 : List Task), l1.length + l2.length ≤ n →
      (∀ x ∈ l1, P x) → (∀ x ∈ l2, P x) → l1.Pairwise R →
      (merge_runs cmp n l1 l2).filter p = l1.filter p ++ l2.filter p := by
  intro n
  induction n with
  | zero =>
    intro l1 l2 hn _ _ _
    cases l1 with
    | nil => simp [merge_runs]
    | cons a as => simp at hn
  | succ n ih =>
    intro l1 l2 hn p1 p2 s1
    cases l1 with
    | nil => simp [merge_runs]
    | cons a as =>
      cases l2 with
      | nil => simp [merge_runs]
      | cons b bs =>
        simp only [merge_runs]
        have pa : P a := p1 a (by simp)
        have pb : P b := p2 b (by simp)
        simp only [List.length_cons] at hn
        split_ifs with hc
        · rw [List.filter_cons, ih as (b :: bs) (by simp only [List.length_cons]; omega)
            (fun x hx => p1 x (by simp [hx])) p2 (List.pairwise_cons.mp s1).2]
          by_cases hpa : p a = true
          · simp [List.filter_cons, hpa]
          · simp [List.filter_cons, hpa]
        · rw [List.filter_cons, ih (a :: as) bs (by simp only [List.length_cons]; omega) p1
            (fun x hx => p2 x (by simp [hx])) s1]
          by_cases hpb : p b = true
          · obtain ⟨hpa, hrest⟩ := hsep a b pa pb hc hpb
            have hnil : (a :: as).filter p = [] := by
              rw [List.filter_eq_nil_iff]
              intro x hx
              rcases List.mem_cons.mp hx with rfl | hx'
              · simp [hpa]
              · have := hrest x (p1 x (by simp [hx'])) ((List.pairwise_cons.mp s1).1 x hx')
                simp [this]
            rw [if_pos hpb, hnil]
            simp [List.filter_cons, hpb]
          · rw [if_neg hpb]
            simp [List.filter_cons, hpb]

theorem msort_with_tmp_filter (cmp : Task → Task → Int) (R : Task → Task → Prop)
    (P : Task → Prop) (p : Task → Bool) (htr : ∀ a b c, R a b → R b c → R a c)
    (h1 : ∀ a b, P a → P b → cmp a b ≤ 0 → R a b)
    (h2 : ∀ a b, P a → P b → ¬ cmp a b ≤ 0 → R b a)
    (hsep : ∀ a b, P a → P b → ¬ cmp a b ≤ 0 → p b = true →
      p a = false ∧ ∀ x, P x → R a x → p x = false) :
    ∀ (fuel : Nat) (l : List Task), l.length ≤ fuel → (∀ x ∈ l, P x) →
      (msort_with_tmp cmp fuel l).filter p = l.filter p := by
  intro fuel
  induction fuel with
  | zero => intro l _ _; simp [msort_with_tmp]
  | succ fuel ih =>
    intro l hl hp
    unfold msort_with_tmp
    split_ifs with hlen
    · rfl
    · simp only
      have ht : (l.take (l.length / 2)).length ≤ fuel := by
        rw [List.length_take]; omega
      have hd : (l.drop (l.length / 2)).length ≤ fuel := by
        rw [List.length_drop]; omega
      have pt : ∀ x ∈ l.take (l.length / 2), P x := fun x hx => hp x (List.mem_of_mem_take hx)
      have pd : ∀ x ∈ l.drop (l.length / 2), P x := fun x hx => hp x (List.mem_of_mem_drop hx)
      rw [merge_runs_filter cmp R P p hsep _ _ _ (le_refl _)
        (fun x hx => pt x ((msort_with_tmp_perm cmp fuel _).subset hx))
        (fun x hx => pd x ((msort_with_tmp_perm cmp fuel _).subset hx))
        (msort_with_tmp_sorted cmp R P htr h1 h2 fuel _ ht pt),
        ih _ ht pt, ih _ hd pd, ← List.filter_append, List.take_append_drop]

theorem qsort_filter (cmp : Task → Task → Int) (R : Task → Task → Prop)
    (P : Task → Prop) (p : Task → Bool) (htr : ∀ a b c, R a b → R b c → R a c)
    (h1 : ∀ a b, P a → P b → cmp a b ≤ 0 → R a b)
    (h2 : ∀ a b, P a → P b → ¬ cmp a b ≤ 0 → R b a)
    (hsep : ∀ a b, P a → P b → ¬ cmp a b ≤ 0 → p b = true →
      p a = false ∧ ∀ x, P x → R a x → p x = false)
    (l : List Task) (hp : ∀ x ∈ l, P x) : (qsort cmp l).filter p = l.filter p :=
  msort_with_tmp_filter cmp R P p htr h1 h2 hsep l.length l (le_refl _) hp

theorem sort_tasks_perm (tasks : List Task) (sort_type : Char) (ascending : Bool) :
    ((sort_tasks tasks sort_type ascending).map erase_id).Perm (tasks.map erase_id) := by
  unfold sort_tasks
  simp only
  rw [map_erase_id_update]
  apply List.Perm.map
  split_ifs
  · exact qsort_perm _ _
  · exact qsort_perm _ _
  · exact qsort_perm _ _
  · exact qsort_perm _ _
  · exact List.Perm.refl _

/-- A selection that does not look at ids picks the same tasks, in the same order, from
`update_task_ids (qsort cmp tasks)` as from `tasks` once it does so from `qsort cmp tasks`. -/
theorem filter_sorted_erase_id (sorted tasks : List Task) (p : Task → Bool)
    (hp : ∀ t, p (erase_id t) = p t) (h : sorted.filter p = tasks.filter p) :
    ((update_task_ids sorted).map erase_id).filter p = (tasks.map erase_id).filter p := by
  have hcomp : p ∘ erase_id = p := funext hp
  rw [map_erase_id_update, List.filter_map, List.filter_map, hcomp, h]

theorem priority_sort_keeps_ties (tasks : List Task) (ascending : Bool) (k : Int)
    (hrange : ∀ a ∈ tasks, ∀ b ∈ tasks,
      -2147483648 ≤ a.priority - b.priority ∧ a.priority - b.priority ≤ 2147483647) :
    ((sort_tasks tasks 'p' ascending).map erase_id).filter (fun t => decide (t.priority = k))
      = (tasks.map erase_id).filter (fun t => decide (t.priority = k)) := by
  cases ascending with
  | true =>
    have e : sort_tasks tasks 'p' true = update_task_ids (qsort compare_priority_asc tasks) :=
      rfl
    rw [e]
    apply filter_sorted_erase_id _ _ (fun t => decide (t.priority = k)) (fun _ => rfl)
    refine qsort_filter compare_priority_asc (fun a b => a.priority ≤ b.priority)
      (fun t => t ∈ tasks) _ (fun a b c h1 h2 => le_trans h1 h2) ?_ ?_ ?_ tasks
      (fun x hx => hx)
    · intro a b ha hb h
      have := hrange a ha b hb
      unfold compare_priority_asc at h
      rw [wrap_int_of_range _ this.1 this.2] at h
      omega
    · intro a b ha hb h
      have := hrange a ha b hb
      unfold compare_priority_asc at h
      rw [wrap_int_of_range _ this.1 this.2] at h
      show b.priority ≤ a.priority
      omega
    · intro a b ha hb h hpb
      have := hrange a ha b hb
      unfold compare_priority_asc at h
      rw [wrap_int_of_range _ this.1 this.2] at h
      simp only [decide_eq_true_eq] at hpb
      refine ⟨by simp only [decide_eq_false_iff_not]; omega, ?_⟩
      intro x _ hax
      simp only [decide_eq_false_iff_not]
      have hax' : a.priority ≤ x.priority := hax
      omega
  | false =>
    have e : sort_tasks tasks 'p' false
        = update_task_ids (qsort compare_priority_desc tasks) := rfl
    rw [e]
    apply filter_sorted_erase_id _ _ (fun t => decide (t.priority = k)) (fun _ => rfl)
    refine qsort_filter compare_priority_desc (fun a b => a.priority ≥ b.priority)
      (fun t => t ∈ tasks) _ (fun a b c h1 h2 => le_trans h2 h1) ?_ ?_ ?_ tasks
      (fun x hx => hx)
    · intro a b ha hb h
      have := hrange b hb a ha
      unfold compare_priority_desc at h
      rw [wrap_int_of_range _ this.1 this.2] at h
      show b.priority ≤ a.priority
      omega
    · intro a b ha hb h
      have := hrange b hb a ha
      unfold compare_priority_desc at h
      rw [wrap_int_of_range _ this.1 this.2] at h
      show a.priority ≤ b.priority
      omega
    · intro a b ha hb h hpb
      have := hrange b hb a ha
      unfold compare_priority_desc at h
      rw [wrap_int_of_range _ this.1 this.2] at h
      simp only [decide_eq_true_eq] at hpb
      refine ⟨by simp only [decide_eq_false_iff_not]; omega, ?_⟩
      intro x _ hax
      simp only [decide_eq_false_iff_not]
      have hax' : x.priority ≤ a.priority := hax
      omega

theorem due_sort_keeps_dated_ties (tasks : List Task) (ascending : Bool) (d : CString)
    (hd : d ≠ NO_DUE_DATE) :
    ((sort_tasks tasks 'd' ascending).map erase_id).filter (fun t => decide (t.due_date = d))
      = (tasks.map erase_id).filter (fun t => decide (t.due_date = d)) := by
  cases ascending with
  | true =>
    have e : sort_tasks tasks 'd' true
        = update_task_ids (qsort compare_due_date_desc tasks) := rfl
    rw [e]
    apply filter_sorted_erase_id _ _ (fun t => decide (t.due_date = d)) (fun _ => rfl)
    refine qsort_filter compare_due_date_desc due_order_up (fun _ => True) _
      due_order_up_trans (fun a b _ _ => compare_due_date_desc_le a b)
      (fun a b _ _ => compare_due_date_desc_gt a b) ?_ tasks (fun _ _ => trivial)
    intro a b _ _ h hpb
    simp only [decide_eq_true_eq] at hpb
    have hb : b.due_date ≠ NO_DUE_DATE := by rw [hpb]; exact hd
    have hba := compare_due_date_desc_gt a b h
    have hab : ¬ due_order_up a b := fun hh => h (by
      unfold compare_due_date_desc
      rcases hh with hh | ⟨hna, hle⟩
      · exact absurd hh hb
      · rw [if_neg (fun e0 => hna ((strcmp_eq_zero_iff _ _).1 e0)),
          if_neg (fun e0 => hb ((strcmp_eq_zero_iff _ _).1 e0))]
        exact (strcmp_nonpos_iff _ _).2 hle)
    have key : ∀ x : Task, (x = a ∨ due_order_up a x) → x.due_date ≠ d := by
      intro x hx hxd
      apply hab
      rcases hx with rfl | hx
      · rcases hba with hba | ⟨-, hle⟩
        · exact absurd (hxd ▸ hba) hd
        · exact Or.inr ⟨by rw [hxd]; exact hd, by rw [hxd, ← hpb]⟩
      · rcases hx with hx | ⟨hna, hle⟩
        · exact absurd (hxd ▸ hx) hd
        · exact Or.inr ⟨hna, by rw [hpb, ← hxd]; exact hle⟩
    refine ⟨by simpa using key a (Or.inl rfl), ?_⟩
    intro x _ hax
    simpa using key x (Or.inr hax)
  | false =>
    have e : sort_tasks tasks 'd' false
        = update_task_ids (qsort compare_due_date_asc tasks) := rfl
    rw [e]
    apply filter_sorted_erase_id _ _ (fun t => decide (t.due_date = d)) (fun _ => rfl)
    refine qsort_filter compare_due_date_asc due_order_down (fun _ => True) _
      due_order_down_trans (fun a b _ _ => compare_due_date_asc_le a b)
      (fun a b _ _ => compare_due_date_asc_gt a b) ?_ tasks (fun _ _ => trivial)
    intro a b _ _ h hpb
    simp only [decide_eq_true_eq] at hpb
    have hb : b.due_date ≠ NO_DUE_DATE := by rw [hpb]; exact hd
    have hba := compare_due_date_asc_gt a b h
    have hab : ¬ due_order_down a b := fun hh => h (by
      unfold compare_due_date_asc
      rcases hh with hh | ⟨hna, hle⟩
      · exact absurd hh hb
      · rw [if_neg (fun e0 => hna ((strcmp_eq_zero_iff _ _).1 e0)),
          if_neg (fun e0 => hb ((strcmp_eq_zero_iff _ _).1 e0))]
        exact (strcmp_nonpos_iff _ _).2 hle)
    have key : ∀ x : Task, (x = a ∨ due_order_down a x) → x.due_date ≠ d := by
      intro x hx hxd
      apply hab
      rcases hx with rfl | hx
      · rcases hba with hba | ⟨-, hle⟩
        · exact absurd (hxd ▸ hba) hd
        · exact Or.inr ⟨by rw [hxd]; exact hd, by rw [hxd, ← hpb]⟩
      · rcases hx with hx | ⟨hna, hle⟩
        · exact absurd (hxd ▸ hx) hd
        · exact Or.inr ⟨hna, by rw [hpb, ← hxd]; exact hle⟩
    refine ⟨by simpa using key a (Or.inl rfl), ?_⟩
    intro x _ hax
    simpa using key x (Or.inr hax)

/-- C11 (amended): for every collection, key and direction the result of `sort_tasks` is a
permutation of the input (ids aside).  Under the priority key, when the difference of any
two priorities fits a 32-bit `int`, the tasks of each priority come out in the order they
had; under the due-date key the tasks of each date string other than `N/A` come out in the
order they had. -/
theorem sort_tasks_permutes_and_keeps_ties (tasks : List Task) (sort_type : Char)
    (ascending : Bool) :
    ((sort_tasks tasks sort_type ascending).map erase_id).Perm (tasks.map erase_id) ∧
    ((∀ a ∈ tasks, ∀ b ∈ tasks,
        -2147483648 ≤ a.priority - b.priority ∧ a.priority - b.priority ≤ 2147483647) →
      ∀ k : Int,
        ((sort_tasks tasks 'p' ascending).map erase_id).filter
            (fun t => decide (t.priority = k))
          = (tasks.map erase_id).filter (fun t => decide (t.priority = k))) ∧
    (∀ d : CString, d ≠ NO_DUE_DATE →
      ((sort_tasks tasks 'd' ascending).map erase_id).filter
          (fun t => decide (t.due_date = d))
        = (tasks.map erase_id).filter (fun t => decide (t.due_date = d))) :=
  ⟨sort_tasks_perm tasks sort_type ascending,
   fun hrange k => priority_sort_keeps_ties tasks ascending k hrange,
   fun d hd => due_sort_keeps_dated_ties tasks ascending d hd⟩

/-- C11 (amended) on five tasks: sorted by priority, the three tasks of priority 2 stay in
the order a, c, e; sorted by due date, the two tasks due 2024-02-01 stay in the order
a, c. -/
theorem sort_tasks_permutes_and_keeps_ties_witness :
    (((sort_tasks tied_tasks 'p' true).map erase_id).filter
        (fun t => decide (t.priority = 2))).map (·.title)
      = ["a".toList, "c".toList, "e".toList] ∧
    (((sort_tasks tied_tasks 'd' true).map erase_id).filter
        (fun t => decide (t.due_date = "2024-02-01".toList))).map (·.title)
      = ["a".toList, "c".toList] := by
  have h := sort_tasks_permutes_and_keeps_ties tied_tasks 'p' true
  refine ⟨?_, ?_⟩
  · rw [h.2.1 (by decide) 2]
    decide
  · rw [h.2.2 "2024-02-01".toList (by decide)]
    decide

/-! ## C14: advancing the due date of a recurring task -/

theorem earlier_trans (a b c : Date) (h1 : a.earlier b) (h2 : b.earlier c) :
    a.earlier c := by
  unfold Date.earlier at *
  omega

theorem next_day_later (x : Date) (hx : x.valid) : x.earlier (next_day x) := by
  obtain ⟨h1, h2, h3, h4⟩ := hx
  unfold Date.earlier next_day
  split_ifs
  · dsimp only; omega
  · dsimp only; omega
  · dsimp only; omega

theorem iterate_next_day_later (x : Date) (hx : x.valid) (k : Nat) :
    next_day^[k] x = x ∨ x.earlier (next_day^[k] x) := by
  induction k with
  | zero => exact Or.inl rfl
  | succ k ih =>
    rw [Function.iterate_succ_apply']
    have hv := iterate_next_day_valid x hx k
    rcases ih with h | h
    · rw [h]; exact Or.inr (next_day_later x hx)
    · exact Or.inr (earlier_trans _ _ _ h (next_day_later _ hv))

theorem iterate_next_day_succ_later (x : Date) (hx : x.valid) (k : Nat) :
    x.earlier (next_day^[k + 1] x) := by
  rw [Function.iterate_succ_apply']
  rcases iterate_next_day_later x hx k with h | h
  · rw [h]; exact next_day_later x hx
  · exact earlier_trans _ _ _ h (next_day_later _ (iterate_next_day_valid x hx k))

theorem first_of_next_month_valid (x : Date) (hx : x.valid) :
    (first_of_next_month x).valid := by
  obtain ⟨h1, h2, -, -⟩ := hx
  unfold first_of_next_month Date.valid
  split_ifs
  · have := days_in_month_ge (x.year + 1) 1
    dsimp only; omega
  · have := days_in_month_ge x.year (x.month + 1)
    dsimp only; omega

theorem advance_date_valid (x : Date) (hx : x.valid) (r : Int) : (advance_date x r).valid := by
  unfold advance_date
  split_ifs
  · exact iterate_next_day_valid x hx 1
  · exact iterate_next_day_valid x hx 7
  · exact iterate_next_day_valid x hx 14
  · exact iterate_next_day_valid _ (first_of_next_month_valid x hx) _
  · refine iterate_next_day_valid _ ?_ _
    have := days_in_month_ge (x.year + 1) x.month
    exact ⟨hx.1, hx.2.1, le_refl _, by dsimp only; omega⟩
  · exact hx

theorem advance_date_later (x : Date) (hx : x.valid) (r : Int) (hr : 1 ≤ r ∧ r ≤ 5) :
    x.earlier (advance_date x r) := by
  unfold advance_date RECURRENCE_DAILY RECURRENCE_WEEKLY RECURRENCE_BIWEEKLY
    RECURRENCE_MONTHLY RECURRENCE_YEARLY
  split_ifs with h1 h2 h3 h4 h5
  · exact iterate_next_day_succ_later x hx 0
  · exact iterate_next_day_succ_later x hx 6
  · exact iterate_next_day_succ_later x hx 13
  · have hf : x.earlier (first_of_next_month x) := by
      obtain ⟨a1, a2, a3, a4⟩ := hx
      unfold Date.earlier first_of_next_month
      split_ifs
      · dsimp only; omega
      · dsimp only; omega
    rcases iterate_next_day_later _ (first_of_next_month_valid x hx) (x.day - 1).toNat
      with h | h
    · rw [h]; exact hf
    · exact earlier_trans _ _ _ hf h
  · have hv : Date.valid { year := x.year + 1, month := x.month, day := 1 } := by
      have := days_in_month_ge (x.year + 1) x.month
      exact ⟨hx.1, hx.2.1, le_refl _, by dsimp only; omega⟩
    have hf : x.earlier { year := x.year + 1, month := x.month, day := 1 } := by
      unfold Date.earlier
      dsimp only
      omega
    rcases iterate_next_day_later _ hv (x.day - 1).toNat with h | h
    · rw [h]; exact hf
    · exact earlier_trans _ _ _ hf h
  · omega

theorem normalize_date_next_month (x : Date) (hx : x.valid) :
    normalize_date ⟨x.year - 1900, x.month - 1 + 1, x.day⟩
      = next_day^[(x.day - 1).toNat] (first_of_next_month x) := by
  obtain ⟨hm1, hm2, hd1, hd2⟩ := hx
  unfold normalize_date first_of_next_month
  simp only
  rw [if_pos hd1]
  by_cases h12 : x.month = 12
  · rw [if_pos h12]
    have e1 : x.year - 1900 + 1900 + (x.month - 1 + 1) / 12 = x.year + 1 := by omega
    have e2 : (x.month - 1 + 1) % 12 + 1 = 1 := by omega
    rw [e1, e2]
  · rw [if_neg h12]
    have e1 : x.year - 1900 + 1900 + (x.month - 1 + 1) / 12 = x.year := by omega
    have e2 : (x.month - 1 + 1) % 12 + 1 = x.month + 1 := by omega
    rw [e1, e2]

theorem normalize_date_next_year (x : Date) (hx : x.valid) :
    normalize_date ⟨x.year - 1900 + 1, x.month - 1, x.day⟩
      = next_day^[(x.day - 1).toNat] { year := x.year + 1, month := x.month, day := 1 } := by
  obtain ⟨hm1, hm2, hd1, hd2⟩ := hx
  unfold normalize_date
  simp only
  rw [if_pos hd1]
  have e1 : x.year - 1900 + 1 + 1900 + (x.month - 1) / 12 = x.year + 1 := by omega
  have e2 : (x.month - 1) % 12 + 1 = x.month := by omega
  rw [e1, e2]

/-- The date `mktime` normalises the advanced struct to is the advanced date of the
specification. -/
theorem normalize_adjusted_tm (x : Date) (hx : x.valid) (recurrence : Int)
    (hrec : 1 ≤ recurrence ∧ recurrence ≤ 5) :
    normalize_date (adjusted_tm x recurrence) = advance_date x recurrence := by
  have h1 : normalize_date ⟨x.year - 1900, x.month - 1, x.day + 1⟩ = next_day^[1] x := by
    have := normalize_date_add_days x hx 1
    simpa only [Nat.cast_one] using this
  have h7 : normalize_date ⟨x.year - 1900, x.month - 1, x.day + 7⟩ = next_day^[7] x := by
    have := normalize_date_add_days x hx 7
    simpa only [Nat.cast_ofNat] using this
  have h14 : normalize_date ⟨x.year - 1900, x.month - 1, x.day + 14⟩ = next_day^[14] x := by
    have := normalize_date_add_days x hx 14
    simpa only [Nat.cast_ofNat] using this
  have hcases : recurrence = 1 ∨ recurrence = 2 ∨ recurrence = 3 ∨ recurrence = 4 ∨
      recurrence = 5 := by omega
  rcases hcases with h | h | h | h | h
  · rw [h]; exact h1
  · rw [h]; exact h7
  · rw [h]; exact h14
  · rw [h]; exact normalize_date_next_month x hx
  · rw [h]; exact normalize_date_next_year x hx

set_option maxRecDepth 8000 in
/-- C14 (as stated, refuted): in a zone that keeps UTC the yearly task due 9999-06-15 gets
the due date `10000-06-15` and the daily task due 0999-01-01 gets `999-01-02`, neither of
which is the `YYYY-MM-DD` form of a date (`strftime` prints the year as a plain number).
And in Europe/Dublin, whose winter time is behind its `tm_isdst = 0` time, the daily task
due 2024-01-15 keeps the due date 2024-01-15, which is not later than the input, and the
monthly task due 2024-01-31 gets 2024-03-01 instead of 2024-03-02. -/
theorem update_task_recurrence_not_ymd_or_not_later :
    ((update_task_recurrence utc_zone (recurring_task "9999-06-15" 5)).due_date
        = "10000-06-15".toList ∧
      advance_date { year := 9999, month := 6, day := 15 } 5
        = { year := 10000, month := 6, day := 15 }) ∧
    ((update_task_recurrence utc_zone (recurring_task "0999-01-01" 1)).due_date
        = "999-01-02".toList ∧
      ymd_string (advance_date { year := 999, month := 1, day := 1 } 1)
        = "0999-01-02".toList) ∧
    ((update_task_recurrence dublin_zone (recurring_task "2024-01-15" 1)).due_date
        = "2024-01-15".toList ∧
      ymd_string (advance_date { year := 2024, month := 1, day := 15 } 1)
        = "2024-01-16".toList) ∧
    ((update_task_recurrence dublin_zone (recurring_task "2024-01-31" 4)).due_date
        = "2024-03-01".toList ∧
      ymd_string (advance_date { year := 2024, month := 1, day := 31 } 4)
        = "2024-03-02".toList) := by
  decide

/-- C14 (amended): for a task whose due date is a valid date `x` written `YYYY-MM-DD` and
whose recurrence is daily, weekly, biweekly, monthly or yearly, `update_task_recurrence`
replaces the due date by the `YYYY-MM-DD` form of `advance_date x recurrence` (`x` plus 1,
7 or 14 days, or `x` with the month or the year increased by one and normalised) and
changes no other field, provided the year of that date is 1000..9999 and local time at the
instant `mktime` returns for it is not behind the zone's `tm_isdst = 0` time; that date is
a valid calendar date strictly after `x`. -/
theorem update_task_recurrence_advances (zone : Zone) (t : Task) (x : Date) (hx : x.valid)
    (hy : 0 ≤ x.year ∧ x.year ≤ 9999) (hdue : t.due_date = ymd_string x)
    (hrec : 1 ≤ t.recurrence ∧ t.recurrence ≤ 5)
    (hyear : 1000 ≤ (advance_date x t.recurrence).year ∧
      (advance_date x t.recurrence).year ≤ 9999)
    (hzone : mktime_day_shift zone (adjusted_tm x t.recurrence) = 0) :
    update_task_recurrence zone t
      = { t with due_date := ymd_string (advance_date x t.recurrence) } ∧
    (advance_date x t.recurrence).valid ∧
    x.earlier (advance_date x t.recurrence) := by
  have hne : t.recurrence ≠ RECURRENCE_NONE := by
    unfold RECURRENCE_NONE
    omega
  exact ⟨update_task_recurrence_ymd zone t x _ hx hy hdue hne
      (normalize_adjusted_tm x hx _ hrec) hyear hzone,
    advance_date_valid x hx _, advance_date_later x hx _ hrec⟩

set_option maxRecDepth 8000 in
/-- C14 (amended) at four dates, in a zone that keeps UTC: 2024-12-15 monthly gives
2025-01-15 (the month carries into the year), 2024-01-31 monthly gives 2024-03-02,
2024-02-29 yearly gives 2025-03-01, and 2024-12-25 biweekly gives 2025-01-08. -/
theorem update_task_recurrence_advances_witness :
    (update_task_recurrence utc_zone (recurring_task "2024-12-15" 4)).due_date
      = "2025-01-15".toList ∧
    (update_task_recurrence utc_zone (recurring_task "2024-01-31" 4)).due_date
      = "2024-03-02".toList ∧
    (update_task_recurrence utc_zone (recurring_task "2024-02-29" 5)).due_date
      = "2025-03-01".toList ∧
    (update_task_recurrence utc_zone (recurring_task "2024-12-25" 3)).due_date
      = "2025-01-08".toList ∧
    Date.earlier { year := 2024, month := 12, day := 15 }
      (advance_date { year := 2024, month := 12, day := 15 } 4) := by
  have h := update_task_recurrence_advances utc_zone (recurring_task "2024-12-15" 4)
    { year := 2024, month := 12, day := 15 } (by decide) (by decide) (by decide) (by decide)
    (by decide) (by decide)
  refine ⟨?_, by decide, by decide, by decide, h.2.2⟩
  rw [h.1]
  decide

end TodoApp
